import Mathlib

/-!
NBT decoder (`parser.go`, `tags.go`): shallow embedding and verified properties

The Go package decodes a Named-Binary-Tag stream into a tree of tags.

Modelling decisions
* A byte is `Fin 256`.  A Go `string` is a byte sequence (`string(buf)` performs
  no UTF-8 validation), so names and string values are `List Byte`.
* An `io.Reader` may deliver fewer bytes than a call of `Read` asks for, and the
  parser ignores both return values of `data.Read(buf)`.  The structure `Reader`
  models this: it holds the bytes not yet delivered and, for each coming call of
  `Read`, the largest number of bytes that call delivers; the undelivered tail of
  the zero-initialised buffer stays zero (readers such as `bytes.Reader` and
  `bufio.Reader` write only the bytes they deliver).  The functions in the
  namespace `Reader` embed `parser.go` over such a reader.
* The functions outside that namespace embed the same code over a reader that
  delivers every requested byte while bytes remain (a `bytes.Reader`): there the
  reader is just the list `Stream` of bytes not yet consumed.  The two embeddings
  agree on such readers (`Reader_Parse_never_short`).
* Fixed-width integers are `Int`/`Nat` with explicit reduction modulo `2^w`.
* `float32`/`float64` values are represented by their IEEE-754 bit pattern
  (`math.Float32frombits` / `math.Float64frombits` do not alter the bits).
* A Go `panic` is an `Except.error`; the mutually recursive readers take a
  `fuel` argument which every call decrements, and report `out_of_fuel` when it
  is exhausted.
-/

namespace Nbt

/-- One octet. -/
abbrev Byte := Fin 256

/-- The unread remainder of an `io.Reader` that delivers every requested byte while
bytes remain. -/
abbrev Stream := List Byte

/-! ## tags.go -/

def tag_end : Int := 0
def tag_byte : Int := 1
def tag_short : Int := 2
def tag_int : Int := 3
def tag_long : Int := 4
def tag_float : Int := 5
def tag_double : Int := 6
def tag_byte_array : Int := 7
def tag_string : Int := 8
def tag_list : Int := 9
def tag_compound : Int := 10
def tag_int_array : Int := 11

/-- The twelve concrete types implementing the `Tag` interface.  `FloatTag` and
`DoubleTag` carry the bit pattern of their value. -/
inductive Tag where
  | EndTag : Tag
  | ByteTag (name : List Byte) (Value : Int) : Tag
  | ShortTag (name : List Byte) (Value : Int) : Tag
  | IntTag (name : List Byte) (Value : Int) : Tag
  | LongTag (name : List Byte) (Value : Int) : Tag
  | FloatTag (name : List Byte) (Value : Nat) : Tag
  | DoubleTag (name : List Byte) (Value : Nat) : Tag
  | StringTag (name : List Byte) (Value : List Byte) : Tag
  | ByteArrayTag (name : List Byte) (Values : List Byte) : Tag
  | ListTag (name : List Byte) (TagType : Int) (Values : List Tag) : Tag
  | CompoundTag (name : List Byte) (Values : List Tag) : Tag
  | IntArrayTag (name : List Byte) (Values : List Int) : Tag

/-- The method `GetName` of every tag type (`EndTag` returns `""`). -/
def Tag.GetName : Tag → List Byte
  | .EndTag => []
  | .ByteTag name _ => name
  | .ShortTag name _ => name
  | .IntTag name _ => name
  | .LongTag name _ => name
  | .FloatTag name _ => name
  | .DoubleTag name _ => name
  | .StringTag name _ => name
  | .ByteArrayTag name _ => name
  | .ListTag name _ _ => name
  | .CompoundTag name _ => name
  | .IntArrayTag name _ => name

/-- The type assertion `tag.(EndTag)` used by `read_compound_values`. -/
def Tag.isEndTag : Tag → Bool
  | .EndTag => true
  | _ => false

/-- The loop of `CompoundTag.ChildByName` over `t.Values`; `none` is Go's `nil`. -/
def ChildByName_loop : List Tag → List Byte → Option Tag
  | [], _ => none
  | v :: rest, name => if v.GetName = name then some v else ChildByName_loop rest name

/-- The method `func (t CompoundTag) ChildByName(name string) Tag`; the receiver is
given by its two fields. -/
def ChildByName (_t_name : List Byte) (t_Values : List Tag) (name : List Byte) : Option Tag :=
  ChildByName_loop t_Values name

/-! ## parser.go -/

/-- The ways in which the decoder aborts. -/
inductive Panic where
  /-- `panic("read_tag: unknown tag %d")` -/
  | read_tag_unknown_tag (tag : Int) : Panic
  /-- `panic("Parse: unknown tag %d")` -/
  | Parse_unknown_tag (tag : Int) : Panic
  /-- `panic("read_list_values: unhandled list type %d")` -/
  | unhandled_list_type (list_type : Int) : Panic
  /-- The runtime panic of `make([]byte, size)` with negative `size`. -/
  | makeslice_len_out_of_range : Panic
  /-- The recursion budget of the embedding is exhausted (not a Go behaviour). -/
  | out_of_fuel : Panic
  deriving DecidableEq, Repr

/-- `buf := make([]byte, n); data.Read(buf)` on a reader that delivers every requested
byte while bytes remain: the buffer after the call, zero from where the stream ended,
and the remaining stream.  `Reader.Read` is the same call on a reader that may deliver
fewer bytes. -/
def Read (data : Stream) (n : Nat) : List Byte × Stream :=
  (data.take n ++ List.replicate (n - data.length) 0, data.drop n)

/-- `binary.BigEndian.Uint16/Uint32/Uint64` on a buffer of 2/4/8 bytes. -/
def BigEndian (buf : List Byte) : Nat :=
  buf.foldl (fun acc b => acc * 256 + b.val) 0

/-- Conversion of an unsigned `w`-bit pattern to the signed type of the same width
(`int8(..)`, `int16(..)`, `int32(..)`, `int64(..)`). -/
def to_signed (w : Nat) (u : Nat) : Int :=
  if u % 2 ^ w < 2 ^ (w - 1) then ((u % 2 ^ w : Nat) : Int)
  else ((u % 2 ^ w : Nat) : Int) - ((2 ^ w : Nat) : Int)

def read_int8 (data : Stream) : Int × Stream :=
  let (buf, data) := Read data 1
  (to_signed 8 (buf.getD 0 0).val, data)

def read_int16 (data : Stream) : Int × Stream :=
  let (buf, data) := Read data 2
  (to_signed 16 (BigEndian buf), data)

def read_int32 (data : Stream) : Int × Stream :=
  let (buf, data) := Read data 4
  (to_signed 32 (BigEndian buf), data)

def read_int64 (data : Stream) : Int × Stream :=
  let (buf, data) := Read data 8
  (to_signed 64 (BigEndian buf), data)

def read_float32 (data : Stream) : Nat × Stream :=
  let (buf, data) := Read data 4
  (BigEndian buf, data)

def read_float64 (data : Stream) : Nat × Stream :=
  let (buf, data) := Read data 8
  (BigEndian buf, data)

def read_bytes (data : Stream) (size : Int) : Except Panic (List Byte × Stream) :=
  if size < 0 then .error .makeslice_len_out_of_range
  else .ok (Read data size.toNat)

def read_string (data : Stream) : List Byte × Stream :=
  let (size, data) := read_int16 data
  if size > 0 then Read data size.toNat
  else ([], data)

def read_tag (data : Stream) : Except Panic (Int × Stream) :=
  let (tag, data) := read_int8 data
  if tag < 0 ∨ tag > tag_int_array then .error (.read_tag_unknown_tag tag)
  else .ok (tag, data)

/-- The loop `for i := 0; i < size; i++` of `read_int_array_values`, by the number
of iterations still to run. -/
def read_int_array_values_loop : Nat → Stream → List Int → List Int × Stream
  | 0, data, values => (values, data)
  | n + 1, data, values =>
    let (v, data) := read_int32 data
    read_int_array_values_loop n data (values ++ [v])

def read_int_array_values (data : Stream) (size : Int) : List Int × Stream :=
  read_int_array_values_loop size.toNat data []

mutual

/-- `func Parse(data io.Reader) Tag`, returning the tag and the remaining stream. -/
def Parse : Nat → Stream → Except Panic (Tag × Stream)
  | 0, _ => .error .out_of_fuel
  | fuel + 1, data =>
    match read_tag data with
    | .error e => .error e
    | .ok (tag, data) =>
      let (name, data) := if tag ≠ tag_end then read_string data else ([], data)
      if tag = tag_end then .ok (.EndTag, data)
      else if tag = tag_byte then
        let (v, data) := read_int8 data
        .ok (.ByteTag name v, data)
      else if tag = tag_short then
        let (v, data) := read_int16 data
        .ok (.ShortTag name v, data)
      else if tag = tag_int then
        let (v, data) := read_int32 data
        .ok (.IntTag name v, data)
      else if tag = tag_long then
        let (v, data) := read_int64 data
        .ok (.LongTag name v, data)
      else if tag = tag_float then
        let (v, data) := read_float32 data
        .ok (.FloatTag name v, data)
      else if tag = tag_double then
        let (v, data) := read_float64 data
        .ok (.DoubleTag name v, data)
      else if tag = tag_byte_array then
        let (size, data) := read_int32 data
        match read_bytes data size with
        | .error e => .error e
        | .ok (buf, data) => .ok (.ByteArrayTag name buf, data)
      else if tag = tag_string then
        let (v, data) := read_string data
        .ok (.StringTag name v, data)
      else if tag = tag_list then
        match read_tag data with
        | .error e => .error e
        | .ok (list_type, data) =>
          let (size, data) := read_int32 data
          match read_list_values fuel data list_type size 0 [] with
          | .error e => .error e
          | .ok (values, data) => .ok (.ListTag name list_type values, data)
      else if tag = tag_compound then
        match read_compound_values fuel data [] with
        | .error e => .error e
        | .ok (values, data) => .ok (.CompoundTag name values, data)
      else if tag = tag_int_array then
        let (size, data) := read_int32 data
        let (values, data) := read_int_array_values data size
        .ok (.IntArrayTag name values, data)
      else .error (.Parse_unknown_tag tag)

/-- `func read_compound_values(data io.Reader) []Tag`; the local slice `values`
(initially nil) is the last argument. -/
def read_compound_values : Nat → Stream → List Tag → Except Panic (List Tag × Stream)
  | 0, _, _ => .error .out_of_fuel
  | fuel + 1, data, values =>
    match Parse fuel data with
    | .error e => .error e
    | .ok (tag, data) =>
      if tag.isEndTag then .ok (values, data)
      else read_compound_values fuel data (values ++ [tag])

/-- `func read_list_values(data io.Reader, list_type int, size int) []Tag`; the loop
counter `i` (initially 0) and the local slice `values` (initially nil) are the last
two arguments. -/
def read_list_values : Nat → Stream → Int → Int → Int → List Tag →
    Except Panic (List Tag × Stream)
  | 0, _, _, _, _, _ => .error .out_of_fuel
  | fuel + 1, data, list_type, size, i, values =>
    if i < size then
      if list_type = tag_float then
        let (v, data) := read_float32 data
        read_list_values fuel data list_type size (i + 1) (values ++ [.FloatTag [] v])
      else if list_type = tag_double then
        let (v, data) := read_float64 data
        read_list_values fuel data list_type size (i + 1) (values ++ [.DoubleTag [] v])
      else if list_type = tag_compound then
        match read_compound_values fuel data [] with
        | .error e => .error e
        | .ok (vs, data) =>
          read_list_values fuel data list_type size (i + 1) (values ++ [.CompoundTag [] vs])
      else .error (.unhandled_list_type list_type)
    else .ok (values, data)

end

/-! ## parser.go over a reader that may deliver short reads -/

/-- An `io.Reader` over a finite byte sequence: the bytes not yet delivered, and for each
coming call of `Read` the largest number of bytes that call delivers (a call beyond the
end of that list delivers every byte asked for that remains). -/
structure Reader where
  bytes : List Byte
  caps : List Nat

namespace Reader

/-- The number of bytes the next call `Read` with a buffer of `n` bytes delivers. -/
def delivered (data : Reader) (n : Nat) : Nat :=
  min (min n (data.caps.headD n)) data.bytes.length

/-- `buf := make([]byte, n); data.Read(buf)` with both results ignored: the buffer after
the call, whose undelivered tail is still zero, and the reader after the call. -/
def Read (data : Reader) (n : Nat) : List Byte × Reader :=
  (data.bytes.take (data.delivered n) ++ List.replicate (n - data.delivered n) 0,
    ⟨data.bytes.drop (data.delivered n), data.caps.tail⟩)

def read_int8 (data : Reader) : Int × Reader :=
  let (buf, data) := Read data 1
  (to_signed 8 (buf.getD 0 0).val, data)

def read_int16 (data : Reader) : Int × Reader :=
  let (buf, data) := Read data 2
  (to_signed 16 (BigEndian buf), data)

def read_int32 (data : Reader) : Int × Reader :=
  let (buf, data) := Read data 4
  (to_signed 32 (BigEndian buf), data)

def read_int64 (data : Reader) : Int × Reader :=
  let (buf, data) := Read data 8
  (to_signed 64 (BigEndian buf), data)

def read_float32 (data : Reader) : Nat × Reader :=
  let (buf, data) := Read data 4
  (BigEndian buf, data)

def read_float64 (data : Reader) : Nat × Reader :=
  let (buf, data) := Read data 8
  (BigEndian buf, data)

def read_bytes (data : Reader) (size : Int) : Except Panic (List Byte × Reader) :=
  if size < 0 then .error .makeslice_len_out_of_range
  else .ok (Read data size.toNat)

def read_string (data : Reader) : List Byte × Reader :=
  let (size, data) := read_int16 data
  if size > 0 then Read data size.toNat
  else ([], data)

def read_tag (data : Reader) : Except Panic (Int × Reader) :=
  let (tag, data) := read_int8 data
  if tag < 0 ∨ tag > tag_int_array then .error (.read_tag_unknown_tag tag)
  else .ok (tag, data)

/-- The loop `for i := 0; i < size; i++` of `read_int_array_values`, by the number
of iterations still to run. -/
def read_int_array_values_loop : Nat → Reader → List Int → List Int × Reader
  | 0, data, values => (values, data)
  | n + 1, data, values =>
    let (v, data) := read_int32 data
    read_int_array_values_loop n data (values ++ [v])

def read_int_array_values (data : Reader) (size : Int) : List Int × Reader :=
  read_int_array_values_loop size.toNat data []

mutual

/-- `func Parse(data io.Reader) Tag`, returning the tag and the reader after the call. -/
def Parse : Nat → Reader → Except Panic (Tag × Reader)
  | 0, _ => .error .out_of_fuel
  | fuel + 1, data =>
    match read_tag data with
    | .error e => .error e
    | .ok (tag, data) =>
      let (name, data) := if tag ≠ tag_end then read_string data else ([], data)
      if tag = tag_end then .ok (.EndTag, data)
      else if tag = tag_byte then
        let (v, data) := read_int8 data
        .ok (.ByteTag name v, data)
      else if tag = tag_short then
        let (v, data) := read_int16 data
        .ok (.ShortTag name v, data)
      else if tag = tag_int then
        let (v, data) := read_int32 data
        .ok (.IntTag name v, data)
      else if tag = tag_long then
        let (v, data) := read_int64 data
        .ok (.LongTag name v, data)
      else if tag = tag_float then
        let (v, data) := read_float32 data
        .ok (.FloatTag name v, data)
      else if tag = tag_double then
        let (v, data) := read_float64 data
        .ok (.DoubleTag name v, data)
      else if tag = tag_byte_array then
        let (size, data) := read_int32 data
        match read_bytes data size with
        | .error e => .error e
        | .ok (buf, data) => .ok (.ByteArrayTag name buf, data)
      else if tag = tag_string then
        let (v, data) := read_string data
        .ok (.StringTag name v, data)
      else if tag = tag_list then
        match read_tag data with
        | .error e => .error e
        | .ok (list_type, data) =>
          let (size, data) := read_int32 data
          match read_list_values fuel data list_type size 0 [] with
          | .error e => .error e
          | .ok (values, data) => .ok (.ListTag name list_type values, data)
      else if tag = tag_compound then
        match read_compound_values fuel data [] with
        | .error e => .error e
        | .ok (values, data) => .ok (.CompoundTag name values, data)
      else if tag = tag_int_array then
        let (size, data) := read_int32 data
        let (values, data) := read_int_array_values data size
        .ok (.IntArrayTag name values, data)
      else .error (.Parse_unknown_tag tag)

/-- `func read_compound_values(data io.Reader) []Tag`; the local slice `values`
(initially nil) is the last argument. -/
def read_compound_values : Nat → Reader → List Tag → Except Panic (List Tag × Reader)
  | 0, _, _ => .error .out_of_fuel
  | fuel + 1, data, values =>
    match Parse fuel data with
    | .error e => .error e
    | .ok (tag, data) =>
      if tag.isEndTag then .ok (values, data)
      else read_compound_values fuel data (values ++ [tag])

/-- `func read_list_values(data io.Reader, list_type int, size int) []Tag`; the loop
counter `i` (initially 0) and the local slice `values` (initially nil) are the last
two arguments. -/
def read_list_values : Nat → Reader → Int → Int → Int → List Tag →
    Except Panic (List Tag × Reader)
  | 0, _, _, _, _, _ => .error .out_of_fuel
  | fuel + 1, data, list_type, size, i, values =>
    if i < size then
      if list_type = tag_float then
        let (v, data) := read_float32 data
        read_list_values fuel data list_type size (i + 1) (values ++ [.FloatTag [] v])
      else if list_type = tag_double then
        let (v, data) := read_float64 data
        read_list_values fuel data list_type size (i + 1) (values ++ [.DoubleTag [] v])
      else if list_type = tag_compound then
        match read_compound_values fuel data [] with
        | .error e => .error e
        | .ok (vs, data) =>
          read_list_values fuel data list_type size (i + 1) (values ++ [.CompoundTag [] vs])
      else .error (.unhandled_list_type list_type)
    else .ok (values, data)

end

end Reader

/-- The reader over the bytes `data` that never delivers fewer bytes than are asked for
and remain. -/
def never_short (data : Stream) : Reader := ⟨data, []⟩

/-- The result of a run over a `Stream`, as a result over the never-short reader. -/
def lift_result {α : Type} (r : Except Panic (α × Stream)) : Except Panic (α × Reader) :=
  match r with
  | .error e => .error e
  | .ok (x, data) => .ok (x, never_short data)

/-! ## Instrumentation: the type-tag bytes read by the decoder -/

/-- The byte that `read_tag` obtains from `data` (zero when the stream is exhausted). -/
def tag_byte_read (data : Stream) : Byte := (Read data 1).1.getD 0 0

mutual

/-- The bytes obtained by the calls of `read_tag` during `Parse fuel data`, in order:
the header byte of the node, the element-type byte of a List, and the header bytes
of all nodes read below it. -/
def Parse_tag_bytes : Nat → Stream → List Byte
  | 0, _ => []
  | fuel + 1, data =>
    match read_tag data with
    | .error _ => [tag_byte_read data]
    | .ok (tag, data1) =>
      let data2 := if tag ≠ tag_end then (read_string data1).2 else data1
      if tag = tag_list then
        match read_tag data2 with
        | .error _ => [tag_byte_read data, tag_byte_read data2]
        | .ok (list_type, data3) =>
          tag_byte_read data :: tag_byte_read data2 ::
            read_list_values_tag_bytes fuel (read_int32 data3).2 list_type (read_int32 data3).1 0
      else if tag = tag_compound then
        tag_byte_read data :: read_compound_values_tag_bytes fuel data2
      else [tag_byte_read data]

/-- The bytes obtained by `read_tag` during `read_compound_values fuel data _`. -/
def read_compound_values_tag_bytes : Nat → Stream → List Byte
  | 0, _ => []
  | fuel + 1, data =>
    Parse_tag_bytes fuel data ++
      match Parse fuel data with
      | .error _ => []
      | .ok (tag, data) =>
        if tag.isEndTag then [] else read_compound_values_tag_bytes fuel data

/-- The bytes obtained by `read_tag` during `read_list_values fuel data list_type size i _`. -/
def read_list_values_tag_bytes : Nat → Stream → Int → Int → Int → List Byte
  | 0, _, _, _, _ => []
  | fuel + 1, data, list_type, size, i =>
    if i < size then
      if list_type = tag_float then
        read_list_values_tag_bytes fuel (read_float32 data).2 list_type size (i + 1)
      else if list_type = tag_double then
        read_list_values_tag_bytes fuel (read_float64 data).2 list_type size (i + 1)
      else if list_type = tag_compound then
        read_compound_values_tag_bytes fuel data ++
          match read_compound_values fuel data [] with
          | .error _ => []
          | .ok (_, data) => read_list_values_tag_bytes fuel data list_type size (i + 1)
      else []
    else []

end

/-! ## Instrumentation: the number of bytes requested from the reader -/

/-- The number of bytes `read_string` asks the reader for: two for the length and, when
the length is positive, that many for the text. -/
def read_string_requested (data : Stream) : Nat :=
  2 + (if (read_int16 data).1 > 0 then (read_int16 data).1.toNat else 0)

mutual

/-- The total size of the buffers passed to `data.Read` during `Parse fuel data`.  The
reads are consecutive, so no read runs past the end of the stream exactly when this
total is at most the length of the stream. -/
def Parse_requested : Nat → Stream → Nat
  | 0, _ => 0
  | fuel + 1, data =>
    match read_tag data with
    | .error _ => 1
    | .ok (tag, data1) =>
      let name_requested := if tag ≠ tag_end then read_string_requested data1 else 0
      let data2 := if tag ≠ tag_end then (read_string data1).2 else data1
      1 + name_requested +
        (if tag = tag_end then 0
        else if tag = tag_byte then 1
        else if tag = tag_short then 2
        else if tag = tag_int then 4
        else if tag = tag_long then 8
        else if tag = tag_float then 4
        else if tag = tag_double then 8
        else if tag = tag_byte_array then 4 + (read_int32 data2).1.toNat
        else if tag = tag_string then read_string_requested data2
        else if tag = tag_list then
          match read_tag data2 with
          | .error _ => 1
          | .ok (list_type, data3) =>
            1 + 4 + read_list_values_requested fuel (read_int32 data3).2 list_type
              (read_int32 data3).1 0
        else if tag = tag_compound then read_compound_values_requested fuel data2
        else if tag = tag_int_array then 4 + 4 * (read_int32 data2).1.toNat
        else 0)

/-- The total size of the buffers read during `read_compound_values fuel data _`. -/
def read_compound_values_requested : Nat → Stream → Nat
  | 0, _ => 0
  | fuel + 1, data =>
    Parse_requested fuel data +
      match Parse fuel data with
      | .error _ => 0
      | .ok (tag, data) =>
        if tag.isEndTag then 0 else read_compound_values_requested fuel data

/-- The total size of the buffers read during
`read_list_values fuel data list_type size i _`. -/
def read_list_values_requested : Nat → Stream → Int → Int → Int → Nat
  | 0, _, _, _, _ => 0
  | fuel + 1, data, list_type, size, i =>
    if i < size then
      if list_type = tag_float then
        4 + read_list_values_requested fuel (read_float32 data).2 list_type size (i + 1)
      else if list_type = tag_double then
        8 + read_list_values_requested fuel (read_float64 data).2 list_type size (i + 1)
      else if list_type = tag_compound then
        read_compound_values_requested fuel data +
          match read_compound_values fuel data [] with
          | .error _ => 0
          | .ok (_, data) => read_list_values_requested fuel data list_type size (i + 1)
      else 0
    else 0

end

/-! ## Encodings used to state the properties -/

/-- The two bytes of the big-endian 16-bit encoding of `n`. -/
def be16 (n : Nat) : List Byte :=
  [⟨n / 256 % 256, Nat.mod_lt _ (by decide)⟩, ⟨n % 256, Nat.mod_lt _ (by decide)⟩]

/-- The four bytes of the big-endian 32-bit encoding of `n`. -/
def be32 (n : Nat) : List Byte :=
  [⟨n / 16777216 % 256, Nat.mod_lt _ (by decide)⟩, ⟨n / 65536 % 256, Nat.mod_lt _ (by decide)⟩,
   ⟨n / 256 % 256, Nat.mod_lt _ (by decide)⟩, ⟨n % 256, Nat.mod_lt _ (by decide)⟩]

/-- The unsigned number written by `bytes` in base 256, most significant byte first. -/
def be_value : List Byte → Nat
  | [] => 0
  | b :: bs => b.val * 256 ^ bs.length + be_value bs

/-- The signed number written by `bytes` in big-endian two's complement: the unsigned
value when the sign bit is clear, and the unsigned value minus `2^(8 * length)`
otherwise. -/
def twos_complement (bytes : List Byte) : Int :=
  if be_value bytes < 2 ^ (8 * bytes.length - 1) then (be_value bytes : Int)
  else (be_value bytes : Int) - (2 : Int) ^ (8 * bytes.length)

/-- The eight bytes of the big-endian 64-bit encoding of `n`. -/
def be64 (n : Nat) : List Byte :=
  be32 (n / 4294967296) ++ be32 n

/-- The concatenated big-endian 32-bit encodings of a sequence of words. -/
def be32_words : List Nat → List Byte
  | [] => []
  | w :: ws => be32 w ++ be32_words ws

/-- The concatenated big-endian 64-bit encodings of a sequence of words. -/
def be64_words : List Nat → List Byte
  | [] => []
  | w :: ws => be64 w ++ be64_words ws

/-! ## The decoded tree -/

/-- The type tag of the variant of a tag (the constant of `tags.go` naming its type). -/
def Tag.variant : Tag → Int
  | .EndTag => tag_end
  | .ByteTag _ _ => tag_byte
  | .ShortTag _ _ => tag_short
  | .IntTag _ _ => tag_int
  | .LongTag _ _ => tag_long
  | .FloatTag _ _ => tag_float
  | .DoubleTag _ _ => tag_double
  | .ByteArrayTag _ _ => tag_byte_array
  | .StringTag _ _ => tag_string
  | .ListTag _ _ _ => tag_list
  | .CompoundTag _ _ => tag_compound
  | .IntArrayTag _ _ => tag_int_array

mutual

/-- All tags occurring in the tree rooted at a tag, at any nesting depth, the root
included. -/
def Tag.subtags : Tag → List Tag
  | .ListTag name ty vs => .ListTag name ty vs :: subtags_list vs
  | .CompoundTag name vs => .CompoundTag name vs :: subtags_list vs
  | .EndTag => [.EndTag]
  | .ByteTag n v => [.ByteTag n v]
  | .ShortTag n v => [.ShortTag n v]
  | .IntTag n v => [.IntTag n v]
  | .LongTag n v => [.LongTag n v]
  | .FloatTag n v => [.FloatTag n v]
  | .DoubleTag n v => [.DoubleTag n v]
  | .StringTag n v => [.StringTag n v]
  | .ByteArrayTag n v => [.ByteArrayTag n v]
  | .IntArrayTag n v => [.IntArrayTag n v]

/-- All tags occurring in the trees of a sequence of tags. -/
def subtags_list : List Tag → List Tag
  | [] => []
  | v :: vs => v.subtags ++ subtags_list vs

end

/-- The children (`Values`) of a ListTag or CompoundTag; no children otherwise. -/
def Tag.children : Tag → List Tag
  | .ListTag _ _ vs => vs
  | .CompoundTag _ vs => vs
  | _ => []

/-- The property of one node that the decoder establishes: the children of a ListTag
have the variant named by its `TagType`, carry the empty name and are not EndTags; the
children of a CompoundTag are not EndTags. -/
def Tag.node_ok : Tag → Prop
  | .ListTag _ ty vs => ∀ v ∈ vs, v.variant = ty ∧ v.GetName = [] ∧ v.isEndTag = false
  | .CompoundTag _ vs => ∀ v ∈ vs, v.isEndTag = false
  | _ => True

/-- The elements of a List of Compounds as the specification describes them: element
`i` is an unnamed CompoundTag whose `Values` are what `read_compound_values` returns
when started right after the End marker of element `i - 1` (right after the length
field for `i = 0`); `n` is the number of elements. -/
def compound_elements_spec (fuel : Nat) : Nat → Stream → Except Panic (List Tag × Stream)
  | 0, data => .ok ([], data)
  | n + 1, data =>
    match read_compound_values fuel data [] with
    | .error e => .error e
    | .ok (vs, data) =>
      match compound_elements_spec fuel n data with
      | .error e => .error e
      | .ok (elements, data) => .ok (.CompoundTag [] vs :: elements, data)

/-! ## Truncated streams -/

/-- The stream `b` is the stream `a` followed by some number of zero bytes. -/
def zero_padded (a b : Stream) : Prop := ∃ j : Nat, b = a ++ List.replicate j 0

/-- Two runs agree up to zero padding: both abort with the same panic, or both return
the same value and the second leaves the remainder of the first followed by zero
bytes. -/
def agree_up_to_padding {α : Type} (r1 r2 : Except Panic (α × Stream)) : Prop :=
  match r1, r2 with
  | .error e1, .error e2 => e1 = e2
  | .ok (x1, a), .ok (x2, b) => x1 = x2 ∧ zero_padded a b
  | _, _ => False

/-! ## Basic facts about the primitive readers -/

theorem Read_append (bytes rest : Stream) :
    Read (bytes ++ rest) bytes.length = (bytes, rest) := by
  simp [Read]

theorem to_signed_of_lt (w u : Nat) (hw : 0 < w) (h : u < 2 ^ (w - 1)) :
    to_signed w u = (u : Int) := by
  have h2 : 2 ^ (w - 1) < 2 ^ w := Nat.pow_lt_pow_right (by decide) (by omega)
  have h3 : u % 2 ^ w = u := Nat.mod_eq_of_lt (by omega)
  simp [to_signed, h3, h]

theorem to_signed_of_ge (w u : Nat) (h1 : 2 ^ (w - 1) ≤ u) (h2 : u < 2 ^ w) :
    to_signed w u = (u : Int) - ((2 ^ w : Nat) : Int) := by
  have h3 : u % 2 ^ w = u := Nat.mod_eq_of_lt h2
  simp only [to_signed, h3]
  rw [if_neg (by omega)]

theorem read_int8_cons (b : Byte) (rest : Stream) :
    read_int8 (b :: rest) = (to_signed 8 b.val, rest) := by
  simp [read_int8, Read]

theorem read_tag_cons_ok (b : Byte) (rest : Stream) (h : b.val ≤ 11) :
    read_tag (b :: rest) = .ok ((b.val : Int), rest) := by
  have : to_signed 8 b.val = (b.val : Int) :=
    to_signed_of_lt 8 b.val (by decide) (by simp; omega)
  simp [read_tag, read_int8_cons, this, tag_int_array]
  omega

theorem read_int16_be16 (n : Nat) (rest : Stream) (h : n < 65536) :
    read_int16 (be16 n ++ rest) = (to_signed 16 n, rest) := by
  simp [read_int16, Read, be16, BigEndian]
  congr 1
  omega

theorem read_int32_be32 (n : Nat) (rest : Stream) (h : n < 4294967296) :
    read_int32 (be32 n ++ rest) = (to_signed 32 n, rest) := by
  simp [read_int32, Read, be32, BigEndian]
  congr 1
  omega

theorem read_string_be16 (name : List Byte) (rest : Stream) (h : name.length ≤ 32767) :
    read_string (be16 name.length ++ name ++ rest) = (name, rest) := by
  have h1 : to_signed 16 name.length = (name.length : Int) :=
    to_signed_of_lt 16 _ (by decide) (by simp; omega)
  rw [List.append_assoc, read_string, read_int16_be16 _ _ (by omega), h1]
  cases name with
  | nil => simp
  | cons a l => simp [Read]

theorem BigEndian_foldl (buf : List Byte) (acc : Nat) :
    buf.foldl (fun acc b => acc * 256 + b.val) acc = acc * 256 ^ buf.length + be_value buf := by
  induction buf generalizing acc with
  | nil => simp [be_value]
  | cons b bs ih =>
    simp only [List.foldl_cons, ih, be_value, List.length_cons]
    ring

theorem BigEndian_eq_be_value (buf : List Byte) : BigEndian buf = be_value buf := by
  simp [BigEndian, BigEndian_foldl]

theorem be_value_lt (buf : List Byte) : be_value buf < 256 ^ buf.length := by
  induction buf with
  | nil => simp [be_value]
  | cons b bs ih =>
    simp only [be_value, List.length_cons, pow_succ]
    have := b.isLt
    nlinarith

theorem to_signed_eq_twos_complement (buf : List Byte) (h : 0 < buf.length) :
    to_signed (8 * buf.length) (BigEndian buf) = twos_complement buf := by
  have h1 := be_value_lt buf
  have h2 : (256 : Nat) ^ buf.length = 2 ^ (8 * buf.length) := by
    rw [pow_mul]; rfl
  rw [h2] at h1
  rw [BigEndian_eq_be_value]
  unfold twos_complement
  by_cases h3 : be_value buf < 2 ^ (8 * buf.length - 1)
  · rw [to_signed_of_lt _ _ (by omega) h3, if_pos h3]
  · rw [to_signed_of_ge _ _ (by omega) h1, if_neg h3]
    push_cast
    rfl

/-! ## One step of `Parse` for each type tag -/

theorem Parse_end_node (fuel : Nat) (s : Stream) :
    Parse (fuel + 1) (0 :: s) = .ok (.EndTag, s) := by
  have h : read_tag ((0 : Byte) :: s) = .ok (0, s) := read_tag_cons_ok 0 s (by decide)
  rw [Parse, h]
  simp [tag_end]

theorem Parse_byte_node (fuel : Nat) (s : Stream) :
    Parse (fuel + 1) (1 :: s) =
      .ok (.ByteTag (read_string s).1 (read_int8 (read_string s).2).1,
        (read_int8 (read_string s).2).2) := by
  have h : read_tag ((1 : Byte) :: s) = .ok (1, s) := read_tag_cons_ok 1 s (by decide)
  rw [Parse, h]
  simp [tag_end, tag_byte]

theorem Parse_short_node (fuel : Nat) (s : Stream) :
    Parse (fuel + 1) (2 :: s) =
      .ok (.ShortTag (read_string s).1 (read_int16 (read_string s).2).1,
        (read_int16 (read_string s).2).2) := by
  have h : read_tag ((2 : Byte) :: s) = .ok (2, s) := read_tag_cons_ok 2 s (by decide)
  rw [Parse, h]
  simp [tag_end, tag_byte, tag_short]

theorem Parse_int_node (fuel : Nat) (s : Stream) :
    Parse (fuel + 1) (3 :: s) =
      .ok (.IntTag (read_string s).1 (read_int32 (read_string s).2).1,
        (read_int32 (read_string s).2).2) := by
  have h : read_tag ((3 : Byte) :: s) = .ok (3, s) := read_tag_cons_ok 3 s (by decide)
  rw [Parse, h]
  simp [tag_end, tag_byte, tag_short, tag_int]

theorem Parse_long_node (fuel : Nat) (s : Stream) :
    Parse (fuel + 1) (4 :: s) =
      .ok (.LongTag (read_string s).1 (read_int64 (read_string s).2).1,
        (read_int64 (read_string s).2).2) := by
  have h : read_tag ((4 : Byte) :: s) = .ok (4, s) := read_tag_cons_ok 4 s (by decide)
  rw [Parse, h]
  simp [tag_end, tag_byte, tag_short, tag_int, tag_long]

theorem Parse_float_node (fuel : Nat) (s : Stream) :
    Parse (fuel + 1) (5 :: s) =
      .ok (.FloatTag (read_string s).1 (read_float32 (read_string s).2).1,
        (read_float32 (read_string s).2).2) := by
  have h : read_tag ((5 : Byte) :: s) = .ok (5, s) := read_tag_cons_ok 5 s (by decide)
  rw [Parse, h]
  simp [tag_end, tag_byte, tag_short, tag_int, tag_long, tag_float]

theorem Parse_double_node (fuel : Nat) (s : Stream) :
    Parse (fuel + 1) (6 :: s) =
      .ok (.DoubleTag (read_string s).1 (read_float64 (read_string s).2).1,
        (read_float64 (read_string s).2).2) := by
  have h : read_tag ((6 : Byte) :: s) = .ok (6, s) := read_tag_cons_ok 6 s (by decide)
  rw [Parse, h]
  simp [tag_end, tag_byte, tag_short, tag_int, tag_long, tag_float, tag_double]

theorem Parse_byte_array_node (fuel : Nat) (s : Stream) :
    Parse (fuel + 1) (7 :: s) =
      match read_bytes (read_int32 (read_string s).2).2 (read_int32 (read_string s).2).1 with
      | .error e => .error e
      | .ok (buf, data) => .ok (.ByteArrayTag (read_string s).1 buf, data) := by
  have h : read_tag ((7 : Byte) :: s) = .ok (7, s) := read_tag_cons_ok 7 s (by decide)
  rw [Parse, h]
  simp [tag_end, tag_byte, tag_short, tag_int, tag_long, tag_float, tag_double, tag_byte_array]

theorem Parse_string_node (fuel : Nat) (s : Stream) :
    Parse (fuel + 1) (8 :: s) =
      .ok (.StringTag (read_string s).1 (read_string (read_string s).2).1,
        (read_string (read_string s).2).2) := by
  have h : read_tag ((8 : Byte) :: s) = .ok (8, s) := read_tag_cons_ok 8 s (by decide)
  rw [Parse, h]
  simp [tag_end, tag_byte, tag_short, tag_int, tag_long, tag_float, tag_double,
    tag_byte_array, tag_string]

theorem Parse_list_node (fuel : Nat) (s : Stream) :
    Parse (fuel + 1) (9 :: s) =
      match read_tag (read_string s).2 with
      | .error e => .error e
      | .ok (list_type, data) =>
        match read_list_values fuel (read_int32 data).2 list_type (read_int32 data).1 0 [] with
        | .error e => .error e
        | .ok (values, data) => .ok (.ListTag (read_string s).1 list_type values, data) := by
  have h : read_tag ((9 : Byte) :: s) = .ok (9, s) := read_tag_cons_ok 9 s (by decide)
  rw [Parse, h]
  simp [tag_end, tag_byte, tag_short, tag_int, tag_long, tag_float, tag_double,
    tag_byte_array, tag_string, tag_list]

theorem Parse_compound_node (fuel : Nat) (s : Stream) :
    Parse (fuel + 1) (10 :: s) =
      match read_compound_values fuel (read_string s).2 [] with
      | .error e => .error e
      | .ok (values, data) => .ok (.CompoundTag (read_string s).1 values, data) := by
  have h : read_tag ((10 : Byte) :: s) = .ok (10, s) := read_tag_cons_ok 10 s (by decide)
  rw [Parse, h]
  simp [tag_end, tag_byte, tag_short, tag_int, tag_long, tag_float, tag_double,
    tag_byte_array, tag_string, tag_list, tag_compound]

theorem Parse_int_array_node (fuel : Nat) (s : Stream) :
    Parse (fuel + 1) (11 :: s) =
      .ok (.IntArrayTag (read_string s).1
          (read_int_array_values (read_int32 (read_string s).2).2
            (read_int32 (read_string s).2).1).1,
        (read_int_array_values (read_int32 (read_string s).2).2
            (read_int32 (read_string s).2).1).2) := by
  have h : read_tag ((11 : Byte) :: s) = .ok (11, s) := read_tag_cons_ok 11 s (by decide)
  rw [Parse, h]
  simp [tag_end, tag_byte, tag_short, tag_int, tag_long, tag_float, tag_double,
    tag_byte_array, tag_string, tag_list, tag_compound, tag_int_array]

/-! ## Fixed-width reads of a complete payload -/

theorem read_int8_append (payload rest : Stream) (h : payload.length = 1) :
    read_int8 (payload ++ rest) = (twos_complement payload, rest) := by
  have h1 := Read_append payload rest
  have h2 := to_signed_eq_twos_complement payload (by omega)
  rw [h] at h1 h2
  obtain ⟨b, rfl⟩ := List.length_eq_one.mp h
  simp only [read_int8, h1, ← h2]
  simp [BigEndian]

theorem read_int16_append (payload rest : Stream) (h : payload.length = 2) :
    read_int16 (payload ++ rest) = (twos_complement payload, rest) := by
  have h1 := Read_append payload rest
  have h2 := to_signed_eq_twos_complement payload (by omega)
  rw [h] at h1 h2
  simp only [read_int16, h1, ← h2]

theorem read_int32_append (payload rest : Stream) (h : payload.length = 4) :
    read_int32 (payload ++ rest) = (twos_complement payload, rest) := by
  have h1 := Read_append payload rest
  have h2 := to_signed_eq_twos_complement payload (by omega)
  rw [h] at h1 h2
  simp only [read_int32, h1, ← h2]

theorem read_int64_append (payload rest : Stream) (h : payload.length = 8) :
    read_int64 (payload ++ rest) = (twos_complement payload, rest) := by
  have h1 := Read_append payload rest
  have h2 := to_signed_eq_twos_complement payload (by omega)
  rw [h] at h1 h2
  simp only [read_int64, h1, ← h2]

/-- Without short reads: for every stream `s` following the type byte whose name field decodes to `name`
and leaves `payload ++ rest`, `Parse` on a Byte, Short, Int or Long node returns the tag
of that variant with that name, whose `Value` is the big-endian two's-complement
reading of the 1, 2, 4 or 8 payload bytes, and leaves exactly `rest` unread. -/
theorem Parse_integer_nodes (fuel : Nat) (s : Stream) (name payload rest : List Byte)
    (hs : read_string s = (name, payload ++ rest)) :
    (payload.length = 1 →
      Parse (fuel + 1) (1 :: s) = .ok (.ByteTag name (twos_complement payload), rest)) ∧
    (payload.length = 2 →
      Parse (fuel + 1) (2 :: s) = .ok (.ShortTag name (twos_complement payload), rest)) ∧
    (payload.length = 4 →
      Parse (fuel + 1) (3 :: s) = .ok (.IntTag name (twos_complement payload), rest)) ∧
    (payload.length = 8 →
      Parse (fuel + 1) (4 :: s) = .ok (.LongTag name (twos_complement payload), rest)) := by
  refine ⟨fun h => ?_, fun h => ?_, fun h => ?_, fun h => ?_⟩
  · rw [Parse_byte_node, hs, read_int8_append _ _ h]
  · rw [Parse_short_node, hs, read_int16_append _ _ h]
  · rw [Parse_int_node, hs, read_int32_append _ _ h]
  · rw [Parse_long_node, hs, read_int64_append _ _ h]

/-- Without short reads, at concrete nodes: `7F` is Byte 127, `7F FF` is Short 32767, `FF FF FF FF` is
Int -1 and `7F FF FF FF FF FF FF FF` is Long 9223372036854775807, each named "a" and
followed by one further byte which is left unread. -/
theorem Parse_integer_nodes_witness :
    Parse 1 [1, 0, 1, 97, 0x7F, 9] = .ok (.ByteTag [97] 127, [9]) ∧
    Parse 1 [2, 0, 1, 97, 0x7F, 0xFF, 9] = .ok (.ShortTag [97] 32767, [9]) ∧
    Parse 1 [3, 0, 1, 97, 0xFF, 0xFF, 0xFF, 0xFF, 9] = .ok (.IntTag [97] (-1), [9]) ∧
    Parse 1 [4, 0, 1, 97, 0x7F, 0xFF, 0xFF, 0xFF, 0xFF, 0xFF, 0xFF, 0xFF, 9]
      = .ok (.LongTag [97] 9223372036854775807, [9]) :=
  ⟨(Parse_integer_nodes 0 [0, 1, 97, 0x7F, 9] [97] [0x7F] [9] rfl).1 rfl,
   (Parse_integer_nodes 0 [0, 1, 97, 0x7F, 0xFF, 9] [97] [0x7F, 0xFF] [9] rfl).2.1 rfl,
   (Parse_integer_nodes 0 [0, 1, 97, 0xFF, 0xFF, 0xFF, 0xFF, 9] [97]
      [0xFF, 0xFF, 0xFF, 0xFF] [9] rfl).2.2.1 rfl,
   (Parse_integer_nodes 0 [0, 1, 97, 0x7F, 0xFF, 0xFF, 0xFF, 0xFF, 0xFF, 0xFF, 0xFF, 9] [97]
      [0x7F, 0xFF, 0xFF, 0xFF, 0xFF, 0xFF, 0xFF, 0xFF] [9] rfl).2.2.2 rfl⟩

/-- Without short reads: for all byte strings `n`, `k`, `v` of length at most 32767, `Parse` (with any
fuel of at least 4) on `0A be16(len n) n 08 be16(len k) k be16(len v) v 00` succeeds
and returns the Compound named `n` whose only child is the String named `k` with
value `v`, leaving nothing unread. -/
theorem Parse_compound_of_one_string (n k v : List Byte) (fuel : Nat)
    (hn : n.length ≤ 32767) (hk : k.length ≤ 32767) (hv : v.length ≤ 32767) :
    Parse (fuel + 4)
        ([0x0A] ++ be16 n.length ++ n ++ [0x08] ++ be16 k.length ++ k ++ be16 v.length ++ v
          ++ [0x00])
      = .ok (.CompoundTag n [.StringTag k v], []) := by
  have e1 : [0x0A] ++ be16 n.length ++ n ++ [0x08] ++ be16 k.length ++ k ++ be16 v.length ++ v
      ++ [0x00] = (10 : Byte) :: (be16 n.length ++ n ++ ((8 : Byte) :: (be16 k.length ++ k ++
        (be16 v.length ++ v ++ [(0 : Byte)])))) := by simp
  rw [e1, Parse_compound_node, read_string_be16 n _ hn]
  simp only [read_compound_values, Parse_string_node, read_string_be16 k _ hk,
    read_string_be16 v _ hv, Parse_end_node]
  simp [Tag.isEndTag]

/-- Without short reads, at the spec's scenario A: the Compound named "" holding the String "name" with
value "Bananrama". -/
theorem Parse_compound_of_one_string_witness :
    Parse 4 [0x0A, 0, 0, 0x08, 0, 4, 110, 97, 109, 101,
        0, 9, 66, 97, 110, 97, 110, 114, 97, 109, 97, 0x00]
      = .ok (.CompoundTag [] [.StringTag [110, 97, 109, 101]
          [66, 97, 110, 97, 110, 114, 97, 109, 97]], []) :=
  Parse_compound_of_one_string [] [110, 97, 109, 101] [66, 97, 110, 97, 110, 114, 97, 109, 97] 0
    (by decide) (by decide) (by decide)

/-- C3 (the code departs from the test's expectation): on the List node named
"listTest (long)" with element type Long (4) and five 8-byte values 11..15, `Parse`
aborts with "read_list_values: unhandled list type 4" instead of returning a list of
five LongTags. -/
theorem Parse_list_of_long_panics :
    Parse 2 ([9, 0, 15, 108, 105, 115, 116, 84, 101, 115, 116, 32, 40, 108, 111, 110, 103, 41,
        4, 0, 0, 0, 5,
        0, 0, 0, 0, 0, 0, 0, 11, 0, 0, 0, 0, 0, 0, 0, 12, 0, 0, 0, 0, 0, 0, 0, 13,
        0, 0, 0, 0, 0, 0, 0, 14, 0, 0, 0, 0, 0, 0, 0, 15])
      = .error (.unhandled_list_type 4) := rfl

theorem read_string_of_negative (L : Nat) (rest : Stream) (h1 : 32768 ≤ L) (h2 : L ≤ 65535) :
    read_string (be16 L ++ rest) = ([], rest) := by
  have h : to_signed 16 L = (L : Int) - ((2 ^ 16 : Nat) : Int) :=
    to_signed_of_ge 16 L (by simpa using h1) (by simp; omega)
  rw [read_string, read_int16_be16 _ _ (by omega), h]
  simp only [gt_iff_lt]
  rw [if_neg]
  push_cast
  omega

/-- Without short reads, for a length with the high bit set: the stream `80 00` followed by 32768
bytes of value 7 supplies `L = 32768` bytes after its length prefix, yet `read_string`
returns the empty string and leaves all 32768 bytes unread. -/
theorem read_string_32768_returns_empty :
    read_string (be16 32768 ++ List.replicate 32768 7) = ([], List.replicate 32768 7) ∧
    (read_string (be16 32768 ++ List.replicate 32768 7)).1 ≠ List.replicate 32768 7 := by
  have h := read_string_of_negative 32768 (List.replicate 32768 7) (by decide) (by decide)
  refine ⟨h, ?_⟩
  rw [h]
  intro h2
  have h3 := congrArg List.length h2
  rw [List.length_nil, List.length_replicate] at h3
  omega

/-- Without short reads: the length prefix is read as a signed 16-bit integer.  For
`L ≤ 32767` and a stream that begins with `be16 L` followed by the `L` bytes `bytes`,
`read_string` returns exactly `bytes` and leaves what follows them (it consumes
`2 + L` bytes); for `32768 ≤ L ≤ 65535` it returns the empty string and leaves
everything after the two length bytes. -/
theorem read_string_signed_length (L : Nat) (bytes rest : List Byte) :
    (L ≤ 32767 → bytes.length = L →
      read_string (be16 L ++ bytes ++ rest) = (bytes, rest) ∧
      (be16 L ++ bytes ++ rest).length = (2 + L) + rest.length) ∧
    (32768 ≤ L → L ≤ 65535 → read_string (be16 L ++ rest) = ([], rest)) := by
  refine ⟨fun h1 h2 => ?_, fun h1 h2 => read_string_of_negative L rest h1 h2⟩
  subst h2
  refine ⟨read_string_be16 bytes rest h1, ?_⟩
  simp [be16]
  omega

/-- Without short reads, at `L = 3` with bytes "abc" followed by one more byte, and at
`L = 65535` followed by one byte. -/
theorem read_string_signed_length_witness :
    (read_string ([0, 3, 97, 98, 99, 5]) = ([97, 98, 99], [5]) ∧
      ([0, 3, 97, 98, 99, 5] : List Byte).length = (2 + 3) + 1) ∧
    read_string ([255, 255, 5]) = ([], [5]) :=
  ⟨(read_string_signed_length 3 [97, 98, 99] [5]).1 (by decide) rfl,
   (read_string_signed_length 65535 [] [5]).2 (by decide) (by decide)⟩

theorem read_bytes_append (bytes rest : Stream) :
    read_bytes (bytes ++ rest) (bytes.length : Int) = .ok (bytes, rest) := by
  simp [read_bytes, Read_append]

/-- Without short reads: for every stream `s` following the type byte whose name field decodes to `name`
and leaves the 4-byte big-endian length `N` (`0 ≤ N ≤ 2^31-1`) followed by `N` bytes
`bytes` and then `rest`, `Parse` on the ByteArray node returns the ByteArrayTag named
`name` whose `Values` are exactly `bytes` (so of length `N`, in order), and leaves
exactly `rest` unread. -/
theorem Parse_byte_array_values (fuel : Nat) (s : Stream) (name bytes rest : List Byte) (N : Nat)
    (hN : N ≤ 2147483647) (hlen : bytes.length = N)
    (hs : read_string s = (name, be32 N ++ bytes ++ rest)) :
    Parse (fuel + 1) (7 :: s) = .ok (.ByteArrayTag name bytes, rest) ∧ bytes.length = N := by
  refine ⟨?_, hlen⟩
  have h1 : to_signed 32 N = (N : Int) := to_signed_of_lt 32 N (by decide) (by simp; omega)
  rw [Parse_byte_array_node, hs, List.append_assoc, read_int32_be32 _ _ (by omega), h1, ← hlen,
    read_bytes_append]

/-- Without short reads, at the ByteArray named "b" holding the 1000 bytes `(i*i*255 + i*7) mod 100`,
followed by one further byte which is left unread. -/
theorem Parse_byte_array_values_witness :
    Parse 1 (7 :: ([0, 1, 98] ++ be32 1000 ++
        (List.range 1000).map (fun i => (⟨(i * i * 255 + i * 7) % 100 % 256,
          Nat.mod_lt _ (by decide)⟩ : Byte)) ++ [9]))
      = .ok (.ByteArrayTag [98] ((List.range 1000).map (fun i =>
          (⟨(i * i * 255 + i * 7) % 100 % 256, Nat.mod_lt _ (by decide)⟩ : Byte))), [9]) ∧
    ((List.range 1000).map (fun i => (⟨(i * i * 255 + i * 7) % 100 % 256,
          Nat.mod_lt _ (by decide)⟩ : Byte))).length = 1000 :=
  Parse_byte_array_values 0 _ [98] _ [9] 1000 (by decide) (by simp)
    (by
      have := read_string_be16 [98] (be32 1000 ++ (List.range 1000).map (fun i =>
        (⟨(i * i * 255 + i * 7) % 100 % 256, Nat.mod_lt _ (by decide)⟩ : Byte)) ++ [9])
        (by decide)
      simpa [be16] using this)

theorem read_int32_zero (rest : Stream) : read_int32 ([0, 0, 0, 0] ++ rest) = (0, rest) := by
  simp [read_int32, Read, BigEndian, to_signed]

theorem read_string_zero (rest : Stream) : read_string ([0, 0] ++ rest) = ([], rest) := by
  simp [read_string, read_int16, Read, BigEndian, to_signed]

theorem read_list_values_done (fuel : Nat) (data : Stream) (list_type size i : Int)
    (values : List Tag) (h : ¬ i < size) :
    read_list_values (fuel + 1) data list_type size i values = .ok (values, data) := by
  rw [read_list_values, if_neg h]

/-- Without short reads: a declared length of zero decodes to an empty value and consumes nothing after
the length field.  For every stream `s` following the type byte whose name field
decodes to `name`: a String value with length `00 00` gives the empty string; a
ByteArray and an IntArray with length `00 00 00 00` give empty `Values`; a List with
any element-type byte `ty` in 0..11 and length `00 00 00 00` gives `TagType = ty` and
empty `Values`; in each case exactly `rest`, the bytes after the length field, is left
unread. -/
theorem Parse_zero_length (fuel : Nat) (s : Stream) (name rest : List Byte) :
    (read_string s = (name, [0, 0] ++ rest) →
      Parse (fuel + 1) (8 :: s) = .ok (.StringTag name [], rest)) ∧
    (read_string s = (name, [0, 0, 0, 0] ++ rest) →
      Parse (fuel + 1) (7 :: s) = .ok (.ByteArrayTag name [], rest)) ∧
    (read_string s = (name, [0, 0, 0, 0] ++ rest) →
      Parse (fuel + 1) (11 :: s) = .ok (.IntArrayTag name [], rest)) ∧
    (∀ ty : Byte, ty.val ≤ 11 → read_string s = (name, ty :: ([0, 0, 0, 0] ++ rest)) →
      Parse (fuel + 2) (9 :: s) = .ok (.ListTag name (ty.val : Int) [], rest)) := by
  refine ⟨fun hs => ?_, fun hs => ?_, fun hs => ?_, fun ty hty hs => ?_⟩
  · rw [Parse_string_node, hs, read_string_zero]
  · rw [Parse_byte_array_node, hs, read_int32_zero]
    simp [read_bytes, Read]
  · rw [Parse_int_array_node, hs, read_int32_zero]
    simp [read_int_array_values, read_int_array_values_loop]
  · rw [Parse_list_node, hs]
    simp only [read_tag_cons_ok ty _ hty, read_int32_zero]
    rw [read_list_values_done fuel rest _ 0 0 [] (by decide)]

/-- Without short reads, at the empty-named String, ByteArray, IntArray and List-of-Byte nodes with zero
length, each followed by one further byte which is left unread. -/
theorem Parse_zero_length_witness :
    Parse 1 [8, 0, 0, 0, 0, 9] = .ok (.StringTag [] [], [9]) ∧
    Parse 1 [7, 0, 0, 0, 0, 0, 0, 9] = .ok (.ByteArrayTag [] [], [9]) ∧
    Parse 1 [11, 0, 0, 0, 0, 0, 0, 9] = .ok (.IntArrayTag [] [], [9]) ∧
    Parse 2 [9, 0, 0, 1, 0, 0, 0, 0, 9] = .ok (.ListTag [] 1 [], [9]) :=
  ⟨(Parse_zero_length 0 [0, 0, 0, 0, 9] [] [9]).1 rfl,
   (Parse_zero_length 0 [0, 0, 0, 0, 0, 0, 9] [] [9]).2.1 rfl,
   (Parse_zero_length 0 [0, 0, 0, 0, 0, 0, 9] [] [9]).2.2.1 rfl,
   (Parse_zero_length 0 [0, 0, 1, 0, 0, 0, 0, 9] [] [9]).2.2.2 1 (by decide) rfl⟩

/-- Without short reads, for a declared length of zero: the List node with element type Byte (1)
and length 0 does not abort; `Parse` returns a ListTag with no children. -/
theorem Parse_empty_list_of_byte_succeeds :
    Parse 2 [9, 0, 0, 1, 0, 0, 0, 0] = .ok (.ListTag [] 1 [], []) ∧
    Parse 2 [9, 0, 0, 1, 0, 0, 0, 0] ≠ .error (.unhandled_list_type 1) :=
  ⟨rfl, by rw [show Parse 2 [9, 0, 0, 1, 0, 0, 0, 0] = .ok (.ListTag [] 1 [], []) from rfl]; simp⟩

/-- Without short reads: for every stream `s` following the type byte whose name field decodes
to `name` and leaves an element-type byte `ty` in 0..11 other than Float (5),
Double (6) and Compound (10), followed by a declared length `N` with
`1 ≤ N ≤ 2^31-1`, `Parse` aborts with "read_list_values: unhandled list type" and
returns no tag. -/
theorem Parse_list_unhandled_type (fuel : Nat) (s : Stream) (name rest : List Byte)
    (ty : Byte) (N : Nat) (hty : ty.val ≤ 11) (h5 : ty.val ≠ 5) (h6 : ty.val ≠ 6)
    (h10 : ty.val ≠ 10) (hN1 : 1 ≤ N) (hN2 : N ≤ 2147483647)
    (hs : read_string s = (name, ty :: (be32 N ++ rest))) :
    Parse (fuel + 2) (9 :: s) = .error (.unhandled_list_type (ty.val : Int)) := by
  have h1 : to_signed 32 N = (N : Int) := to_signed_of_lt 32 N (by decide) (by simp; omega)
  rw [Parse_list_node, hs]
  simp only [read_tag_cons_ok ty _ hty, read_int32_be32 N rest (by omega), h1]
  rw [read_list_values, if_pos (by omega)]
  simp only [tag_float, tag_double, tag_compound]
  rw [if_neg (by omega), if_neg (by omega), if_neg (by omega)]

/-- Without short reads, at the List of Long (4) with declared length 1 and name "a". -/
theorem Parse_list_unhandled_type_witness :
    Parse 2 [9, 0, 1, 97, 4, 0, 0, 0, 1, 0, 0, 0, 0, 0, 0, 0, 11]
      = .error (.unhandled_list_type 4) :=
  Parse_list_unhandled_type 0 [0, 1, 97, 4, 0, 0, 0, 1, 0, 0, 0, 0, 0, 0, 0, 11] [97]
    [0, 0, 0, 0, 0, 0, 0, 11] 4 1 (by decide) (by decide) (by decide) (by decide)
    (by decide) (by decide) rfl

theorem ChildByName_loop_some (vs : List Tag) (q : List Byte) (r : Tag) :
    ChildByName_loop vs q = some r ↔
      ∃ i : Nat, vs[i]? = some r ∧ r.GetName = q ∧
        ∀ j : Nat, j < i → ∀ v : Tag, vs[j]? = some v → v.GetName ≠ q := by
  induction vs with
  | nil => simp [ChildByName_loop]
  | cons v rest ih =>
    rw [ChildByName_loop]
    by_cases hv : v.GetName = q
    · rw [if_pos hv]
      constructor
      · intro h
        cases h
        exact ⟨0, by simp, hv, fun j hj => absurd hj (Nat.not_lt_zero j)⟩
      · rintro ⟨i, hi, _, hmin⟩
        cases i with
        | zero => simpa using hi
        | succ i => exact absurd hv (hmin 0 (Nat.succ_pos i) v (by simp))
    · rw [if_neg hv, ih]
      constructor
      · rintro ⟨i, hi, hq, hmin⟩
        refine ⟨i + 1, by simpa using hi, hq, fun j hj w hw => ?_⟩
        cases j with
        | zero =>
          simp at hw
          subst hw
          exact hv
        | succ j => exact hmin j (by omega) w (by simpa using hw)
      · rintro ⟨i, hi, hq, hmin⟩
        cases i with
        | zero =>
          simp at hi
          subst hi
          exact absurd hq hv
        | succ i =>
          exact ⟨i, by simpa using hi, hq, fun j hj w hw => hmin (j + 1) (by omega) w (by simpa using hw)⟩

theorem ChildByName_loop_none (vs : List Tag) (q : List Byte) :
    ChildByName_loop vs q = none ↔ ∀ v ∈ vs, v.GetName ≠ q := by
  induction vs with
  | nil => simp [ChildByName_loop]
  | cons v rest ih =>
    rw [ChildByName_loop]
    by_cases hv : v.GetName = q
    · simp [hv]
    · simp [hv, ih]

/-- C8: for every CompoundTag (fields `t_name`, `vs`) and every name `q`,
`ChildByName` returns `r` exactly when `r` is the element of `vs` at the smallest
index whose `GetName()` equals `q` (so with duplicate names the first in encounter
order is returned), and returns nil exactly when no element of `vs` has name `q`. -/
theorem ChildByName_first_match (t_name : List Byte) (vs : List Tag) (q : List Byte) :
    (∀ r, ChildByName t_name vs q = some r ↔
      ∃ i : Nat, vs[i]? = some r ∧ r.GetName = q ∧
        ∀ j : Nat, j < i → ∀ v : Tag, vs[j]? = some v → v.GetName ≠ q) ∧
    (ChildByName t_name vs q = none ↔ ∀ v ∈ vs, v.GetName ≠ q) :=
  ⟨fun r => ChildByName_loop_some vs q r, ChildByName_loop_none vs q⟩

/-- C8 with duplicate names: of two children named "a" the first is returned, and a
name carried by no child gives nil. -/
theorem ChildByName_first_match_witness :
    ChildByName [] [.ByteTag [97] 1, .ByteTag [97] 2] [97] = some (.ByteTag [97] 1) ∧
    ChildByName [] [.ByteTag [97] 1, .ByteTag [97] 2] [98] = none :=
  ⟨((ChildByName_first_match [] [.ByteTag [97] 1, .ByteTag [97] 2] [97]).1 _).2
      ⟨0, rfl, rfl, fun j hj => absurd hj (Nat.not_lt_zero j)⟩,
   (ChildByName_first_match [] [.ByteTag [97] 1, .ByteTag [97] 2] [98]).2.2
      (by simp [Tag.GetName])⟩

/-! ## Fuel: a result other than `out_of_fuel` is the same for every larger fuel -/

theorem fuel_succ (fuel : Nat) :
    (∀ data, Parse fuel data = .error .out_of_fuel ∨ Parse (fuel + 1) data = Parse fuel data) ∧
    (∀ data values, read_compound_values fuel data values = .error .out_of_fuel ∨
      read_compound_values (fuel + 1) data values = read_compound_values fuel data values) ∧
    (∀ data list_type size i values,
      read_list_values fuel data list_type size i values = .error .out_of_fuel ∨
      read_list_values (fuel + 1) data list_type size i values
        = read_list_values fuel data list_type size i values) := by
  induction fuel with
  | zero => simp [Parse.eq_1, read_compound_values.eq_1, read_list_values.eq_1]
  | succ fuel ih =>
    obtain ⟨ihP, ihC, ihL⟩ := ih
    refine ⟨?_, ?_, ?_⟩
    · intro data
      rw [Parse.eq_2 data (fuel + 1), Parse.eq_2 data fuel]
      cases h : read_tag data with
      | error e => simp
      | ok r =>
        obtain ⟨tag, d1⟩ := r
        by_cases hl : tag = tag_list
        · simp only [hl, tag_list, tag_end, tag_byte, tag_short, tag_int, tag_long, tag_float,
            tag_double, tag_byte_array, tag_string]
          simp only [ne_eq, OfNat.ofNat_ne_zero, not_false_eq_true, ↓reduceIte,
            OfNat.ofNat_ne_one, OfNat.ofNat_eq_ofNat, Nat.reduceEqDiff]
          cases h2 : read_tag (read_string d1).2 with
          | error e => simp
          | ok r2 =>
            obtain ⟨lt, d2⟩ := r2
            simp only []
            rcases ihL (read_int32 d2).2 lt (read_int32 d2).1 0 [] with h3 | h3
            · left; rw [h3]
            · right; rw [h3]
        · by_cases hc : tag = tag_compound
          · simp only [hc, tag_list, tag_compound, tag_end, tag_byte, tag_short, tag_int,
              tag_long, tag_float, tag_double, tag_byte_array, tag_string]
            simp only [ne_eq, OfNat.ofNat_ne_zero, not_false_eq_true, ↓reduceIte,
              OfNat.ofNat_ne_one, OfNat.ofNat_eq_ofNat, Nat.reduceEqDiff]
            rcases ihC (read_string d1).2 [] with h3 | h3
            · left; rw [h3]
            · right; rw [h3]
          · right
            simp only [hl, hc, ↓reduceIte]
    · intro data values
      rw [read_compound_values.eq_2 data values (fuel + 1),
        read_compound_values.eq_2 data values fuel]
      rcases ihP data with h | h
      · left; rw [h]
      · rw [h]
        cases h2 : Parse fuel data with
        | error e => simp
        | ok r =>
          obtain ⟨tag, d1⟩ := r
          simp only []
          cases h3 : tag.isEndTag with
          | true => simp
          | false =>
            simp only [Bool.false_eq_true, ↓reduceIte]
            exact ihC _ _
    · intro data list_type size i values
      rw [read_list_values.eq_2, read_list_values.eq_2]
      by_cases hi : i < size
      · simp only [hi, ↓reduceIte]
        by_cases h5 : list_type = tag_float
        · simp only [h5, ↓reduceIte]
          exact ihL _ _ _ _ _
        · by_cases h6 : list_type = tag_double
          · simp only [h6, tag_double, tag_float, ↓reduceIte]
            simp only [OfNat.ofNat_eq_ofNat, Nat.reduceEqDiff, ↓reduceIte]
            exact ihL _ _ _ _ _
          · by_cases h10 : list_type = tag_compound
            · simp only [h10, tag_compound, tag_double, tag_float, ↓reduceIte]
              simp only [OfNat.ofNat_eq_ofNat, Nat.reduceEqDiff, ↓reduceIte]
              rcases ihC data [] with h | h
              · left; rw [h]
              · rw [h]
                cases h2 : read_compound_values fuel data [] with
                | error e => simp
                | ok r =>
                  obtain ⟨vs, d1⟩ := r
                  exact ihL _ _ _ _ _
            · right; simp only [h5, h6, h10, ↓reduceIte]
      · right; simp only [hi, ↓reduceIte]

theorem Parse_fuel_le (fuel fuel2 : Nat) (data : Stream) (h : fuel ≤ fuel2)
    (hne : Parse fuel data ≠ .error .out_of_fuel) : Parse fuel2 data = Parse fuel data := by
  induction fuel2 with
  | zero =>
    have : fuel = 0 := by omega
    subst this; rfl
  | succ k ih =>
    by_cases hk : fuel = k + 1
    · subst hk; rfl
    · have h1 := ih (by omega)
      rcases (fuel_succ k).1 data with h2 | h2
      · rw [h1] at h2; exact absurd h2 hne
      · rw [h2, h1]

theorem read_compound_values_fuel_le (fuel fuel2 : Nat) (data : Stream) (values : List Tag)
    (h : fuel ≤ fuel2) (hne : read_compound_values fuel data values ≠ .error .out_of_fuel) :
    read_compound_values fuel2 data values = read_compound_values fuel data values := by
  induction fuel2 with
  | zero =>
    have : fuel = 0 := by omega
    subst this; rfl
  | succ k ih =>
    by_cases hk : fuel = k + 1
    · subst hk; rfl
    · have h1 := ih (by omega)
      rcases (fuel_succ k).2.1 data values with h2 | h2
      · rw [h1] at h2; exact absurd h2 hne
      · rw [h2, h1]

theorem read_list_values_fuel_le (fuel fuel2 : Nat) (data : Stream) (list_type size i : Int)
    (values : List Tag) (h : fuel ≤ fuel2)
    (hne : read_list_values fuel data list_type size i values ≠ .error .out_of_fuel) :
    read_list_values fuel2 data list_type size i values
      = read_list_values fuel data list_type size i values := by
  induction fuel2 with
  | zero =>
    have : fuel = 0 := by omega
    subst this; rfl
  | succ k ih =>
    by_cases hk : fuel = k + 1
    · subst hk; rfl
    · have h1 := ih (by omega)
      rcases (fuel_succ k).2.2 data list_type size i values with h2 | h2
      · rw [h1] at h2; exact absurd h2 hne
      · rw [h2, h1]

theorem Parse_fuel_ok (fuel fuel2 : Nat) (data : Stream) (r : Tag × Stream) (h : fuel ≤ fuel2)
    (hr : Parse fuel data = .ok r) : Parse fuel2 data = .ok r := by
  rw [Parse_fuel_le fuel fuel2 data h (by rw [hr]; simp), hr]

theorem read_compound_values_fuel_ok (fuel fuel2 : Nat) (data : Stream) (values : List Tag)
    (r : List Tag × Stream) (h : fuel ≤ fuel2)
    (hr : read_compound_values fuel data values = .ok r) :
    read_compound_values fuel2 data values = .ok r := by
  rw [read_compound_values_fuel_le fuel fuel2 data values h (by rw [hr]; simp), hr]

/-! ## The accumulator of `read_compound_values` -/

theorem read_compound_values_acc (fuel : Nat) (data : Stream) (values : List Tag) :
    read_compound_values fuel data values =
      match read_compound_values fuel data [] with
      | .error e => .error e
      | .ok (vs, rest) => .ok (values ++ vs, rest) := by
  induction fuel generalizing data values with
  | zero => simp [read_compound_values.eq_1]
  | succ fuel ih =>
    rw [read_compound_values.eq_2 data values fuel, read_compound_values.eq_2 data [] fuel]
    cases h : Parse fuel data with
    | error e => rfl
    | ok r =>
      obtain ⟨tag, d1⟩ := r
      by_cases h3 : tag.isEndTag = true
      · simp [h3]
      · simp only [h3, ↓reduceIte, List.nil_append]
        rw [ih d1 (values ++ [tag]), ih d1 [tag]]
        cases h4 : read_compound_values fuel d1 [] with
        | error e => rfl
        | ok r2 => simp

/-- C7: `read_compound_values` keeps stream order and drops the terminator.  If `Parse`
on `s` returns EndTag leaving `s1`, then `read_compound_values` on `s` returns the empty
sequence leaving `s1`.  If `Parse` on `s` returns a non-End tag `t` leaving `s1` and
`read_compound_values` on `s1` returns `vs` leaving `s2`, then `read_compound_values` on
`s` returns `t` followed by `vs`, leaving `s2`.  In particular two successive non-End
children with equal names followed by End are both returned, in stream order.  Each
result holds for every fuel above that of the assumed runs. -/
theorem read_compound_values_order (f1 f2 fuel : Nat) (s s1 s2 s3 : Stream) (t t2 : Tag)
    (vs : List Tag) :
    (Parse f1 s = .ok (.EndTag, s1) → f1 < fuel →
      read_compound_values fuel s [] = .ok ([], s1)) ∧
    (Parse f1 s = .ok (t, s1) → t.isEndTag = false →
      read_compound_values f2 s1 [] = .ok (vs, s2) → f1 < fuel → f2 < fuel →
      read_compound_values fuel s [] = .ok (t :: vs, s2)) ∧
    (Parse f1 s = .ok (t, s1) → t.isEndTag = false →
      Parse f1 s1 = .ok (t2, s2) → t2.isEndTag = false → t.GetName = t2.GetName →
      Parse f1 s2 = .ok (.EndTag, s3) → f1 + 2 < fuel →
      read_compound_values fuel s [] = .ok ([t, t2], s3)) := by
  have hEnd : ∀ (f g : Nat) (a b : Stream), Parse f a = .ok (.EndTag, b) → f < g →
      read_compound_values g a [] = .ok ([], b) := by
    intro f g a b h hlt
    obtain ⟨k, rfl⟩ : ∃ k, g = k + 1 := ⟨g - 1, by omega⟩
    rw [read_compound_values.eq_2, Parse_fuel_ok f k a _ (by omega) h]
    simp [Tag.isEndTag]
  have hCons : ∀ (f f' g : Nat) (a b c : Stream) (x : Tag) (xs : List Tag),
      Parse f a = .ok (x, b) → x.isEndTag = false →
      read_compound_values f' b [] = .ok (xs, c) → f < g → f' < g →
      read_compound_values g a [] = .ok (x :: xs, c) := by
    intro f f' g a b c x xs h hx hxs hlt hlt'
    obtain ⟨k, rfl⟩ : ∃ k, g = k + 1 := ⟨g - 1, by omega⟩
    rw [read_compound_values.eq_2, Parse_fuel_ok f k a _ (by omega) h]
    simp only [hx, Bool.false_eq_true, ↓reduceIte, List.nil_append]
    rw [read_compound_values_acc, read_compound_values_fuel_ok f' k b [] _ (by omega) hxs]
    rfl
  refine ⟨fun h hlt => hEnd f1 fuel s s1 h hlt,
    fun h ht hvs hlt hlt2 => hCons f1 f2 fuel s s1 s2 t vs h ht hvs hlt hlt2, ?_⟩
  intro h ht h2 ht2 _ h3 hlt
  have e3 := hEnd f1 (f1 + 1) s2 s3 h3 (by omega)
  have e2 := hCons f1 (f1 + 1) (f1 + 2) s1 s2 s3 t2 [] h2 ht2 e3 (by omega) (by omega)
  exact hCons f1 (f1 + 2) fuel s s1 s3 t [t2] h ht e2 (by omega) hlt

/-- C7 on the stream holding two Byte children, both named "a", with values 5 and 6,
followed by End: an immediate End gives no children, and both equally named children
are returned in stream order. -/
theorem read_compound_values_order_witness :
    read_compound_values 2 [0, 9] [] = .ok ([], [9]) ∧
    read_compound_values 3 [1, 0, 1, 97, 6, 0, 9] [] = .ok ([.ByteTag [97] 6], [9]) ∧
    read_compound_values 4 [1, 0, 1, 97, 5, 1, 0, 1, 97, 6, 0, 9] []
      = .ok ([.ByteTag [97] 5, .ByteTag [97] 6], [9]) :=
  ⟨(read_compound_values_order 1 0 2 [0, 9] [9] [] [] .EndTag .EndTag []).1 rfl (by decide),
   (read_compound_values_order 1 2 3 [1, 0, 1, 97, 6, 0, 9] [0, 9] [9] [] (.ByteTag [97] 6)
      .EndTag []).2.1 rfl rfl rfl (by decide) (by decide),
   (read_compound_values_order 1 0 4 [1, 0, 1, 97, 5, 1, 0, 1, 97, 6, 0, 9]
      [1, 0, 1, 97, 6, 0, 9] [0, 9] [9] (.ByteTag [97] 5) (.ByteTag [97] 6) []).2.2
      rfl rfl rfl rfl rfl rfl (by decide)⟩

/-! ## Malformed type tags -/

theorem read_tag_unfold (data : Stream) :
    read_tag data =
      if to_signed 8 (tag_byte_read data).val < 0 ∨ to_signed 8 (tag_byte_read data).val > 11
      then .error (.read_tag_unknown_tag (to_signed 8 (tag_byte_read data).val))
      else .ok (to_signed 8 (tag_byte_read data).val, (Read data 1).2) := rfl

theorem read_tag_eq (data : Stream) :
    read_tag data =
      if (tag_byte_read data).val ≤ 11 then
        .ok (((tag_byte_read data).val : Int), (Read data 1).2)
      else .error (.read_tag_unknown_tag (to_signed 8 (tag_byte_read data).val)) := by
  have hb := (tag_byte_read data).isLt
  rw [read_tag_unfold]
  by_cases h : (tag_byte_read data).val ≤ 11
  · have h1 : to_signed 8 (tag_byte_read data).val = ((tag_byte_read data).val : Int) :=
      to_signed_of_lt 8 _ (by decide) (by simp; omega)
    rw [if_pos h, h1, if_neg (by omega)]
  · rw [if_neg h, if_pos]
    by_cases h2 : (tag_byte_read data).val < 128
    · rw [to_signed_of_lt 8 _ (by decide) (by simpa using h2)]
      right; omega
    · rw [to_signed_of_ge 8 _ (by simp; omega) (by simp)]
      left
      have : (2 : Nat) ^ 8 = 256 := by norm_num
      rw [this]
      omega

theorem exists_mem_append_iff (l1 l2 : List Byte) :
    (∃ b ∈ l1 ++ l2, 12 ≤ b.val) ↔ (∃ b ∈ l1, 12 ≤ b.val) ∨ ∃ b ∈ l2, 12 ≤ b.val := by
  simp only [List.mem_append]
  constructor
  · rintro ⟨b, h1 | h1, h2⟩
    · exact Or.inl ⟨b, h1, h2⟩
    · exact Or.inr ⟨b, h1, h2⟩
  · rintro (⟨b, h1, h2⟩ | ⟨b, h1, h2⟩)
    · exact ⟨b, Or.inl h1, h2⟩
    · exact ⟨b, Or.inr h1, h2⟩

theorem malformed_tag_iff (fuel : Nat) :
    (∀ data, (∃ t, Parse fuel data = .error (.read_tag_unknown_tag t)) ↔
      ∃ b ∈ Parse_tag_bytes fuel data, 12 ≤ b.val) ∧
    (∀ data values, (∃ t, read_compound_values fuel data values
        = .error (.read_tag_unknown_tag t)) ↔
      ∃ b ∈ read_compound_values_tag_bytes fuel data, 12 ≤ b.val) ∧
    (∀ data list_type size i values, (∃ t, read_list_values fuel data list_type size i values
        = .error (.read_tag_unknown_tag t)) ↔
      ∃ b ∈ read_list_values_tag_bytes fuel data list_type size i, 12 ≤ b.val) := by
  induction fuel with
  | zero =>
    simp [Parse.eq_1, read_compound_values.eq_1, read_list_values.eq_1,
      Parse_tag_bytes.eq_1, read_compound_values_tag_bytes.eq_1,
      read_list_values_tag_bytes.eq_1]
  | succ fuel ih =>
    obtain ⟨ihP, ihC, ihL⟩ := ih
    refine ⟨?_, ?_, ?_⟩
    · intro data
      rw [Parse.eq_2 data fuel, Parse_tag_bytes.eq_2 data fuel, read_tag_eq data]
      by_cases hb : (tag_byte_read data).val ≤ 11
      · simp only [hb, ↓reduceIte]
        have hhead : ∀ l : List Byte, (∃ b ∈ tag_byte_read data :: l, 12 ≤ b.val) ↔
            ∃ b ∈ l, 12 ≤ b.val := by
          intro l
          simp only [List.mem_cons, exists_eq_or_imp]
          constructor
          · rintro (h | h)
            · omega
            · exact h
          · exact fun h => Or.inr h
        have hb1 : (tag_byte_read data).val < 12 := by omega
        generalize (tag_byte_read data).val = k at hb
        interval_cases k
        · simp [tag_end, tag_list, tag_compound, hb1]
        · simp [tag_end, tag_byte, tag_list, tag_compound, hb1]
        · simp [tag_end, tag_byte, tag_short, tag_list, tag_compound, hb1]
        · simp [tag_end, tag_byte, tag_short, tag_int, tag_list, tag_compound, hb1]
        · simp [tag_end, tag_byte, tag_short, tag_int, tag_long, tag_list, tag_compound, hb1]
        · simp [tag_end, tag_byte, tag_short, tag_int, tag_long, tag_float, tag_list,
            tag_compound, hb1]
        · simp [tag_end, tag_byte, tag_short, tag_int, tag_long, tag_float, tag_double,
            tag_list, tag_compound, hb1]
        · simp only [tag_end, tag_byte, tag_short, tag_int, tag_long, tag_float, tag_double,
            tag_byte_array, tag_list, tag_compound]
          simp [hb1, read_bytes]
          have h12 : ¬ 12 ≤ (tag_byte_read data).val := by omega
          simp only [h12, iff_false, not_exists]
          intro t
          split_ifs <;> simp
        · simp [tag_end, tag_byte, tag_short, tag_int, tag_long, tag_float, tag_double,
            tag_byte_array, tag_string, tag_list, tag_compound, hb1]
        · simp only [tag_end, tag_byte, tag_short, tag_int, tag_long, tag_float, tag_double,
            tag_byte_array, tag_string, tag_list, tag_compound]
          simp only [Nat.cast_ofNat, ne_eq, OfNat.ofNat_ne_zero, not_false_eq_true, ↓reduceIte,
            OfNat.ofNat_ne_one, OfNat.ofNat_eq_ofNat, Nat.reduceEqDiff]
          rw [read_tag_eq (read_string (Read data 1).2).2]
          by_cases hb2 : (tag_byte_read (read_string (Read data 1).2).2).val ≤ 11
          · simp only [hb2, ↓reduceIte]
            have hhead2 : ∀ l : List Byte,
                (∃ b ∈ tag_byte_read (read_string (Read data 1).2).2 :: l, 12 ≤ b.val) ↔
                ∃ b ∈ l, 12 ≤ b.val := by
              intro l
              simp only [List.mem_cons, exists_eq_or_imp]
              constructor
              · rintro (h | h)
                · omega
                · exact h
              · exact fun h => Or.inr h
            rw [hhead, hhead2, ← ihL _ _ _ 0 []]
            cases h3 : read_list_values fuel
                (read_int32 (Read (read_string (Read data 1).2).2 1).2).2
                (↑↑(tag_byte_read (read_string (Read data 1).2).2))
                (read_int32 (Read (read_string (Read data 1).2).2 1).2).1 0 [] with
            | error e => simp
            | ok r => simp
          · simp [hb2]
            right
            omega
        · simp only [tag_end, tag_byte, tag_short, tag_int, tag_long, tag_float, tag_double,
            tag_byte_array, tag_string, tag_list, tag_compound]
          simp only [Nat.cast_ofNat, ne_eq, OfNat.ofNat_ne_zero, not_false_eq_true, ↓reduceIte,
            OfNat.ofNat_ne_one, OfNat.ofNat_eq_ofNat, Nat.reduceEqDiff]
          rw [hhead, ← ihC _ []]
          cases h3 : read_compound_values fuel (read_string (Read data 1).2).2 [] with
          | error e => simp
          | ok r => simp
        · simp [tag_end, tag_byte, tag_short, tag_int, tag_long, tag_float, tag_double,
            tag_byte_array, tag_string, tag_list, tag_compound, tag_int_array, hb1]
      · simp [hb]
        omega
    · intro data values
      rw [read_compound_values.eq_2 data values fuel,
        read_compound_values_tag_bytes.eq_2 data fuel, exists_mem_append_iff, ← ihP data]
      cases hP : Parse fuel data with
      | error e => simp
      | ok r =>
        obtain ⟨tag, d1⟩ := r
        by_cases h3 : tag.isEndTag = true
        · simp [h3]
        · simp only [h3, ↓reduceIte, reduceCtorEq, exists_false, false_or]
          exact ihC d1 (values ++ [tag])
    · intro data list_type size i values
      rw [read_list_values.eq_2, read_list_values_tag_bytes.eq_2]
      by_cases hi : i < size
      · simp only [hi, ↓reduceIte]
        by_cases h5 : list_type = tag_float
        · simp only [h5, ↓reduceIte]
          exact ihL _ _ _ _ _
        · by_cases h6 : list_type = tag_double
          · simp only [h6, tag_double, tag_float, ↓reduceIte]
            simp only [OfNat.ofNat_eq_ofNat, Nat.reduceEqDiff, ↓reduceIte]
            exact ihL _ _ _ _ _
          · by_cases h10 : list_type = tag_compound
            · simp only [h10, tag_compound, tag_double, tag_float, ↓reduceIte]
              simp only [OfNat.ofNat_eq_ofNat, Nat.reduceEqDiff, ↓reduceIte]
              rw [exists_mem_append_iff, ← ihC data []]
              cases hC : read_compound_values fuel data [] with
              | error e => simp
              | ok r =>
                obtain ⟨vs, d1⟩ := r
                simp only [reduceCtorEq, exists_false, false_or]
                exact ihL d1 10 size (i + 1) (values ++ [Tag.CompoundTag [] vs])
            · simp [h5, h6, h10]
      · simp [hi]

/-- C2: a type-tag byte with unsigned value 12..255 obtained by `read_tag` at any
node-header position of the run (`Parse_tag_bytes` lists them: the first byte, the
header byte of every child of a Compound being decoded, the element-type byte of every
List) makes `Parse` abort with "read_tag: unknown tag" and return no tag; conversely,
when every type-tag byte it reads is in 0..11, `Parse` never aborts with that error. -/
theorem Parse_malformed_tag (fuel : Nat) (data : Stream) :
    ((∃ b ∈ Parse_tag_bytes fuel data, 12 ≤ b.val) →
      (∃ t, Parse fuel data = .error (.read_tag_unknown_tag t)) ∧
      ∀ r, Parse fuel data ≠ .ok r) ∧
    ((∀ b ∈ Parse_tag_bytes fuel data, b.val ≤ 11) →
      ∀ t, Parse fuel data ≠ .error (.read_tag_unknown_tag t)) := by
  have h := (malformed_tag_iff fuel).1 data
  constructor
  · intro hb
    obtain ⟨t, ht⟩ := h.mpr hb
    exact ⟨⟨t, ht⟩, fun r hr => by rw [ht] at hr; cases hr⟩
  · intro hall t ht
    obtain ⟨b, hb1, hb2⟩ := h.mp ⟨t, ht⟩
    have := hall b hb1
    omega

/-- C2 at the three header positions: byte `0C` as the first byte, byte `C8` as the
header of the second child of a Compound, byte `0C` as the element type of a List and
byte `0D` as a child header inside a List of Compounds all abort the decode; a Compound
holding one String, whose type-tag bytes are 10, 8 and 0, does not abort with the
malformed-tag error. -/
theorem Parse_malformed_tag_witness :
    (∃ t, Parse 1 [12] = .error (.read_tag_unknown_tag t)) ∧
    (∃ t, Parse 4 [10, 0, 0, 1, 0, 0, 5, 200] = .error (.read_tag_unknown_tag t)) ∧
    (∃ t, Parse 1 [9, 0, 0, 12] = .error (.read_tag_unknown_tag t)) ∧
    (∃ t, Parse 4 [9, 0, 0, 10, 0, 0, 0, 1, 13] = .error (.read_tag_unknown_tag t)) ∧
    (∀ t, Parse 4 [10, 0, 0, 8, 0, 1, 97, 0, 1, 98, 0] ≠ .error (.read_tag_unknown_tag t)) :=
  ⟨((Parse_malformed_tag 1 [12]).1 (by decide)).1,
   ((Parse_malformed_tag 4 [10, 0, 0, 1, 0, 0, 5, 200]).1 (by decide)).1,
   ((Parse_malformed_tag 1 [9, 0, 0, 12]).1 (by decide)).1,
   ((Parse_malformed_tag 4 [9, 0, 0, 10, 0, 0, 0, 1, 13]).1 (by decide)).1,
   (Parse_malformed_tag 4 [10, 0, 0, 8, 0, 1, 97, 0, 1, 98, 0]).2
     (by rw [show Parse_tag_bytes 4 [10, 0, 0, 8, 0, 1, 97, 0, 1, 98, 0] = [10, 8, 0] from rfl]
         simp
         exact ⟨by decide, by decide⟩)⟩

/-! ## Negative declared lengths -/

theorem to_signed_32_negative (N : Nat) (h1 : 2147483648 ≤ N) (h2 : N ≤ 4294967295) :
    to_signed 32 N < 0 := by
  rw [to_signed_of_ge 32 N (by simpa using h1) (by simp; omega)]
  have : (2 : Nat) ^ 32 = 4294967296 := by norm_num
  rw [this]
  omega

/-- Without short reads: negative declared lengths.  For every 32-bit length field whose signed value
is negative (unsigned value `N` in `2^31 .. 2^32-1`) and every stream `s` following the
type byte whose name field decodes to `name`: an IntArray node gives an IntArrayTag with
empty `Values` and a List node with any element-type byte in 0..11 gives a ListTag with
empty `Values`, both leaving exactly the bytes after the length field, whereas a
ByteArray node aborts with the allocation panic.  Likewise a 16-bit string length with
the high bit set makes `read_string` return the empty string and leave everything after
the two length bytes. -/
theorem Parse_negative_length (fuel : Nat) (s : Stream) (name rest : List Byte) (N : Nat)
    (h1 : 2147483648 ≤ N) (h2 : N ≤ 4294967295) :
    (read_string s = (name, be32 N ++ rest) →
      Parse (fuel + 1) (11 :: s) = .ok (.IntArrayTag name [], rest)) ∧
    (∀ ty : Byte, ty.val ≤ 11 → read_string s = (name, ty :: (be32 N ++ rest)) →
      Parse (fuel + 2) (9 :: s) = .ok (.ListTag name (ty.val : Int) [], rest)) ∧
    (read_string s = (name, be32 N ++ rest) →
      Parse (fuel + 1) (7 :: s) = .error .makeslice_len_out_of_range) ∧
    (∀ L : Nat, 32768 ≤ L → L ≤ 65535 → read_string (be16 L ++ rest) = ([], rest)) := by
  have hneg := to_signed_32_negative N h1 h2
  refine ⟨fun hs => ?_, fun ty hty hs => ?_, fun hs => ?_,
    fun L hL1 hL2 => read_string_of_negative L rest hL1 hL2⟩
  · rw [Parse_int_array_node, hs, read_int32_be32 N rest (by omega)]
    have h0 : (to_signed 32 N).toNat = 0 := by omega
    simp [read_int_array_values, h0, read_int_array_values_loop]
  · rw [Parse_list_node, hs]
    simp only [read_tag_cons_ok ty _ hty, read_int32_be32 N rest (by omega)]
    rw [read_list_values_done fuel rest _ _ 0 [] (by omega)]
  · rw [Parse_byte_array_node, hs, read_int32_be32 N rest (by omega)]
    simp [read_bytes, hneg]

/-- Without short reads, at the length `FF FF FF FF` (that is, -1) for an IntArray, a List of Byte and a
ByteArray, each with empty name and followed by one further byte, and at the string
length `80 00`. -/
theorem Parse_negative_length_witness :
    Parse 1 [11, 0, 0, 255, 255, 255, 255, 9] = .ok (.IntArrayTag [] [], [9]) ∧
    Parse 2 [9, 0, 0, 1, 255, 255, 255, 255, 9] = .ok (.ListTag [] 1 [], [9]) ∧
    Parse 1 [7, 0, 0, 255, 255, 255, 255, 9] = .error .makeslice_len_out_of_range ∧
    read_string [128, 0, 9] = ([], [9]) :=
  ⟨(Parse_negative_length 0 [0, 0, 255, 255, 255, 255, 9] [] [9] 4294967295
      (by decide) (by decide)).1 rfl,
   (Parse_negative_length 0 [0, 0, 1, 255, 255, 255, 255, 9] [] [9] 4294967295
      (by decide) (by decide)).2.1 1 (by decide) rfl,
   (Parse_negative_length 0 [0, 0, 255, 255, 255, 255, 9] [] [9] 4294967295
      (by decide) (by decide)).2.2.1 rfl,
   (Parse_negative_length 0 [] [] [9] 4294967295
      (by decide) (by decide)).2.2.2 32768 (by decide) (by decide)⟩

/-! ## Arrays of 32-bit integers -/

theorem read_int32_take_drop (payload rest : Stream) (h : 4 ≤ payload.length) :
    read_int32 (payload ++ rest) = (twos_complement (payload.take 4), payload.drop 4 ++ rest) := by
  have h1 := read_int32_append (payload.take 4) (payload.drop 4 ++ rest)
    (by simp; omega)
  rw [← List.append_assoc, List.take_append_drop] at h1
  exact h1

theorem read_int_array_values_loop_eq (n : Nat) (payload rest : Stream) (values : List Int)
    (h : payload.length = 4 * n) :
    read_int_array_values_loop n (payload ++ rest) values =
      (values ++ (List.range n).map (fun i => twos_complement ((payload.drop (4 * i)).take 4)),
        rest) := by
  induction n generalizing payload values with
  | zero =>
    have : payload = [] := List.length_eq_zero.mp (by omega)
    subst this
    simp [read_int_array_values_loop]
  | succ n ih =>
    rw [read_int_array_values_loop, read_int32_take_drop payload rest (by omega)]
    simp only []
    rw [ih (payload.drop 4) (values ++ [twos_complement (payload.take 4)])
      (by simp; omega)]
    rw [List.range_succ_eq_map]
    simp only [List.map_cons, List.map_map, List.append_assoc, List.singleton_append,
      Nat.mul_zero, List.drop_zero]
    congr 3
    apply List.map_congr_left
    intro i _
    simp only [Function.comp_apply, List.drop_drop]
    have e : 4 + 4 * i = 4 * i.succ := by omega
    rw [e]

/-- Without short reads: for every stream `s` following the type byte whose name field decodes to `name`
and leaves the 4-byte big-endian length `N` (`0 ≤ N ≤ 2^31-1`) followed by `4 * N`
bytes `payload` and then `rest`, `Parse` on the IntArray node returns the IntArrayTag
named `name` whose `Values` has length exactly `N`, the `i`-th element being the
big-endian two's-complement reading of bytes `4i .. 4i+3` of `payload`, and leaves
exactly `rest` unread. -/
theorem Parse_int_array_values (fuel : Nat) (s : Stream) (name payload rest : List Byte)
    (N : Nat) (hN : N ≤ 2147483647) (hlen : payload.length = 4 * N)
    (hs : read_string s = (name, be32 N ++ payload ++ rest)) :
    Parse (fuel + 1) (11 :: s) =
      .ok (.IntArrayTag name
        ((List.range N).map (fun i => twos_complement ((payload.drop (4 * i)).take 4))), rest) ∧
    ((List.range N).map (fun i => twos_complement ((payload.drop (4 * i)).take 4))).length
      = N := by
  refine ⟨?_, by simp⟩
  have h1 : to_signed 32 N = (N : Int) := to_signed_of_lt 32 N (by decide) (by simp; omega)
  rw [Parse_int_array_node, hs, List.append_assoc, read_int32_be32 _ _ (by omega), h1]
  simp only [read_int_array_values, Int.toNat_ofNat]
  rw [read_int_array_values_loop_eq N payload rest [] hlen]
  simp

/-- Without short reads, at the IntArray named "a" holding 1, -1 and 2147483647, followed by one further
byte which is left unread. -/
theorem Parse_int_array_values_witness :
    Parse 1 [11, 0, 1, 97, 0, 0, 0, 3, 0, 0, 0, 1, 255, 255, 255, 255, 127, 255, 255, 255, 9]
      = .ok (.IntArrayTag [97] [1, -1, 2147483647], [9]) ∧
    ([1, -1, 2147483647] : List Int).length = 3 :=
  Parse_int_array_values 0 [0, 1, 97, 0, 0, 0, 3, 0, 0, 0, 1, 255, 255, 255, 255,
      127, 255, 255, 255, 9] [97] [0, 0, 0, 1, 255, 255, 255, 255, 127, 255, 255, 255] [9] 3
    (by decide) rfl rfl

/-! ## Lists -/

theorem read_float32_be32 (w : Nat) (rest : Stream) (h : w < 4294967296) :
    read_float32 (be32 w ++ rest) = (w, rest) := by
  simp [read_float32, Read, be32, BigEndian]
  omega

theorem read_float64_be64 (w : Nat) (rest : Stream) (h : w < 18446744073709551616) :
    read_float64 (be64 w ++ rest) = (w, rest) := by
  simp [read_float64, Read, be64, be32, BigEndian]
  omega

theorem read_list_values_float (words : List Nat) (fuel : Nat) (rest : Stream) (size i : Int)
    (values : List Tag) (hw : ∀ w ∈ words, w < 4294967296)
    (h : size - i = (words.length : Int)) (hf : words.length < fuel) :
    read_list_values fuel (be32_words words ++ rest) tag_float size i values
      = .ok (values ++ words.map (Tag.FloatTag []), rest) := by
  induction words generalizing fuel i values with
  | nil =>
    obtain ⟨k, rfl⟩ : ∃ k, fuel = k + 1 := ⟨fuel - 1, by simp at hf; omega⟩
    simp only [List.length_nil, Nat.cast_zero] at h
    rw [read_list_values_done k _ _ _ _ _ (by omega)]
    simp [be32_words]
  | cons w ws ih =>
    obtain ⟨k, rfl⟩ : ∃ k, fuel = k + 1 := ⟨fuel - 1, by simp at hf; omega⟩
    simp only [List.length_cons, Nat.cast_add, Nat.cast_one] at h hf
    rw [read_list_values, if_pos (by omega), if_pos rfl]
    simp only [be32_words, List.append_assoc]
    rw [read_float32_be32 w _ (hw w (by simp))]
    simp only []
    rw [ih k (i + 1) _ (fun x hx => hw x (by simp [hx])) (by omega) (by omega)]
    simp

theorem read_list_values_double (words : List Nat) (fuel : Nat) (rest : Stream) (size i : Int)
    (values : List Tag) (hw : ∀ w ∈ words, w < 18446744073709551616)
    (h : size - i = (words.length : Int)) (hf : words.length < fuel) :
    read_list_values fuel (be64_words words ++ rest) tag_double size i values
      = .ok (values ++ words.map (Tag.DoubleTag []), rest) := by
  induction words generalizing fuel i values with
  | nil =>
    obtain ⟨k, rfl⟩ : ∃ k, fuel = k + 1 := ⟨fuel - 1, by simp at hf; omega⟩
    simp only [List.length_nil, Nat.cast_zero] at h
    rw [read_list_values_done k _ _ _ _ _ (by omega)]
    simp [be64_words]
  | cons w ws ih =>
    obtain ⟨k, rfl⟩ : ∃ k, fuel = k + 1 := ⟨fuel - 1, by simp at hf; omega⟩
    simp only [List.length_cons, Nat.cast_add, Nat.cast_one] at h hf
    rw [read_list_values, if_pos (by omega), if_neg (by decide), if_pos rfl]
    simp only [be64_words, List.append_assoc]
    rw [read_float64_be64 w _ (hw w (by simp))]
    simp only []
    rw [ih k (i + 1) _ (fun x hx => hw x (by simp [hx])) (by omega) (by omega)]
    simp

/-- Without short reads: for every stream `s` following the type byte whose name field decodes to `name`
and leaves the element type Double (6), the length `N` and the 8-byte big-endian
encodings of `N` 64-bit words followed by `rest`, `Parse` on the List node (with any
fuel of at least `N + 2`) returns the ListTag named `name` with `TagType` 6 whose
children are, in stream order, the unnamed DoubleTags carrying exactly those bit
patterns, and leaves `rest`; the same holds for Float (5) with 32-bit words. -/
theorem Parse_list_of_floating (fuel : Nat) (s : Stream) (name rest : List Byte)
    (words : List Nat) (N : Nat) (hlen : words.length = N) (hN : N ≤ 2147483647) :
    ((∀ w ∈ words, w < 18446744073709551616) →
      read_string s = (name, 6 :: (be32 N ++ be64_words words ++ rest)) →
      Parse (fuel + N + 2) (9 :: s)
        = .ok (.ListTag name 6 (words.map (Tag.DoubleTag [])), rest) ∧
      (words.map (Tag.DoubleTag [])).length = N) ∧
    ((∀ w ∈ words, w < 4294967296) →
      read_string s = (name, 5 :: (be32 N ++ be32_words words ++ rest)) →
      Parse (fuel + N + 2) (9 :: s)
        = .ok (.ListTag name 5 (words.map (Tag.FloatTag [])), rest) ∧
      (words.map (Tag.FloatTag [])).length = N) := by
  have h1 : to_signed 32 N = (N : Int) := to_signed_of_lt 32 N (by decide) (by simp; omega)
  have h6 : read_tag ((6 : Byte) :: (be32 N ++ be64_words words ++ rest))
      = .ok (6, be32 N ++ be64_words words ++ rest) := read_tag_cons_ok 6 _ (by decide)
  have h5 : read_tag ((5 : Byte) :: (be32 N ++ be32_words words ++ rest))
      = .ok (5, be32 N ++ be32_words words ++ rest) := read_tag_cons_ok 5 _ (by decide)
  constructor
  · intro hw hs
    refine ⟨?_, by simp [hlen]⟩
    rw [Parse_list_node, hs, h6]
    simp only [List.append_assoc, read_int32_be32 N _ (by omega), h1]
    have := read_list_values_double words (fuel + N + 1) rest N 0 [] hw (by simp [hlen])
      (by omega)
    simp only [tag_double, List.nil_append] at this
    rw [this]
  · intro hw hs
    refine ⟨?_, by simp [hlen]⟩
    rw [Parse_list_node, hs, h5]
    simp only [List.append_assoc, read_int32_be32 N _ (by omega), h1]
    have := read_list_values_float words (fuel + N + 1) rest N 0 [] hw (by simp [hlen])
      (by omega)
    simp only [tag_float, List.nil_append] at this
    rw [this]

/-- Without short reads, at scenario B: the words `3FF0000000000000` and `4000000000000000` (the bit
patterns of 1.0 and 2.0) give two Double children in that order; the 32-bit words
`7FC00001` (a NaN with payload) and `3F800000` give two Float children unchanged. -/
theorem Parse_list_of_floating_witness :
    (Parse 4 [9, 0, 0, 6, 0, 0, 0, 2, 0x3F, 0xF0, 0, 0, 0, 0, 0, 0, 0x40, 0, 0, 0, 0, 0, 0, 0]
      = .ok (.ListTag [] 6 [.DoubleTag [] 0x3FF0000000000000,
          .DoubleTag [] 0x4000000000000000], []) ∧
      [Tag.DoubleTag [] 0x3FF0000000000000, Tag.DoubleTag [] 0x4000000000000000].length = 2) ∧
    (Parse 4 [9, 0, 0, 5, 0, 0, 0, 2, 0x7F, 0xC0, 0, 1, 0x3F, 0x80, 0, 0]
      = .ok (.ListTag [] 5 [.FloatTag [] 0x7FC00001, .FloatTag [] 0x3F800000], []) ∧
      [Tag.FloatTag [] 0x7FC00001, Tag.FloatTag [] 0x3F800000].length = 2) :=
  ⟨(Parse_list_of_floating 0 [0, 0, 6, 0, 0, 0, 2, 0x3F, 0xF0, 0, 0, 0, 0, 0, 0,
      0x40, 0, 0, 0, 0, 0, 0, 0] [] [] [0x3FF0000000000000, 0x4000000000000000] 2 rfl
      (by decide)).1 (by decide) rfl,
   (Parse_list_of_floating 0 [0, 0, 5, 0, 0, 0, 2, 0x7F, 0xC0, 0, 1, 0x3F, 0x80, 0, 0] [] []
      [0x7FC00001, 0x3F800000] 2 rfl (by decide)).2 (by decide) rfl⟩

theorem compound_elements_spec_shape (f n : Nat) (data rest : Stream) (elements : List Tag)
    (h : compound_elements_spec f n data = .ok (elements, rest)) :
    elements.length = n ∧ ∀ e ∈ elements, ∃ vs, e = Tag.CompoundTag [] vs := by
  induction n generalizing data elements with
  | zero =>
    simp only [compound_elements_spec, Except.ok.injEq, Prod.mk.injEq] at h
    obtain ⟨rfl, _⟩ := h
    simp
  | succ n ih =>
    rw [compound_elements_spec] at h
    cases h1 : read_compound_values f data [] with
    | error e => rw [h1] at h; cases h
    | ok r =>
      obtain ⟨vs, d1⟩ := r
      rw [h1] at h
      simp only [] at h
      cases h2 : compound_elements_spec f n d1 with
      | error e => rw [h2] at h; cases h
      | ok r2 =>
        obtain ⟨es, d2⟩ := r2
        rw [h2] at h
        simp only [Except.ok.injEq, Prod.mk.injEq] at h
        obtain ⟨rfl, rfl⟩ := h
        obtain ⟨hl, hall⟩ := ih d1 es h2
        refine ⟨by simp [hl], ?_⟩
        intro e he
        simp only [List.mem_cons] at he
        rcases he with rfl | he
        · exact ⟨vs, rfl⟩
        · exact hall e he

theorem read_list_values_compound (f n : Nat) (fuel : Nat) (data rest : Stream) (size i : Int)
    (values elements : List Tag)
    (hspec : compound_elements_spec f n data = .ok (elements, rest))
    (h : size - i = (n : Int)) (hf : f + n < fuel) :
    read_list_values fuel data tag_compound size i values = .ok (values ++ elements, rest) := by
  induction n generalizing fuel data i values elements with
  | zero =>
    obtain ⟨k, rfl⟩ : ∃ k, fuel = k + 1 := ⟨fuel - 1, by omega⟩
    simp only [compound_elements_spec, Except.ok.injEq, Prod.mk.injEq] at hspec
    obtain ⟨rfl, rfl⟩ := hspec
    simp only [Nat.cast_zero] at h
    rw [read_list_values_done k _ _ _ _ _ (by omega)]
    simp
  | succ n ih =>
    obtain ⟨k, rfl⟩ : ∃ k, fuel = k + 1 := ⟨fuel - 1, by omega⟩
    rw [compound_elements_spec] at hspec
    cases h1 : read_compound_values f data [] with
    | error e => rw [h1] at hspec; cases hspec
    | ok r =>
      obtain ⟨vs, d1⟩ := r
      rw [h1] at hspec
      simp only [] at hspec
      cases h2 : compound_elements_spec f n d1 with
      | error e => rw [h2] at hspec; cases hspec
      | ok r2 =>
        obtain ⟨es, d2⟩ := r2
        rw [h2] at hspec
        simp only [Except.ok.injEq, Prod.mk.injEq] at hspec
        obtain ⟨rfl, rfl⟩ := hspec
        simp only [Nat.cast_add, Nat.cast_one] at h
        rw [read_list_values, if_pos (by omega), if_neg (by decide), if_neg (by decide),
          if_pos rfl, read_compound_values_fuel_ok f k data [] _ (by omega) h1]
        simp only []
        rw [ih k d1 (i + 1) _ es h2 (by omega) (by omega)]
        simp

/-- Without short reads: list elements carry no type byte and no name.  Let the stream `s` following the
type byte have a name field decoding to `name`, followed by the element type
Compound (10), the length `N` and the bytes `data`.  If reading `N` compound payloads
one after the other from `data` (each by `read_compound_values` started right after the
End marker of the previous one, the first right after the length field) yields
`elements` and leaves `rest`, then `Parse` on the List node returns the ListTag named
`name` with `TagType` 10 and exactly these `N` children, each an unnamed CompoundTag,
and leaves `rest`. -/
theorem Parse_list_of_compounds (f fuel N : Nat) (s : Stream) (name data rest : List Byte)
    (elements : List Tag) (hN : N ≤ 2147483647)
    (hs : read_string s = (name, 10 :: (be32 N ++ data)))
    (hspec : compound_elements_spec f N data = .ok (elements, rest))
    (hfuel : f + N + 1 < fuel) :
    Parse fuel (9 :: s) = .ok (.ListTag name 10 elements, rest) ∧
    elements.length = N ∧ ∀ e ∈ elements, ∃ vs, e = Tag.CompoundTag [] vs := by
  refine ⟨?_, compound_elements_spec_shape f N data rest elements hspec⟩
  obtain ⟨k, rfl⟩ : ∃ k, fuel = k + 1 := ⟨fuel - 1, by omega⟩
  have h1 : to_signed 32 N = (N : Int) := to_signed_of_lt 32 N (by decide) (by simp; omega)
  have h10 : read_tag ((10 : Byte) :: (be32 N ++ data)) = .ok (10, be32 N ++ data) :=
    read_tag_cons_ok 10 _ (by decide)
  rw [Parse_list_node, hs, h10]
  simp only [read_int32_be32 N _ (by omega), h1]
  have := read_list_values_compound f N k data rest N 0 [] elements hspec (by simp) (by omega)
  simp only [tag_compound, List.nil_append] at this
  rw [this]

/-- Without short reads, at a list "l" of two compounds, each holding the String "name" with value "#0"
resp. "#1" and the Long "t" with value 7, followed by one further byte. -/
theorem Parse_list_of_compounds_witness :
    Parse 8 [9, 0, 1, 108, 10, 0, 0, 0, 2,
        8, 0, 4, 110, 97, 109, 101, 0, 2, 35, 48, 4, 0, 1, 116, 0, 0, 0, 0, 0, 0, 0, 7, 0,
        8, 0, 4, 110, 97, 109, 101, 0, 2, 35, 49, 4, 0, 1, 116, 0, 0, 0, 0, 0, 0, 0, 7, 0, 9]
      = .ok (.ListTag [108] 10
          [.CompoundTag [] [.StringTag [110, 97, 109, 101] [35, 48], .LongTag [116] 7],
           .CompoundTag [] [.StringTag [110, 97, 109, 101] [35, 49], .LongTag [116] 7]], [9]) ∧
    [Tag.CompoundTag [] [.StringTag [110, 97, 109, 101] [35, 48], .LongTag [116] 7],
      Tag.CompoundTag [] [.StringTag [110, 97, 109, 101] [35, 49], .LongTag [116] 7]].length
      = 2 ∧
    ∀ e ∈ [Tag.CompoundTag [] [.StringTag [110, 97, 109, 101] [35, 48], .LongTag [116] 7],
      Tag.CompoundTag [] [.StringTag [110, 97, 109, 101] [35, 49], .LongTag [116] 7]],
      ∃ vs, e = Tag.CompoundTag [] vs :=
  Parse_list_of_compounds 4 8 2 [0, 1, 108, 10, 0, 0, 0, 2,
        8, 0, 4, 110, 97, 109, 101, 0, 2, 35, 48, 4, 0, 1, 116, 0, 0, 0, 0, 0, 0, 0, 7, 0,
        8, 0, 4, 110, 97, 109, 101, 0, 2, 35, 49, 4, 0, 1, 116, 0, 0, 0, 0, 0, 0, 0, 7, 0, 9]
    [108]
    [8, 0, 4, 110, 97, 109, 101, 0, 2, 35, 48, 4, 0, 1, 116, 0, 0, 0, 0, 0, 0, 0, 7, 0,
        8, 0, 4, 110, 97, 109, 101, 0, 2, 35, 49, 4, 0, 1, 116, 0, 0, 0, 0, 0, 0, 0, 7, 0, 9]
    [9] _ (by decide) rfl rfl (by decide)

/-! ## Case analysis on the head of the stream -/

theorem stream_cases (data : Stream) :
    data = [] ∨ (∃ b s, data = b :: s ∧ 12 ≤ b.val) ∨
    (∃ s, data = 0 :: s) ∨ (∃ s, data = 1 :: s) ∨ (∃ s, data = 2 :: s) ∨
    (∃ s, data = 3 :: s) ∨ (∃ s, data = 4 :: s) ∨ (∃ s, data = 5 :: s) ∨
    (∃ s, data = 6 :: s) ∨ (∃ s, data = 7 :: s) ∨ (∃ s, data = 8 :: s) ∨
    (∃ s, data = 9 :: s) ∨ (∃ s, data = 10 :: s) ∨ (∃ s, data = 11 :: s) := by
  cases data with
  | nil => exact Or.inl rfl
  | cons b s =>
    right
    by_cases hb : 12 ≤ b.val
    · exact Or.inl ⟨b, s, rfl, hb⟩
    · right
      have hlt : b.val < 12 := by omega
      obtain ⟨k, hk⟩ := b
      simp only at hlt
      interval_cases k
      · exact Or.inl ⟨s, rfl⟩
      · exact Or.inr (Or.inl ⟨s, rfl⟩)
      · exact Or.inr (Or.inr (Or.inl ⟨s, rfl⟩))
      · exact Or.inr (Or.inr (Or.inr (Or.inl ⟨s, rfl⟩)))
      · exact Or.inr (Or.inr (Or.inr (Or.inr (Or.inl ⟨s, rfl⟩))))
      · exact Or.inr (Or.inr (Or.inr (Or.inr (Or.inr (Or.inl ⟨s, rfl⟩)))))
      · exact Or.inr (Or.inr (Or.inr (Or.inr (Or.inr (Or.inr (Or.inl ⟨s, rfl⟩))))))
      · exact Or.inr (Or.inr (Or.inr (Or.inr (Or.inr (Or.inr (Or.inr (Or.inl ⟨s, rfl⟩)))))))
      · exact Or.inr (Or.inr (Or.inr (Or.inr (Or.inr (Or.inr (Or.inr (Or.inr
          (Or.inl ⟨s, rfl⟩))))))))
      · exact Or.inr (Or.inr (Or.inr (Or.inr (Or.inr (Or.inr (Or.inr (Or.inr
          (Or.inr (Or.inl ⟨s, rfl⟩)))))))))
      · exact Or.inr (Or.inr (Or.inr (Or.inr (Or.inr (Or.inr (Or.inr (Or.inr
          (Or.inr (Or.inr (Or.inl ⟨s, rfl⟩))))))))))
      · exact Or.inr (Or.inr (Or.inr (Or.inr (Or.inr (Or.inr (Or.inr (Or.inr
          (Or.inr (Or.inr (Or.inr ⟨s, rfl⟩))))))))))

theorem Parse_nil (fuel : Nat) : Parse (fuel + 1) [] = .ok (.EndTag, []) := by
  rw [Parse]
  rfl

theorem Parse_bad_tag (fuel : Nat) (b : Byte) (s : Stream) (h : 12 ≤ b.val) :
    Parse (fuel + 1) (b :: s) = .error (.read_tag_unknown_tag (to_signed 8 b.val)) := by
  have h1 : tag_byte_read (b :: s) = b := rfl
  rw [Parse, read_tag_eq, h1, if_neg (by omega)]

/-! ## Invariants of the decoded tree -/

theorem mem_subtags_list (vs : List Tag) (t : Tag) :
    t ∈ subtags_list vs ↔ ∃ v ∈ vs, t ∈ v.subtags := by
  induction vs with
  | nil => simp [subtags_list]
  | cons v vs ih => simp [subtags_list, ih]

theorem leaf_invariant (t : Tag) (hleaf : t.subtags = [t]) (hnode : t.node_ok) :
    (∀ u ∈ t.subtags, u.node_ok) ∧ (Tag.EndTag ∈ t.subtags → t = Tag.EndTag) := by
  rw [hleaf]
  constructor
  · intro u hu
    simp only [List.mem_singleton] at hu
    subst hu; exact hnode
  · intro h
    simp only [List.mem_singleton] at h
    exact h.symm

theorem not_end_of_isEndTag (t : Tag) (h : t.isEndTag = false) : t ≠ Tag.EndTag := by
  intro e
  subst e
  simp [Tag.isEndTag] at h

theorem tree_invariant (fuel : Nat) :
    (∀ data t rest, Parse fuel data = .ok (t, rest) →
      (∀ u ∈ t.subtags, u.node_ok) ∧ (Tag.EndTag ∈ t.subtags → t = Tag.EndTag)) ∧
    (∀ data values vs rest, read_compound_values fuel data values = .ok (vs, rest) →
      (∀ v ∈ values, v.isEndTag = false ∧ Tag.EndTag ∉ v.subtags ∧
        ∀ u ∈ v.subtags, u.node_ok) →
      ∀ v ∈ vs, v.isEndTag = false ∧ Tag.EndTag ∉ v.subtags ∧ ∀ u ∈ v.subtags, u.node_ok) ∧
    (∀ data list_type size i values vs rest,
      read_list_values fuel data list_type size i values = .ok (vs, rest) →
      (∀ v ∈ values, (v.variant = list_type ∧ v.GetName = [] ∧ v.isEndTag = false) ∧
        Tag.EndTag ∉ v.subtags ∧ ∀ u ∈ v.subtags, u.node_ok) →
      ∀ v ∈ vs, (v.variant = list_type ∧ v.GetName = [] ∧ v.isEndTag = false) ∧
        Tag.EndTag ∉ v.subtags ∧ ∀ u ∈ v.subtags, u.node_ok) := by
  induction fuel with
  | zero =>
    refine ⟨fun data t rest h => ?_, fun data values vs rest h => ?_,
      fun data list_type size i values vs rest h => ?_⟩
    · rw [Parse.eq_1] at h; cases h
    · rw [read_compound_values.eq_1] at h; cases h
    · rw [read_list_values.eq_1] at h; cases h
  | succ fuel ih =>
    obtain ⟨ihP, ihC, ihL⟩ := ih
    refine ⟨?_, ?_, ?_⟩
    · intro data t rest h
      rcases stream_cases data with rfl | ⟨b, s, rfl, hb⟩ | ⟨s, rfl⟩ | ⟨s, rfl⟩ | ⟨s, rfl⟩ |
        ⟨s, rfl⟩ | ⟨s, rfl⟩ | ⟨s, rfl⟩ | ⟨s, rfl⟩ | ⟨s, rfl⟩ | ⟨s, rfl⟩ | ⟨s, rfl⟩ | ⟨s, rfl⟩ |
        ⟨s, rfl⟩
      · rw [Parse_nil] at h
        cases h
        exact leaf_invariant _ rfl trivial
      · rw [Parse_bad_tag fuel b s hb] at h; cases h
      · rw [Parse_end_node] at h
        cases h
        exact leaf_invariant _ rfl trivial
      · rw [Parse_byte_node] at h
        cases h
        exact leaf_invariant _ rfl trivial
      · rw [Parse_short_node] at h
        cases h
        exact leaf_invariant _ rfl trivial
      · rw [Parse_int_node] at h
        cases h
        exact leaf_invariant _ rfl trivial
      · rw [Parse_long_node] at h
        cases h
        exact leaf_invariant _ rfl trivial
      · rw [Parse_float_node] at h
        cases h
        exact leaf_invariant _ rfl trivial
      · rw [Parse_double_node] at h
        cases h
        exact leaf_invariant _ rfl trivial
      · rw [Parse_byte_array_node] at h
        cases h1 : read_bytes (read_int32 (read_string s).2).2 (read_int32 (read_string s).2).1 with
        | error e => rw [h1] at h; cases h
        | ok r =>
          rw [h1] at h
          cases h
          exact leaf_invariant _ rfl trivial
      · rw [Parse_string_node] at h
        cases h
        exact leaf_invariant _ rfl trivial
      · rw [Parse_list_node] at h
        cases h1 : read_tag (read_string s).2 with
        | error e => rw [h1] at h; cases h
        | ok r =>
          obtain ⟨lt, d2⟩ := r
          rw [h1] at h
          simp only [] at h
          cases h2 : read_list_values fuel (read_int32 d2).2 lt (read_int32 d2).1 0 [] with
          | error e => rw [h2] at h; cases h
          | ok r2 =>
            obtain ⟨vs, d3⟩ := r2
            rw [h2] at h
            cases h
            have hvs := ihL _ _ _ _ _ _ _ h2 (by simp)
            constructor
            · intro u hu
              simp only [Tag.subtags, List.mem_cons, mem_subtags_list] at hu
              rcases hu with rfl | ⟨v, hv, hu⟩
              · exact fun v hv => (hvs v hv).1
              · exact (hvs v hv).2.2 u hu
            · intro hu
              simp only [Tag.subtags, List.mem_cons, mem_subtags_list, reduceCtorEq,
                false_or] at hu
              obtain ⟨v, hv, hu⟩ := hu
              exact absurd hu (hvs v hv).2.1
      · rw [Parse_compound_node] at h
        cases h2 : read_compound_values fuel (read_string s).2 [] with
        | error e => rw [h2] at h; cases h
        | ok r2 =>
          obtain ⟨vs, d3⟩ := r2
          rw [h2] at h
          cases h
          have hvs := ihC _ _ _ _ h2 (by simp)
          constructor
          · intro u hu
            simp only [Tag.subtags, List.mem_cons, mem_subtags_list] at hu
            rcases hu with rfl | ⟨v, hv, hu⟩
            · exact fun v hv => (hvs v hv).1
            · exact (hvs v hv).2.2 u hu
          · intro hu
            simp only [Tag.subtags, List.mem_cons, mem_subtags_list, reduceCtorEq,
              false_or] at hu
            obtain ⟨v, hv, hu⟩ := hu
            exact absurd hu (hvs v hv).2.1
      · rw [Parse_int_array_node] at h
        cases h
        exact leaf_invariant _ rfl trivial
    · intro data values vs rest h hvalues
      rw [read_compound_values.eq_2] at h
      cases h1 : Parse fuel data with
      | error e => rw [h1] at h; cases h
      | ok r =>
        obtain ⟨tag, d1⟩ := r
        rw [h1] at h
        simp only [] at h
        by_cases h3 : tag.isEndTag = true
        · rw [if_pos h3] at h
          cases h
          exact hvalues
        · rw [if_neg h3] at h
          refine ihC _ _ _ _ h ?_
          intro v hv
          simp only [List.mem_append, List.mem_singleton] at hv
          rcases hv with hv | rfl
          · exact hvalues v hv
          · have h4 : v.isEndTag = false := by simpa using h3
            exact ⟨h4, fun hmem => not_end_of_isEndTag v h4 ((ihP _ _ _ h1).2 hmem),
              (ihP _ _ _ h1).1⟩
    · intro data list_type size i values vs rest h hvalues
      rw [read_list_values.eq_2] at h
      by_cases hi : i < size
      · rw [if_pos hi] at h
        by_cases h5 : list_type = tag_float
        · rw [if_pos h5] at h
          refine ihL _ _ _ _ _ _ _ h ?_
          intro v hv
          simp only [List.mem_append, List.mem_singleton] at hv
          rcases hv with hv | rfl
          · exact hvalues v hv
          · exact ⟨⟨h5.symm, rfl, rfl⟩, by simp [Tag.subtags],
              (leaf_invariant (Tag.FloatTag [] (read_float32 data).1) rfl trivial).1⟩
        · rw [if_neg h5] at h
          by_cases h6 : list_type = tag_double
          · rw [if_pos h6] at h
            refine ihL _ _ _ _ _ _ _ h ?_
            intro v hv
            simp only [List.mem_append, List.mem_singleton] at hv
            rcases hv with hv | rfl
            · exact hvalues v hv
            · exact ⟨⟨h6.symm, rfl, rfl⟩, by simp [Tag.subtags],
                (leaf_invariant (Tag.DoubleTag [] (read_float64 data).1) rfl trivial).1⟩
          · rw [if_neg h6] at h
            by_cases h10 : list_type = tag_compound
            · rw [if_pos h10] at h
              cases h2 : read_compound_values fuel data [] with
              | error e => rw [h2] at h; cases h
              | ok r2 =>
                obtain ⟨cs, d3⟩ := r2
                rw [h2] at h
                simp only [] at h
                have hcs := ihC _ _ _ _ h2 (by simp)
                refine ihL _ _ _ _ _ _ _ h ?_
                intro v hv
                simp only [List.mem_append, List.mem_singleton] at hv
                rcases hv with hv | rfl
                · exact hvalues v hv
                · refine ⟨⟨h10.symm, rfl, rfl⟩, ?_, ?_⟩
                  · intro hu
                    simp only [Tag.subtags, List.mem_cons, mem_subtags_list, reduceCtorEq,
                      false_or] at hu
                    obtain ⟨c, hc, hu⟩ := hu
                    exact absurd hu (hcs c hc).2.1
                  · intro u hu
                    simp only [Tag.subtags, List.mem_cons, mem_subtags_list] at hu
                    rcases hu with rfl | ⟨c, hc, hu⟩
                    · exact fun c hc => (hcs c hc).1
                    · exact (hcs c hc).2.2 u hu
            · rw [if_neg h10] at h; cases h
      · rw [if_neg hi] at h
        cases h
        exact hvalues

theorem variant_cases (v : Tag) :
    (v.variant = tag_float → ∃ name w, v = Tag.FloatTag name w) ∧
    (v.variant = tag_double → ∃ name w, v = Tag.DoubleTag name w) ∧
    (v.variant = tag_compound → ∃ name vs, v = Tag.CompoundTag name vs) := by
  cases v <;> simp [Tag.variant, tag_end, tag_byte, tag_short, tag_int, tag_long, tag_float,
    tag_double, tag_byte_array, tag_string, tag_list, tag_compound, tag_int_array]

/-- C11: list homogeneity.  Whenever `Parse` succeeds, every ListTag occurring anywhere in
the returned tree has every element of its `Values` of the variant named by its
`TagType`: a FloatTag when it is 5, a DoubleTag when it is 6, a CompoundTag when it
is 10. -/
theorem Parse_lists_homogeneous (fuel : Nat) (data rest : Stream) (t : Tag)
    (h : Parse fuel data = .ok (t, rest)) (name : List Byte) (ty : Int) (vs : List Tag)
    (hl : Tag.ListTag name ty vs ∈ t.subtags) (v : Tag) (hv : v ∈ vs) :
    v.variant = ty ∧
    (ty = 5 → ∃ n w, v = Tag.FloatTag n w) ∧
    (ty = 6 → ∃ n w, v = Tag.DoubleTag n w) ∧
    (ty = 10 → ∃ n cs, v = Tag.CompoundTag n cs) := by
  have h1 : v.variant = ty := (((tree_invariant fuel).1 data t rest h).1 _ hl v hv).1
  obtain ⟨h5, h6, h10⟩ := variant_cases v
  exact ⟨h1, fun e => h5 (by rw [h1, e]; rfl), fun e => h6 (by rw [h1, e]; rfl),
    fun e => h10 (by rw [h1, e]; rfl)⟩


/-- C11 on the Compound holding the List "l" of two Floats: the first element of the
list found inside the returned tree is a FloatTag. -/
theorem Parse_lists_homogeneous_witness :
    (Tag.FloatTag [] 0x3F800000).variant = 5 ∧
    ((5 : Int) = 5 → ∃ n w, Tag.FloatTag [] 0x3F800000 = Tag.FloatTag n w) ∧
    ((5 : Int) = 6 → ∃ n w, Tag.FloatTag [] 0x3F800000 = Tag.DoubleTag n w) ∧
    ((5 : Int) = 10 → ∃ n cs, Tag.FloatTag [] 0x3F800000 = Tag.CompoundTag n cs) :=
  Parse_lists_homogeneous 6
    [10, 0, 0, 9, 0, 1, 108, 5, 0, 0, 0, 2, 0x3F, 0x80, 0, 0, 0x40, 0, 0, 0, 0] []
    (.CompoundTag [] [.ListTag [108] 5 [.FloatTag [] 0x3F800000, .FloatTag [] 0x40000000]])
    rfl [108] 5 [.FloatTag [] 0x3F800000, .FloatTag [] 0x40000000]
    (List.Mem.tail _ (List.Mem.head _)) (.FloatTag [] 0x3F800000) (List.Mem.head _)

/-- C12: whenever `Parse` succeeds, no EndTag is an element of the `Values` of any
CompoundTag or ListTag anywhere in the returned tree, and an EndTag occurs in the tree
only when the root itself is the EndTag. -/
theorem Parse_no_end_child (fuel : Nat) (data rest : Stream) (t : Tag)
    (h : Parse fuel data = .ok (t, rest)) :
    (∀ u ∈ t.subtags, Tag.EndTag ∉ u.children) ∧
    (Tag.EndTag ∈ t.subtags → t = Tag.EndTag) := by
  obtain ⟨hnode, hroot⟩ := (tree_invariant fuel).1 data t rest h
  refine ⟨?_, hroot⟩
  intro u hu hmem
  have hok := hnode u hu
  cases u with
  | ListTag n ty vs => exact absurd (hok _ hmem).2.2 (by simp [Tag.isEndTag])
  | CompoundTag n vs => exact absurd (hok _ hmem) (by simp [Tag.isEndTag])
  | _ => simp [Tag.children] at hmem


/-- C12 on the Compound holding one Byte and an empty Compound: no node of the returned
tree has an EndTag among its children, although two End markers were read. -/
theorem Parse_no_end_child_witness :
    (∀ u ∈ (Tag.CompoundTag [] [.ByteTag [97] 5, .CompoundTag [98] []]).subtags,
      Tag.EndTag ∉ u.children) ∧
    (Tag.EndTag ∈ (Tag.CompoundTag [] [.ByteTag [97] 5, .CompoundTag [98] []]).subtags →
      Tag.CompoundTag [] [.ByteTag [97] 5, .CompoundTag [98] []] = Tag.EndTag) :=
  Parse_no_end_child 6 [10, 0, 0, 1, 0, 1, 97, 5, 10, 0, 1, 98, 0, 0] []
    (.CompoundTag [] [.ByteTag [97] 5, .CompoundTag [98] []]) rfl

/-- C19: whenever `Parse` succeeds, every element of the `Values` of every ListTag
anywhere in the returned tree has `GetName()` equal to the empty string. -/
theorem Parse_list_children_unnamed (fuel : Nat) (data rest : Stream) (t : Tag)
    (h : Parse fuel data = .ok (t, rest)) (name : List Byte) (ty : Int) (vs : List Tag)
    (hl : Tag.ListTag name ty vs ∈ t.subtags) (v : Tag) (hv : v ∈ vs) :
    v.GetName = [] :=
  (((tree_invariant fuel).1 data t rest h).1 _ hl v hv).2.1


/-- C19 on the List "l" of two Compounds: the second element, a Compound holding a Byte
named "a", itself has the empty name. -/
theorem Parse_list_children_unnamed_witness :
    (Tag.CompoundTag [] [.ByteTag [97] 6]).GetName = [] :=
  Parse_list_children_unnamed 6
    [9, 0, 1, 108, 10, 0, 0, 0, 2, 1, 0, 1, 97, 5, 0, 1, 0, 1, 97, 6, 0] []
    (.ListTag [108] 10 [.CompoundTag [] [.ByteTag [97] 5], .CompoundTag [] [.ByteTag [97] 6]])
    rfl [108] 10 [.CompoundTag [] [.ByteTag [97] 5], .CompoundTag [] [.ByteTag [97] 6]]
    (List.Mem.head _) (.CompoundTag [] [.ByteTag [97] 6]) (List.Mem.tail _ (List.Mem.head _))

/-! ## Zero padding of a truncated stream -/

theorem Read_zero_padded (a b : Stream) (n : Nat) (h : zero_padded a b) :
    (Read b n).1 = (Read a n).1 ∧ zero_padded (Read a n).2 (Read b n).2 := by
  obtain ⟨j, rfl⟩ := h
  constructor
  · simp only [Read, List.take_append_eq_append_take, List.take_replicate, List.length_append,
      List.length_replicate, List.append_assoc, List.append_cancel_left_eq,
      List.append_replicate_replicate]
    congr 1
    simp only [Nat.min_def]
    split_ifs <;> omega
  · refine ⟨j - (n - a.length), ?_⟩
    simp [Read, List.drop_append_eq_append_drop]

theorem Read_length (a : Stream) (n : Nat) : (Read a n).1.length = n := by
  simp [Read]
  omega

theorem read_int8_eq (data : Stream) :
    read_int8 data = (to_signed 8 ((Read data 1).1.getD 0 0).val, (Read data 1).2) := rfl

theorem read_int16_eq (data : Stream) :
    read_int16 data = (to_signed 16 (BigEndian (Read data 2).1), (Read data 2).2) := rfl

theorem read_int32_eq (data : Stream) :
    read_int32 data = (to_signed 32 (BigEndian (Read data 4).1), (Read data 4).2) := rfl

theorem read_int64_eq (data : Stream) :
    read_int64 data = (to_signed 64 (BigEndian (Read data 8).1), (Read data 8).2) := rfl

theorem read_float32_eq (data : Stream) :
    read_float32 data = (BigEndian (Read data 4).1, (Read data 4).2) := rfl

theorem read_float64_eq (data : Stream) :
    read_float64 data = (BigEndian (Read data 8).1, (Read data 8).2) := rfl

theorem read_string_eq (data : Stream) :
    read_string data =
      if (read_int16 data).1 > 0 then Read (read_int16 data).2 (read_int16 data).1.toNat
      else ([], (read_int16 data).2) := rfl

theorem read_int8_padded (a b : Stream) (h : zero_padded a b) :
    (read_int8 b).1 = (read_int8 a).1 ∧ zero_padded (read_int8 a).2 (read_int8 b).2 := by
  obtain ⟨h1, h2⟩ := Read_zero_padded a b 1 h
  simp only [read_int8_eq, h1]
  exact ⟨by first | rfl | trivial, h2⟩

theorem read_int16_padded (a b : Stream) (h : zero_padded a b) :
    (read_int16 b).1 = (read_int16 a).1 ∧ zero_padded (read_int16 a).2 (read_int16 b).2 := by
  obtain ⟨h1, h2⟩ := Read_zero_padded a b 2 h
  simp only [read_int16_eq, h1]
  exact ⟨by first | rfl | trivial, h2⟩

theorem read_int32_padded (a b : Stream) (h : zero_padded a b) :
    (read_int32 b).1 = (read_int32 a).1 ∧ zero_padded (read_int32 a).2 (read_int32 b).2 := by
  obtain ⟨h1, h2⟩ := Read_zero_padded a b 4 h
  simp only [read_int32_eq, h1]
  exact ⟨by first | rfl | trivial, h2⟩

theorem read_int64_padded (a b : Stream) (h : zero_padded a b) :
    (read_int64 b).1 = (read_int64 a).1 ∧ zero_padded (read_int64 a).2 (read_int64 b).2 := by
  obtain ⟨h1, h2⟩ := Read_zero_padded a b 8 h
  simp only [read_int64_eq, h1]
  exact ⟨by first | rfl | trivial, h2⟩

theorem read_float32_padded (a b : Stream) (h : zero_padded a b) :
    (read_float32 b).1 = (read_float32 a).1 ∧
      zero_padded (read_float32 a).2 (read_float32 b).2 := by
  obtain ⟨h1, h2⟩ := Read_zero_padded a b 4 h
  simp only [read_float32_eq, h1]
  exact ⟨by first | rfl | trivial, h2⟩

theorem read_float64_padded (a b : Stream) (h : zero_padded a b) :
    (read_float64 b).1 = (read_float64 a).1 ∧
      zero_padded (read_float64 a).2 (read_float64 b).2 := by
  obtain ⟨h1, h2⟩ := Read_zero_padded a b 8 h
  simp only [read_float64_eq, h1]
  exact ⟨by first | rfl | trivial, h2⟩

theorem read_string_padded (a b : Stream) (h : zero_padded a b) :
    (read_string b).1 = (read_string a).1 ∧
      zero_padded (read_string a).2 (read_string b).2 := by
  obtain ⟨h1, h2⟩ := read_int16_padded a b h
  rw [read_string_eq a, read_string_eq b, h1]
  by_cases hs : (read_int16 a).1 > 0
  · rw [if_pos hs, if_pos hs]
    exact Read_zero_padded _ _ _ h2
  · rw [if_neg hs, if_neg hs]
    exact ⟨rfl, h2⟩

theorem read_bytes_padded (a b : Stream) (size : Int) (h : zero_padded a b) :
    agree_up_to_padding (read_bytes a size) (read_bytes b size) := by
  unfold read_bytes
  by_cases hs : size < 0
  · rw [if_pos hs, if_pos hs]
    exact rfl
  · rw [if_neg hs, if_neg hs]
    obtain ⟨h1, h2⟩ := Read_zero_padded a b size.toNat h
    exact ⟨h1.symm, h2⟩

theorem read_tag_padded (a b : Stream) (h : zero_padded a b) :
    agree_up_to_padding (read_tag a) (read_tag b) := by
  obtain ⟨h1, h2⟩ := Read_zero_padded a b 1 h
  have hb : tag_byte_read b = tag_byte_read a := by
    unfold tag_byte_read
    rw [h1]
  rw [read_tag_eq a, read_tag_eq b, hb]
  by_cases hk : (tag_byte_read a).val ≤ 11
  · rw [if_pos hk, if_pos hk]
    exact ⟨rfl, h2⟩
  · rw [if_neg hk, if_neg hk]
    exact rfl

theorem read_int_array_values_loop_padded (n : Nat) (a b : Stream) (values : List Int)
    (h : zero_padded a b) :
    (read_int_array_values_loop n b values).1 = (read_int_array_values_loop n a values).1 ∧
      zero_padded (read_int_array_values_loop n a values).2
        (read_int_array_values_loop n b values).2 := by
  induction n generalizing a b values with
  | zero => exact ⟨rfl, h⟩
  | succ n ih =>
    obtain ⟨h1, h2⟩ := read_int32_padded a b h
    have ea : read_int_array_values_loop (n + 1) a values =
        read_int_array_values_loop n (read_int32 a).2 (values ++ [(read_int32 a).1]) := rfl
    have eb : read_int_array_values_loop (n + 1) b values =
        read_int_array_values_loop n (read_int32 b).2 (values ++ [(read_int32 b).1]) := rfl
    rw [ea, eb, h1]
    exact ih _ _ _ h2

theorem padding_invariant (fuel : Nat) :
    (∀ a b, zero_padded a b → agree_up_to_padding (Parse fuel a) (Parse fuel b)) ∧
    (∀ a b values, zero_padded a b →
      agree_up_to_padding (read_compound_values fuel a values)
        (read_compound_values fuel b values)) ∧
    (∀ a b list_type size i values, zero_padded a b →
      agree_up_to_padding (read_list_values fuel a list_type size i values)
        (read_list_values fuel b list_type size i values)) := by
  induction fuel with
  | zero =>
    refine ⟨fun a b _ => ?_, fun a b values _ => ?_, fun a b list_type size i values _ => ?_⟩
    · rw [Parse.eq_1, Parse.eq_1]; exact rfl
    · rw [read_compound_values.eq_1, read_compound_values.eq_1]; exact rfl
    · rw [read_list_values.eq_1, read_list_values.eq_1]; exact rfl
  | succ fuel ih =>
    obtain ⟨ihP, ihC, ihL⟩ := ih
    refine ⟨?_, ?_, ?_⟩
    · intro a b hab
      obtain ⟨j, rfl⟩ := hab
      rcases stream_cases a with rfl | ⟨b, s, rfl, hb⟩ | ⟨s, rfl⟩ | ⟨s, rfl⟩ | ⟨s, rfl⟩ |
        ⟨s, rfl⟩ | ⟨s, rfl⟩ | ⟨s, rfl⟩ | ⟨s, rfl⟩ | ⟨s, rfl⟩ | ⟨s, rfl⟩ | ⟨s, rfl⟩ | ⟨s, rfl⟩ |
        ⟨s, rfl⟩
      · cases j with
        | zero =>
          simp only [List.replicate_zero, List.append_nil, Parse_nil]
          exact ⟨rfl, 0, rfl⟩
        | succ j =>
          simp only [List.nil_append, List.replicate_succ, Parse_nil, Parse_end_node]
          exact ⟨rfl, j, rfl⟩
      all_goals
        rw [List.cons_append]
        have hs : zero_padded s (s ++ List.replicate j 0) := ⟨j, rfl⟩
      · rw [Parse_bad_tag fuel b s hb, Parse_bad_tag fuel b _ hb]
        exact rfl
      · rw [Parse_end_node, Parse_end_node]
        exact ⟨rfl, hs⟩
      · rw [Parse_byte_node, Parse_byte_node]
        obtain ⟨n1, n2⟩ := read_string_padded s _ hs
        obtain ⟨v1, v2⟩ := read_int8_padded _ _ n2
        exact ⟨by rw [n1, v1], v2⟩
      · rw [Parse_short_node, Parse_short_node]
        obtain ⟨n1, n2⟩ := read_string_padded s _ hs
        obtain ⟨v1, v2⟩ := read_int16_padded _ _ n2
        exact ⟨by rw [n1, v1], v2⟩
      · rw [Parse_int_node, Parse_int_node]
        obtain ⟨n1, n2⟩ := read_string_padded s _ hs
        obtain ⟨v1, v2⟩ := read_int32_padded _ _ n2
        exact ⟨by rw [n1, v1], v2⟩
      · rw [Parse_long_node, Parse_long_node]
        obtain ⟨n1, n2⟩ := read_string_padded s _ hs
        obtain ⟨v1, v2⟩ := read_int64_padded _ _ n2
        exact ⟨by rw [n1, v1], v2⟩
      · rw [Parse_float_node, Parse_float_node]
        obtain ⟨n1, n2⟩ := read_string_padded s _ hs
        obtain ⟨v1, v2⟩ := read_float32_padded _ _ n2
        exact ⟨by rw [n1, v1], v2⟩
      · rw [Parse_double_node, Parse_double_node]
        obtain ⟨n1, n2⟩ := read_string_padded s _ hs
        obtain ⟨v1, v2⟩ := read_float64_padded _ _ n2
        exact ⟨by rw [n1, v1], v2⟩
      · rw [Parse_byte_array_node, Parse_byte_array_node]
        obtain ⟨n1, n2⟩ := read_string_padded s _ hs
        obtain ⟨v1, v2⟩ := read_int32_padded _ _ n2
        have h3 := read_bytes_padded _ _ (read_int32 (read_string s).2).1 v2
        rw [n1, v1]
        cases ha : read_bytes (read_int32 (read_string s).2).2 (read_int32 (read_string s).2).1 with
        | error e1 =>
          cases hb : read_bytes (read_int32 (read_string (s ++ List.replicate j 0)).2).2
              (read_int32 (read_string s).2).1 with
          | error e2 => rw [ha, hb] at h3; exact h3
          | ok r2 => rw [ha, hb] at h3; exact h3.elim
        | ok r1 =>
          cases hb : read_bytes (read_int32 (read_string (s ++ List.replicate j 0)).2).2
              (read_int32 (read_string s).2).1 with
          | error e2 => rw [ha, hb] at h3; exact h3.elim
          | ok r2 =>
            rw [ha, hb] at h3
            obtain ⟨x1, y1⟩ := r1
            obtain ⟨x2, y2⟩ := r2
            obtain ⟨h4, h5⟩ := h3
            exact ⟨by rw [h4], h5⟩
      · rw [Parse_string_node, Parse_string_node]
        obtain ⟨n1, n2⟩ := read_string_padded s _ hs
        obtain ⟨v1, v2⟩ := read_string_padded _ _ n2
        exact ⟨by rw [n1, v1], v2⟩
      · rw [Parse_list_node, Parse_list_node]
        obtain ⟨n1, n2⟩ := read_string_padded s _ hs
        have h3 := read_tag_padded _ _ n2
        rw [n1]
        cases ha : read_tag (read_string s).2 with
        | error e1 =>
          cases hb : read_tag (read_string (s ++ List.replicate j 0)).2 with
          | error e2 => rw [ha, hb] at h3; exact h3
          | ok r2 => rw [ha, hb] at h3; exact h3.elim
        | ok r1 =>
          cases hb : read_tag (read_string (s ++ List.replicate j 0)).2 with
          | error e2 => rw [ha, hb] at h3; exact h3.elim
          | ok r2 =>
            rw [ha, hb] at h3
            obtain ⟨lt1, d1⟩ := r1
            obtain ⟨lt2, d2⟩ := r2
            obtain ⟨h4, h5⟩ := h3
            subst h4
            obtain ⟨v1, v2⟩ := read_int32_padded _ _ h5
            have h6 := ihL _ _ lt1 (read_int32 d1).1 0 [] v2
            simp only [v1]
            cases hc : read_list_values fuel (read_int32 d1).2 lt1 (read_int32 d1).1 0 [] with
            | error e1 =>
              cases hd : read_list_values fuel (read_int32 d2).2 lt1 (read_int32 d1).1 0 [] with
              | error e2 => rw [hc, hd] at h6; exact h6
              | ok r2 => rw [hc, hd] at h6; exact h6.elim
            | ok r1 =>
              cases hd : read_list_values fuel (read_int32 d2).2 lt1 (read_int32 d1).1 0 [] with
              | error e2 => rw [hc, hd] at h6; exact h6.elim
              | ok r2 =>
                rw [hc, hd] at h6
                obtain ⟨x1, y1⟩ := r1
                obtain ⟨x2, y2⟩ := r2
                obtain ⟨h7, h8⟩ := h6
                exact ⟨by rw [h7], h8⟩
      · rw [Parse_compound_node, Parse_compound_node]
        obtain ⟨n1, n2⟩ := read_string_padded s _ hs
        have h6 := ihC _ _ [] n2
        rw [n1]
        cases hc : read_compound_values fuel (read_string s).2 [] with
        | error e1 =>
          cases hd : read_compound_values fuel (read_string (s ++ List.replicate j 0)).2 [] with
          | error e2 => rw [hc, hd] at h6; exact h6
          | ok r2 => rw [hc, hd] at h6; exact h6.elim
        | ok r1 =>
          cases hd : read_compound_values fuel (read_string (s ++ List.replicate j 0)).2 [] with
          | error e2 => rw [hc, hd] at h6; exact h6.elim
          | ok r2 =>
            rw [hc, hd] at h6
            obtain ⟨x1, y1⟩ := r1
            obtain ⟨x2, y2⟩ := r2
            obtain ⟨h7, h8⟩ := h6
            exact ⟨by rw [h7], h8⟩
      · rw [Parse_int_array_node, Parse_int_array_node]
        obtain ⟨n1, n2⟩ := read_string_padded s _ hs
        obtain ⟨v1, v2⟩ := read_int32_padded _ _ n2
        obtain ⟨w1, w2⟩ := read_int_array_values_loop_padded
          (read_int32 (read_string s).2).1.toNat _ _ [] v2
        simp only [read_int_array_values, n1, v1]
        exact ⟨by rw [w1], w2⟩
    · intro a b values hab
      rw [read_compound_values.eq_2, read_compound_values.eq_2]
      have h6 := ihP a b hab
      cases hc : Parse fuel a with
      | error e1 =>
        cases hd : Parse fuel b with
        | error e2 => rw [hc, hd] at h6; exact h6
        | ok r2 => rw [hc, hd] at h6; exact h6.elim
      | ok r1 =>
        cases hd : Parse fuel b with
        | error e2 => rw [hc, hd] at h6; exact h6.elim
        | ok r2 =>
          rw [hc, hd] at h6
          obtain ⟨x1, y1⟩ := r1
          obtain ⟨x2, y2⟩ := r2
          obtain ⟨h7, h8⟩ := h6
          subst h7
          simp only []
          by_cases h3 : x1.isEndTag = true
          · rw [if_pos h3, if_pos h3]
            exact ⟨rfl, h8⟩
          · rw [if_neg h3, if_neg h3]
            exact ihC _ _ _ h8
    · intro a b list_type size i values hab
      rw [read_list_values.eq_2, read_list_values.eq_2]
      by_cases hi : i < size
      · rw [if_pos hi, if_pos hi]
        by_cases h5 : list_type = tag_float
        · rw [if_pos h5, if_pos h5]
          obtain ⟨v1, v2⟩ := read_float32_padded a b hab
          simp only [v1]
          exact ihL _ _ _ _ _ _ v2
        · rw [if_neg h5, if_neg h5]
          by_cases h6 : list_type = tag_double
          · rw [if_pos h6, if_pos h6]
            obtain ⟨v1, v2⟩ := read_float64_padded a b hab
            simp only [v1]
            exact ihL _ _ _ _ _ _ v2
          · rw [if_neg h6, if_neg h6]
            by_cases h10 : list_type = tag_compound
            · rw [if_pos h10, if_pos h10]
              have h7 := ihC a b [] hab
              cases hc : read_compound_values fuel a [] with
              | error e1 =>
                cases hd : read_compound_values fuel b [] with
                | error e2 => rw [hc, hd] at h7; exact h7
                | ok r2 => rw [hc, hd] at h7; exact h7.elim
              | ok r1 =>
                cases hd : read_compound_values fuel b [] with
                | error e2 => rw [hc, hd] at h7; exact h7.elim
                | ok r2 =>
                  rw [hc, hd] at h7
                  obtain ⟨x1, y1⟩ := r1
                  obtain ⟨x2, y2⟩ := r2
                  obtain ⟨h8, h9⟩ := h7
                  subst h8
                  exact ihL _ _ _ _ _ _ h9
            · rw [if_neg h10, if_neg h10]
              exact rfl
      · rw [if_neg hi, if_neg hi]
        exact ⟨rfl, hab⟩

/-- C16: truncation is silent and equivalent to zero padding.  For every stream `s`,
every `k` and every fuel, `Parse` on `s` and `Parse` on `s` followed by `k` zero bytes
abort with the same panic or succeed with the same tag; and a `Read` of `n` bytes
always fills a buffer of `n` bytes, the same one on `s` and on the padded stream, so
bytes missing at the end of the stream are read as `00` without any error. -/
theorem Parse_zero_padding (fuel : Nat) (s : Stream) (k : Nat) :
    (∀ e, Parse fuel s = .error e ↔ Parse fuel (s ++ List.replicate k 0) = .error e) ∧
    (∀ t, (∃ r, Parse fuel s = .ok (t, r)) ↔
      ∃ r, Parse fuel (s ++ List.replicate k 0) = .ok (t, r)) ∧
    (∀ n, (Read s n).1 = (Read (s ++ List.replicate k 0) n).1 ∧ (Read s n).1.length = n) := by
  have h := (padding_invariant fuel).1 s (s ++ List.replicate k 0) ⟨k, rfl⟩
  refine ⟨?_, ?_, fun n => ⟨((Read_zero_padded s _ n ⟨k, rfl⟩).1).symm, Read_length s n⟩⟩
  · intro e
    cases ha : Parse fuel s with
    | error e1 =>
      cases hb : Parse fuel (s ++ List.replicate k 0) with
      | error e2 =>
        rw [ha, hb] at h
        have h' : e1 = e2 := h
        subst h'
        exact Iff.rfl
      | ok r2 => rw [ha, hb] at h; exact h.elim
    | ok r1 =>
      cases hb : Parse fuel (s ++ List.replicate k 0) with
      | error e2 => rw [ha, hb] at h; exact h.elim
      | ok r2 => simp
  · intro t
    cases ha : Parse fuel s with
    | error e1 =>
      cases hb : Parse fuel (s ++ List.replicate k 0) with
      | error e2 => simp
      | ok r2 => rw [ha, hb] at h; exact h.elim
    | ok r1 =>
      cases hb : Parse fuel (s ++ List.replicate k 0) with
      | error e2 => rw [ha, hb] at h; exact h.elim
      | ok r2 =>
        rw [ha, hb] at h
        obtain ⟨x1, y1⟩ := r1
        obtain ⟨x2, y2⟩ := r2
        obtain ⟨h7, _⟩ := h
        subst h7
        simp

/-- C16 at two truncated streams: the empty stream and the single byte `00` both decode
to EndTag, and `03 00 00 01` decodes, like `03 00 00 01 00 00 00`, to the unnamed IntTag
with value `0x01000000`. -/
theorem Parse_zero_padding_witness :
    (∃ r, Parse 1 ([] ++ List.replicate 1 0) = .ok (.EndTag, r)) ∧
    (∃ r, Parse 1 ([3, 0, 0, 1] ++ List.replicate 3 0) = .ok (.IntTag [] 0x01000000, r)) ∧
    Parse 1 [3, 0, 0, 1] = .ok (.IntTag [] 0x01000000, []) :=
  ⟨((Parse_zero_padding 1 [] 1).2.1 .EndTag).mp ⟨[], rfl⟩,
   ((Parse_zero_padding 1 [3, 0, 0, 1] 3).2.1 (.IntTag [] 0x01000000)).mp ⟨[], rfl⟩,
   rfl⟩

/-! ## Consumption of the stream -/

theorem Read_snd_length (data : Stream) (n : Nat) :
    (Read data n).2.length = data.length - n := by
  simp [Read]

theorem read_int8_snd_length (data : Stream) :
    (read_int8 data).2.length ≤ data.length := by
  rw [read_int8_eq]; simp only [Read_snd_length]; omega

theorem read_int16_snd_length (data : Stream) :
    (read_int16 data).2.length ≤ data.length := by
  rw [read_int16_eq]; simp only [Read_snd_length]; omega

theorem read_int32_snd_length (data : Stream) :
    (read_int32 data).2.length ≤ data.length := by
  rw [read_int32_eq]; simp only [Read_snd_length]; omega

theorem read_int64_snd_length (data : Stream) :
    (read_int64 data).2.length ≤ data.length := by
  rw [read_int64_eq]; simp only [Read_snd_length]; omega

theorem read_float32_snd_length (data : Stream) :
    (read_float32 data).2.length ≤ data.length := by
  rw [read_float32_eq]; simp only [Read_snd_length]; omega

theorem read_float64_snd_length (data : Stream) :
    (read_float64 data).2.length ≤ data.length := by
  rw [read_float64_eq]; simp only [Read_snd_length]; omega

theorem read_string_snd_length (data : Stream) :
    (read_string data).2.length ≤ data.length := by
  have h := read_int16_snd_length data
  rw [read_string_eq]
  split_ifs
  · rw [Read_snd_length]; omega
  · exact h

theorem read_bytes_snd_length (data : Stream) (size : Int) (r : List Byte × Stream)
    (h : read_bytes data size = .ok r) : r.2.length ≤ data.length := by
  unfold read_bytes at h
  split_ifs at h
  cases h
  rw [Read_snd_length]; omega

theorem read_tag_snd_length (data : Stream) (r : Int × Stream)
    (h : read_tag data = .ok r) : r.2.length ≤ data.length - 1 := by
  rw [read_tag_eq] at h
  split_ifs at h
  cases h
  rw [Read_snd_length]

theorem read_int_array_values_loop_snd_length (n : Nat) (data : Stream) (values : List Int) :
    (read_int_array_values_loop n data values).2.length ≤ data.length := by
  induction n generalizing data values with
  | zero => exact Nat.le_refl _
  | succ n ih =>
    have e : read_int_array_values_loop (n + 1) data values =
        read_int_array_values_loop n (read_int32 data).2 (values ++ [(read_int32 data).1]) := rfl
    rw [e]
    exact Nat.le_trans (ih _ _) (read_int32_snd_length data)

theorem consumption (fuel : Nat) :
    (∀ data t rest, Parse fuel data = .ok (t, rest) → rest.length ≤ data.length - 1) ∧
    (∀ data values vs rest, read_compound_values fuel data values = .ok (vs, rest) →
      rest.length ≤ data.length - 1) ∧
    (∀ data list_type size i values vs rest,
      read_list_values fuel data list_type size i values = .ok (vs, rest) →
      rest.length ≤ data.length) := by
  induction fuel with
  | zero =>
    refine ⟨fun data t rest h => ?_, fun data values vs rest h => ?_,
      fun data list_type size i values vs rest h => ?_⟩
    · rw [Parse.eq_1] at h; cases h
    · rw [read_compound_values.eq_1] at h; cases h
    · rw [read_list_values.eq_1] at h; cases h
  | succ fuel ih =>
    obtain ⟨ihP, ihC, ihL⟩ := ih
    refine ⟨?_, ?_, ?_⟩
    · intro data t rest h
      rcases stream_cases data with rfl | ⟨b, s, rfl, hb⟩ | ⟨s, rfl⟩ | ⟨s, rfl⟩ | ⟨s, rfl⟩ |
        ⟨s, rfl⟩ | ⟨s, rfl⟩ | ⟨s, rfl⟩ | ⟨s, rfl⟩ | ⟨s, rfl⟩ | ⟨s, rfl⟩ | ⟨s, rfl⟩ | ⟨s, rfl⟩ |
        ⟨s, rfl⟩
      · rw [Parse_nil] at h
        cases h
        exact Nat.le_refl _
      · rw [Parse_bad_tag fuel b s hb] at h; cases h
      all_goals
        simp only [List.length_cons, Nat.add_sub_cancel]
        have hn := read_string_snd_length s
      · rw [Parse_end_node] at h
        cases h
        exact Nat.le_refl _
      · rw [Parse_byte_node] at h
        cases h
        exact Nat.le_trans (read_int8_snd_length _) hn
      · rw [Parse_short_node] at h
        cases h
        exact Nat.le_trans (read_int16_snd_length _) hn
      · rw [Parse_int_node] at h
        cases h
        exact Nat.le_trans (read_int32_snd_length _) hn
      · rw [Parse_long_node] at h
        cases h
        exact Nat.le_trans (read_int64_snd_length _) hn
      · rw [Parse_float_node] at h
        cases h
        exact Nat.le_trans (read_float32_snd_length _) hn
      · rw [Parse_double_node] at h
        cases h
        exact Nat.le_trans (read_float64_snd_length _) hn
      · rw [Parse_byte_array_node] at h
        cases h1 : read_bytes (read_int32 (read_string s).2).2 (read_int32 (read_string s).2).1 with
        | error e => rw [h1] at h; cases h
        | ok r =>
          rw [h1] at h
          cases h
          exact Nat.le_trans (read_bytes_snd_length _ _ _ h1)
            (Nat.le_trans (read_int32_snd_length _) hn)
      · rw [Parse_string_node] at h
        cases h
        exact Nat.le_trans (read_string_snd_length _) hn
      · rw [Parse_list_node] at h
        cases h1 : read_tag (read_string s).2 with
        | error e => rw [h1] at h; cases h
        | ok r =>
          obtain ⟨lt, d2⟩ := r
          rw [h1] at h
          simp only [] at h
          cases h2 : read_list_values fuel (read_int32 d2).2 lt (read_int32 d2).1 0 [] with
          | error e => rw [h2] at h; cases h
          | ok r2 =>
            obtain ⟨vs, d3⟩ := r2
            rw [h2] at h
            cases h
            have a1 := ihL _ _ _ _ _ _ _ h2
            have a2 := read_int32_snd_length d2
            have a3 := read_tag_snd_length _ _ h1
            simp only at a3
            omega
      · rw [Parse_compound_node] at h
        cases h2 : read_compound_values fuel (read_string s).2 [] with
        | error e => rw [h2] at h; cases h
        | ok r2 =>
          obtain ⟨vs, d3⟩ := r2
          rw [h2] at h
          cases h
          have a1 := ihC _ _ _ _ h2
          omega
      · rw [Parse_int_array_node] at h
        cases h
        exact Nat.le_trans (read_int_array_values_loop_snd_length _ _ _)
          (Nat.le_trans (read_int32_snd_length _) hn)
    · intro data values vs rest h
      rw [read_compound_values.eq_2] at h
      cases h1 : Parse fuel data with
      | error e => rw [h1] at h; cases h
      | ok r =>
        obtain ⟨tag, d1⟩ := r
        rw [h1] at h
        simp only [] at h
        have a1 := ihP _ _ _ h1
        by_cases h3 : tag.isEndTag = true
        · rw [if_pos h3] at h
          cases h
          exact a1
        · rw [if_neg h3] at h
          have a2 := ihC _ _ _ _ h
          omega
    · intro data list_type size i values vs rest h
      rw [read_list_values.eq_2] at h
      by_cases hi : i < size
      · rw [if_pos hi] at h
        by_cases h5 : list_type = tag_float
        · rw [if_pos h5] at h
          exact Nat.le_trans (ihL _ _ _ _ _ _ _ h) (read_float32_snd_length data)
        · rw [if_neg h5] at h
          by_cases h6 : list_type = tag_double
          · rw [if_pos h6] at h
            exact Nat.le_trans (ihL _ _ _ _ _ _ _ h) (read_float64_snd_length data)
          · rw [if_neg h6] at h
            by_cases h10 : list_type = tag_compound
            · rw [if_pos h10] at h
              cases h2 : read_compound_values fuel data [] with
              | error e => rw [h2] at h; cases h
              | ok r2 =>
                obtain ⟨cs, d3⟩ := r2
                rw [h2] at h
                simp only [] at h
                have a1 := ihC _ _ _ _ h2
                have a2 := ihL _ _ _ _ _ _ _ h
                omega
            · rw [if_neg h10] at h; cases h
      · rw [if_neg hi] at h
        cases h
        exact Nat.le_refl _

/-! ## Termination -/

theorem read_tag_ne_out_of_fuel (data : Stream) : read_tag data ≠ .error .out_of_fuel := by
  rw [read_tag_eq]
  split_ifs <;> exact fun h => by cases h

theorem read_bytes_ne_out_of_fuel (data : Stream) (size : Int) :
    read_bytes data size ≠ .error .out_of_fuel := by
  unfold read_bytes
  split_ifs <;> exact fun h => by cases h

theorem Parse_halts_of_shorter (data : Stream)
    (H : ∀ d : Stream, d.length < data.length →
      ∀ list_type size i values, ∃ f,
        read_list_values f d list_type size i values ≠ .error .out_of_fuel)
    (H2 : ∀ d : Stream, d.length < data.length →
      ∀ values, ∃ f, read_compound_values f d values ≠ .error .out_of_fuel) :
    ∃ f, Parse f data ≠ .error .out_of_fuel := by
  rcases stream_cases data with rfl | ⟨b, s, rfl, hb⟩ | ⟨s, rfl⟩ | ⟨s, rfl⟩ | ⟨s, rfl⟩ |
    ⟨s, rfl⟩ | ⟨s, rfl⟩ | ⟨s, rfl⟩ | ⟨s, rfl⟩ | ⟨s, rfl⟩ | ⟨s, rfl⟩ | ⟨s, rfl⟩ | ⟨s, rfl⟩ |
    ⟨s, rfl⟩
  · exact ⟨0 + 1, by rw [Parse_nil]; exact fun h => by cases h⟩
  · exact ⟨0 + 1, by rw [Parse_bad_tag 0 b s hb]; exact fun h => by cases h⟩
  · exact ⟨0 + 1, by rw [Parse_end_node]; exact fun h => by cases h⟩
  · exact ⟨0 + 1, by rw [Parse_byte_node]; exact fun h => by cases h⟩
  · exact ⟨0 + 1, by rw [Parse_short_node]; exact fun h => by cases h⟩
  · exact ⟨0 + 1, by rw [Parse_int_node]; exact fun h => by cases h⟩
  · exact ⟨0 + 1, by rw [Parse_long_node]; exact fun h => by cases h⟩
  · exact ⟨0 + 1, by rw [Parse_float_node]; exact fun h => by cases h⟩
  · exact ⟨0 + 1, by rw [Parse_double_node]; exact fun h => by cases h⟩
  · refine ⟨0 + 1, ?_⟩
    rw [Parse_byte_array_node]
    have h1 := read_bytes_ne_out_of_fuel (read_int32 (read_string s).2).2
      (read_int32 (read_string s).2).1
    cases h2 : read_bytes (read_int32 (read_string s).2).2 (read_int32 (read_string s).2).1 with
    | error e =>
      rw [h2] at h1
      exact fun h => h1 (by cases h; rfl)
    | ok r => exact fun h => by cases h
  · exact ⟨0 + 1, by rw [Parse_string_node]; exact fun h => by cases h⟩
  · cases h1 : read_tag (read_string s).2 with
    | error e =>
      refine ⟨0 + 1, ?_⟩
      rw [Parse_list_node, h1]
      have h2 := read_tag_ne_out_of_fuel (read_string s).2
      rw [h1] at h2
      exact fun h => h2 (by cases h; rfl)
    | ok r =>
      obtain ⟨lt, d2⟩ := r
      have a1 := read_int32_snd_length d2
      have a2 := read_tag_snd_length _ _ h1
      have a3 := read_string_snd_length s
      simp only at a2
      obtain ⟨f, hf⟩ := H (read_int32 d2).2 (by simp only [List.length_cons]; omega)
        lt (read_int32 d2).1 0 []
      refine ⟨f + 1, ?_⟩
      rw [Parse_list_node, h1]
      simp only []
      cases h2 : read_list_values f (read_int32 d2).2 lt (read_int32 d2).1 0 [] with
      | error e =>
        rw [h2] at hf
        exact fun h => hf (by cases h; rfl)
      | ok r2 => exact fun h => by cases h
  · have a3 := read_string_snd_length s
    obtain ⟨f, hf⟩ := H2 (read_string s).2 (by simp only [List.length_cons]; omega) []
    refine ⟨f + 1, ?_⟩
    rw [Parse_compound_node]
    cases h2 : read_compound_values f (read_string s).2 [] with
    | error e =>
      rw [h2] at hf
      exact fun h => hf (by cases h; rfl)
    | ok r2 => exact fun h => by cases h
  · exact ⟨0 + 1, by rw [Parse_int_array_node]; exact fun h => by cases h⟩

theorem read_compound_values_terminates_of_shorter (data : Stream) (values : List Tag)
    (HP : ∃ f, Parse f data ≠ .error .out_of_fuel)
    (H2 : ∀ d : Stream, d.length < data.length →
      ∀ values, ∃ f, read_compound_values f d values ≠ .error .out_of_fuel) :
    ∃ f, read_compound_values f data values ≠ .error .out_of_fuel := by
  obtain ⟨f1, hf1⟩ := HP
  cases h1 : Parse f1 data with
  | error e =>
    refine ⟨f1 + 1, ?_⟩
    rw [read_compound_values.eq_2, h1]
    rw [h1] at hf1
    exact fun h => hf1 (by cases h; rfl)
  | ok r =>
    obtain ⟨tag, d1⟩ := r
    by_cases h3 : tag.isEndTag = true
    · refine ⟨f1 + 1, ?_⟩
      rw [read_compound_values.eq_2, h1]
      simp only [h3, ↓reduceIte]
      exact fun h => by cases h
    · have hne : data ≠ [] := by
        rintro rfl
        cases f1 with
        | zero => rw [Parse.eq_1] at h1; cases h1
        | succ k =>
          rw [Parse_nil] at h1
          cases h1
          exact h3 rfl
      have hlen : 0 < data.length := List.length_pos.mpr hne
      have a1 := (consumption f1).1 _ _ _ h1
      obtain ⟨f2, hf2⟩ := H2 d1 (by omega) (values ++ [tag])
      refine ⟨max f1 f2 + 1, ?_⟩
      rw [read_compound_values.eq_2,
        Parse_fuel_le f1 (max f1 f2) data (Nat.le_max_left _ _) hf1, h1]
      simp only [h3, ↓reduceIte]
      rw [read_compound_values_fuel_le f2 (max f1 f2) d1 _ (Nat.le_max_right _ _) hf2]
      exact hf2

theorem read_list_values_terminates_of (n m : Nat)
    (HC : ∀ d : Stream, d.length ≤ n →
      ∀ values, ∃ f, read_compound_values f d values ≠ .error .out_of_fuel) :
    ∀ (data : Stream) (list_type size i : Int) (values : List Tag), data.length ≤ n →
      (size - i).toNat = m →
      ∃ f, read_list_values f data list_type size i values ≠ .error .out_of_fuel := by
  induction m with
  | zero =>
    intro data list_type size i values _ hm
    refine ⟨0 + 1, ?_⟩
    rw [read_list_values_done 0 _ _ _ _ _ (by omega)]
    exact fun h => by cases h
  | succ m ih =>
    intro data list_type size i values hlen hm
    have hi : i < size := by omega
    by_cases h5 : list_type = tag_float
    · obtain ⟨f, hf⟩ := ih (read_float32 data).2 list_type size (i + 1)
        (values ++ [Tag.FloatTag [] (read_float32 data).1])
        (Nat.le_trans (read_float32_snd_length data) hlen) (by omega)
      refine ⟨f + 1, ?_⟩
      rw [read_list_values.eq_2, if_pos hi, if_pos h5]
      exact hf
    · by_cases h6 : list_type = tag_double
      · obtain ⟨f, hf⟩ := ih (read_float64 data).2 list_type size (i + 1)
          (values ++ [Tag.DoubleTag [] (read_float64 data).1])
          (Nat.le_trans (read_float64_snd_length data) hlen) (by omega)
        refine ⟨f + 1, ?_⟩
        rw [read_list_values.eq_2, if_pos hi, if_neg h5, if_pos h6]
        exact hf
      · by_cases h10 : list_type = tag_compound
        · obtain ⟨f1, hf1⟩ := HC data hlen []
          cases h1 : read_compound_values f1 data [] with
          | error e =>
            refine ⟨f1 + 1, ?_⟩
            rw [read_list_values.eq_2, if_pos hi, if_neg h5, if_neg h6, if_pos h10, h1]
            rw [h1] at hf1
            exact fun h => hf1 (by cases h; rfl)
          | ok r =>
            obtain ⟨cs, d1⟩ := r
            have a1 := (consumption f1).2.1 _ _ _ _ h1
            obtain ⟨f2, hf2⟩ := ih d1 list_type size (i + 1)
              (values ++ [Tag.CompoundTag [] cs]) (by omega) (by omega)
            refine ⟨max f1 f2 + 1, ?_⟩
            rw [read_list_values.eq_2, if_pos hi, if_neg h5, if_neg h6, if_pos h10,
              read_compound_values_fuel_le f1 (max f1 f2) data [] (Nat.le_max_left _ _) hf1, h1]
            simp only []
            rw [read_list_values_fuel_le f2 (max f1 f2) d1 _ _ _ _ (Nat.le_max_right _ _) hf2]
            exact hf2
        · refine ⟨0 + 1, ?_⟩
          rw [read_list_values.eq_2, if_pos hi, if_neg h5, if_neg h6, if_neg h10]
          exact fun h => by cases h

theorem terminates_by_length (n : Nat) :
    ∀ data : Stream, data.length ≤ n →
      (∃ f, Parse f data ≠ .error .out_of_fuel) ∧
      (∀ values, ∃ f, read_compound_values f data values ≠ .error .out_of_fuel) ∧
      (∀ list_type size i values, ∃ f,
        read_list_values f data list_type size i values ≠ .error .out_of_fuel) := by
  induction n using Nat.strong_induction_on with
  | _ n IH =>
    have HL : ∀ d : Stream, d.length < n → ∀ list_type size i values, ∃ f,
        read_list_values f d list_type size i values ≠ .error .out_of_fuel :=
      fun d hd => (IH d.length hd d (Nat.le_refl _)).2.2
    have HC : ∀ d : Stream, d.length < n → ∀ values, ∃ f,
        read_compound_values f d values ≠ .error .out_of_fuel :=
      fun d hd => (IH d.length hd d (Nat.le_refl _)).2.1
    have P : ∀ d : Stream, d.length ≤ n → ∃ f, Parse f d ≠ .error .out_of_fuel :=
      fun d hd => Parse_halts_of_shorter d
        (fun x hx => HL x (by omega)) (fun x hx => HC x (by omega))
    have C : ∀ d : Stream, d.length ≤ n → ∀ values, ∃ f,
        read_compound_values f d values ≠ .error .out_of_fuel :=
      fun d hd values => read_compound_values_terminates_of_shorter d values (P d hd)
        (fun x hx => HC x (by omega))
    intro data hdata
    exact ⟨P data hdata, C data hdata, fun list_type size i values =>
      read_list_values_terminates_of n (size - i).toNat C data list_type size i values
        hdata rfl⟩

theorem read_list_values_count (fuel : Nat) :
    ∀ (data : Stream) (list_type size i : Int) (values vs : List Tag) (rest : Stream),
      read_list_values fuel data list_type size i values = .ok (vs, rest) →
      vs.length = values.length + (size - i).toNat := by
  induction fuel with
  | zero =>
    intro data list_type size i values vs rest h
    rw [read_list_values.eq_1] at h; cases h
  | succ fuel ih =>
    intro data list_type size i values vs rest h
    rw [read_list_values.eq_2] at h
    by_cases hi : i < size
    · rw [if_pos hi] at h
      by_cases h5 : list_type = tag_float
      · rw [if_pos h5] at h
        have := ih _ _ _ _ _ _ _ h
        simp only [List.length_append, List.length_singleton] at this
        omega
      · rw [if_neg h5] at h
        by_cases h6 : list_type = tag_double
        · rw [if_pos h6] at h
          have := ih _ _ _ _ _ _ _ h
          simp only [List.length_append, List.length_singleton] at this
          omega
        · rw [if_neg h6] at h
          by_cases h10 : list_type = tag_compound
          · rw [if_pos h10] at h
            cases h2 : read_compound_values fuel data [] with
            | error e => rw [h2] at h; cases h
            | ok r2 =>
              obtain ⟨cs, d3⟩ := r2
              rw [h2] at h
              simp only [] at h
              have := ih _ _ _ _ _ _ _ h
              simp only [List.length_append, List.length_singleton] at this
              omega
          · rw [if_neg h10] at h; cases h
    · rw [if_neg hi] at h
      cases h
      omega

theorem read_int_array_values_loop_count (n : Nat) (data : Stream) (values : List Int) :
    (read_int_array_values_loop n data values).1.length = values.length + n := by
  induction n generalizing data values with
  | zero => rfl
  | succ n ih =>
    have e : read_int_array_values_loop (n + 1) data values =
        read_int_array_values_loop n (read_int32 data).2 (values ++ [(read_int32 data).1]) := rfl
    rw [e, ih]
    simp only [List.length_append, List.length_singleton]
    omega

/-- C17: `Parse` terminates on every finite byte stream: for every stream there is a
fuel at which `Parse` returns a tag or aborts with a panic of the program, and the result
is the same for every larger fuel.  In particular the unbounded loop of
`read_compound_values` terminates on every stream, with or without End marker, because
on the exhausted stream `Parse` returns EndTag and on a non-empty stream every
successful `Parse` leaves strictly fewer bytes; the loop of `read_list_values` appends
exactly `max (size - i) 0` elements and that of `read_int_array_values` exactly
`max size 0`. -/
theorem Parse_terminates (data : Stream) :
    (∃ fuel, Parse fuel data ≠ .error .out_of_fuel ∧
      ∀ fuel2, fuel ≤ fuel2 → Parse fuel2 data = Parse fuel data) ∧
    (∀ values, ∃ fuel, read_compound_values fuel data values ≠ .error .out_of_fuel) ∧
    (∀ list_type size i values, ∃ fuel,
      read_list_values fuel data list_type size i values ≠ .error .out_of_fuel) ∧
    (∀ fuel, Parse (fuel + 1) [] = .ok (.EndTag, [])) ∧
    (∀ fuel t rest, Parse fuel data = .ok (t, rest) → data ≠ [] →
      rest.length < data.length) ∧
    (∀ fuel list_type size i values vs rest,
      read_list_values fuel data list_type size i values = .ok (vs, rest) →
      vs.length = values.length + (size - i).toNat) ∧
    (∀ size, (read_int_array_values data size).1.length = size.toNat) := by
  obtain ⟨⟨f, hf⟩, hC, hL⟩ := terminates_by_length data.length data (Nat.le_refl _)
  refine ⟨⟨f, hf, fun fuel2 h => Parse_fuel_le f fuel2 data h hf⟩, hC, hL, Parse_nil, ?_,
    fun fuel list_type size i values vs rest h =>
      read_list_values_count fuel data list_type size i values vs rest h, ?_⟩
  · intro fuel t rest h hne
    have a1 := (consumption fuel).1 _ _ _ h
    have hlen : 0 < data.length := List.length_pos.mpr hne
    omega
  · intro size
    rw [read_int_array_values, read_int_array_values_loop_count]
    simp

/-- C17 on the stream `0A 00 00 01 00 00 05`, a Compound with one Byte child and no End
marker: the decode terminates with that Compound, having consumed bytes. -/
theorem Parse_terminates_witness :
    Parse 4 [10, 0, 0, 1, 0, 0, 5] = .ok (.CompoundTag [] [.ByteTag [] 5], []) ∧
    ([] : Stream).length < ([10, 0, 0, 1, 0, 0, 5] : Stream).length :=
  ⟨rfl, (Parse_terminates [10, 0, 0, 1, 0, 0, 5]).2.2.2.2.1 4
    (.CompoundTag [] [.ByteTag [] 5]) [] rfl (by simp)⟩

/-! ## Independence of what follows the node -/

theorem Read_append_of_le (s t : Stream) (n : Nat) (h : n ≤ s.length) :
    Read (s ++ t) n = ((Read s n).1, (Read s n).2 ++ t) ∧ (Read s n).2.length + n = s.length := by
  have e1 : n - s.length = 0 := by omega
  have e2 : n - (s.length + t.length) = 0 := by omega
  constructor
  · simp [Read, List.take_append_of_le_length h, List.drop_append_of_le_length h, e1, e2]
  · rw [Read_snd_length]; omega

theorem read_int8_append_of_le (s t : Stream) (h : 1 ≤ s.length) :
    read_int8 (s ++ t) = ((read_int8 s).1, (read_int8 s).2 ++ t) ∧
      (read_int8 s).2.length + 1 = s.length := by
  obtain ⟨h1, h2⟩ := Read_append_of_le s t 1 h
  simp only [read_int8_eq, h1]
  exact ⟨by first | rfl | trivial, h2⟩

theorem read_int16_append_of_le (s t : Stream) (h : 2 ≤ s.length) :
    read_int16 (s ++ t) = ((read_int16 s).1, (read_int16 s).2 ++ t) ∧
      (read_int16 s).2.length + 2 = s.length := by
  obtain ⟨h1, h2⟩ := Read_append_of_le s t 2 h
  simp only [read_int16_eq, h1]
  exact ⟨by first | rfl | trivial, h2⟩

theorem read_int32_append_of_le (s t : Stream) (h : 4 ≤ s.length) :
    read_int32 (s ++ t) = ((read_int32 s).1, (read_int32 s).2 ++ t) ∧
      (read_int32 s).2.length + 4 = s.length := by
  obtain ⟨h1, h2⟩ := Read_append_of_le s t 4 h
  simp only [read_int32_eq, h1]
  exact ⟨by first | rfl | trivial, h2⟩

theorem read_int64_append_of_le (s t : Stream) (h : 8 ≤ s.length) :
    read_int64 (s ++ t) = ((read_int64 s).1, (read_int64 s).2 ++ t) ∧
      (read_int64 s).2.length + 8 = s.length := by
  obtain ⟨h1, h2⟩ := Read_append_of_le s t 8 h
  simp only [read_int64_eq, h1]
  exact ⟨by first | rfl | trivial, h2⟩

theorem read_float32_append_of_le (s t : Stream) (h : 4 ≤ s.length) :
    read_float32 (s ++ t) = ((read_float32 s).1, (read_float32 s).2 ++ t) ∧
      (read_float32 s).2.length + 4 = s.length := by
  obtain ⟨h1, h2⟩ := Read_append_of_le s t 4 h
  simp only [read_float32_eq, h1]
  exact ⟨by first | rfl | trivial, h2⟩

theorem read_float64_append_of_le (s t : Stream) (h : 8 ≤ s.length) :
    read_float64 (s ++ t) = ((read_float64 s).1, (read_float64 s).2 ++ t) ∧
      (read_float64 s).2.length + 8 = s.length := by
  obtain ⟨h1, h2⟩ := Read_append_of_le s t 8 h
  simp only [read_float64_eq, h1]
  exact ⟨by first | rfl | trivial, h2⟩

theorem read_string_append_of_le (s t : Stream) (h : read_string_requested s ≤ s.length) :
    read_string (s ++ t) = ((read_string s).1, (read_string s).2 ++ t) ∧
      (read_string s).2.length + read_string_requested s = s.length := by
  unfold read_string_requested at h ⊢
  obtain ⟨h1, h2⟩ := read_int16_append_of_le s t (by omega)
  rw [read_string_eq (s ++ t), read_string_eq s, h1]
  simp only []
  by_cases hs : (read_int16 s).1 > 0
  · rw [if_pos hs] at h ⊢
    rw [if_pos hs, if_pos hs]
    obtain ⟨h3, h4⟩ := Read_append_of_le (read_int16 s).2 t (read_int16 s).1.toNat (by omega)
    exact ⟨h3, by omega⟩
  · rw [if_neg hs] at h ⊢
    rw [if_neg hs, if_neg hs]
    refine ⟨rfl, ?_⟩
    show (read_int16 s).2.length + (2 + 0) = s.length
    omega

theorem read_tag_append_of_le (s t : Stream) (tag : Int) (d : Stream) (h : 1 ≤ s.length)
    (h1 : read_tag s = .ok (tag, d)) :
    read_tag (s ++ t) = .ok (tag, d ++ t) ∧ d.length + 1 = s.length := by
  obtain ⟨h2, h3⟩ := Read_append_of_le s t 1 h
  have hb : tag_byte_read (s ++ t) = tag_byte_read s := by
    unfold tag_byte_read
    rw [h2]
  rw [read_tag_eq] at h1
  rw [read_tag_eq, hb, h2]
  split_ifs at h1 ⊢
  cases h1
  exact ⟨rfl, h3⟩

theorem read_bytes_append_of_le (s t : Stream) (size : Int) (buf : List Byte) (d : Stream)
    (h : size.toNat ≤ s.length) (h1 : read_bytes s size = .ok (buf, d)) :
    read_bytes (s ++ t) size = .ok (buf, d ++ t) ∧ d.length + size.toNat = s.length := by
  unfold read_bytes at h1 ⊢
  split_ifs at h1 ⊢
  cases h1
  obtain ⟨h2, h3⟩ := Read_append_of_le s t size.toNat h
  rw [h2]
  exact ⟨rfl, h3⟩

theorem read_int_array_values_loop_append_of_le (n : Nat) (s t : Stream) (values : List Int)
    (h : 4 * n ≤ s.length) :
    read_int_array_values_loop n (s ++ t) values =
        ((read_int_array_values_loop n s values).1,
          (read_int_array_values_loop n s values).2 ++ t) ∧
      (read_int_array_values_loop n s values).2.length + 4 * n = s.length := by
  induction n generalizing s values with
  | zero => exact ⟨rfl, rfl⟩
  | succ n ih =>
    obtain ⟨h1, h2⟩ := read_int32_append_of_le s t (by omega)
    have ea : ∀ x : Stream, read_int_array_values_loop (n + 1) x values =
        read_int_array_values_loop n (read_int32 x).2 (values ++ [(read_int32 x).1]) :=
      fun _ => rfl
    rw [ea, ea, h1]
    simp only []
    obtain ⟨h3, h4⟩ := ih (read_int32 s).2 (values ++ [(read_int32 s).1]) (by omega)
    exact ⟨h3, by omega⟩

theorem Parse_requested_end_node (fuel : Nat) (s : Stream) :
    Parse_requested (fuel + 1) (0 :: s) = 1 := by
  have h : read_tag ((0 : Byte) :: s) = .ok (0, s) := read_tag_cons_ok 0 s (by decide)
  rw [Parse_requested, h]
  simp [tag_end]

theorem Parse_requested_byte_node (fuel : Nat) (s : Stream) :
    Parse_requested (fuel + 1) (1 :: s) = 1 + read_string_requested s + 1 := by
  have h : read_tag ((1 : Byte) :: s) = .ok (1, s) := read_tag_cons_ok 1 s (by decide)
  rw [Parse_requested, h]
  simp [tag_end, tag_byte, tag_short, tag_int, tag_long, tag_float, tag_double,
    tag_byte_array, tag_string, tag_list, tag_compound, tag_int_array]

theorem Parse_requested_short_node (fuel : Nat) (s : Stream) :
    Parse_requested (fuel + 1) (2 :: s) = 1 + read_string_requested s + 2 := by
  have h : read_tag ((2 : Byte) :: s) = .ok (2, s) := read_tag_cons_ok 2 s (by decide)
  rw [Parse_requested, h]
  simp [tag_end, tag_byte, tag_short, tag_int, tag_long, tag_float, tag_double,
    tag_byte_array, tag_string, tag_list, tag_compound, tag_int_array]

theorem Parse_requested_int_node (fuel : Nat) (s : Stream) :
    Parse_requested (fuel + 1) (3 :: s) = 1 + read_string_requested s + 4 := by
  have h : read_tag ((3 : Byte) :: s) = .ok (3, s) := read_tag_cons_ok 3 s (by decide)
  rw [Parse_requested, h]
  simp [tag_end, tag_byte, tag_short, tag_int, tag_long, tag_float, tag_double,
    tag_byte_array, tag_string, tag_list, tag_compound, tag_int_array]

theorem Parse_requested_long_node (fuel : Nat) (s : Stream) :
    Parse_requested (fuel + 1) (4 :: s) = 1 + read_string_requested s + 8 := by
  have h : read_tag ((4 : Byte) :: s) = .ok (4, s) := read_tag_cons_ok 4 s (by decide)
  rw [Parse_requested, h]
  simp [tag_end, tag_byte, tag_short, tag_int, tag_long, tag_float, tag_double,
    tag_byte_array, tag_string, tag_list, tag_compound, tag_int_array]

theorem Parse_requested_float_node (fuel : Nat) (s : Stream) :
    Parse_requested (fuel + 1) (5 :: s) = 1 + read_string_requested s + 4 := by
  have h : read_tag ((5 : Byte) :: s) = .ok (5, s) := read_tag_cons_ok 5 s (by decide)
  rw [Parse_requested, h]
  simp [tag_end, tag_byte, tag_short, tag_int, tag_long, tag_float, tag_double,
    tag_byte_array, tag_string, tag_list, tag_compound, tag_int_array]

theorem Parse_requested_double_node (fuel : Nat) (s : Stream) :
    Parse_requested (fuel + 1) (6 :: s) = 1 + read_string_requested s + 8 := by
  have h : read_tag ((6 : Byte) :: s) = .ok (6, s) := read_tag_cons_ok 6 s (by decide)
  rw [Parse_requested, h]
  simp [tag_end, tag_byte, tag_short, tag_int, tag_long, tag_float, tag_double,
    tag_byte_array, tag_string, tag_list, tag_compound, tag_int_array]

theorem Parse_requested_byte_array_node (fuel : Nat) (s : Stream) :
    Parse_requested (fuel + 1) (7 :: s) = 1 + read_string_requested s + (4 + (read_int32 (read_string s).2).1.toNat) := by
  have h : read_tag ((7 : Byte) :: s) = .ok (7, s) := read_tag_cons_ok 7 s (by decide)
  rw [Parse_requested, h]
  simp [tag_end, tag_byte, tag_short, tag_int, tag_long, tag_float, tag_double,
    tag_byte_array, tag_string, tag_list, tag_compound, tag_int_array]

theorem Parse_requested_string_node (fuel : Nat) (s : Stream) :
    Parse_requested (fuel + 1) (8 :: s) = 1 + read_string_requested s + read_string_requested (read_string s).2 := by
  have h : read_tag ((8 : Byte) :: s) = .ok (8, s) := read_tag_cons_ok 8 s (by decide)
  rw [Parse_requested, h]
  simp [tag_end, tag_byte, tag_short, tag_int, tag_long, tag_float, tag_double,
    tag_byte_array, tag_string, tag_list, tag_compound, tag_int_array]

theorem Parse_requested_compound_node (fuel : Nat) (s : Stream) :
    Parse_requested (fuel + 1) (10 :: s) = 1 + read_string_requested s + read_compound_values_requested fuel (read_string s).2 := by
  have h : read_tag ((10 : Byte) :: s) = .ok (10, s) := read_tag_cons_ok 10 s (by decide)
  rw [Parse_requested, h]
  simp [tag_end, tag_byte, tag_short, tag_int, tag_long, tag_float, tag_double,
    tag_byte_array, tag_string, tag_list, tag_compound, tag_int_array]

theorem Parse_requested_int_array_node (fuel : Nat) (s : Stream) :
    Parse_requested (fuel + 1) (11 :: s) = 1 + read_string_requested s + (4 + 4 * (read_int32 (read_string s).2).1.toNat) := by
  have h : read_tag ((11 : Byte) :: s) = .ok (11, s) := read_tag_cons_ok 11 s (by decide)
  rw [Parse_requested, h]
  simp [tag_end, tag_byte, tag_short, tag_int, tag_long, tag_float, tag_double,
    tag_byte_array, tag_string, tag_list, tag_compound, tag_int_array]

theorem Parse_requested_list_node (fuel : Nat) (s : Stream) (list_type : Int) (d : Stream)
    (h1 : read_tag (read_string s).2 = .ok (list_type, d)) :
    Parse_requested (fuel + 1) (9 :: s) = 1 + read_string_requested s +
      (1 + 4 + read_list_values_requested fuel (read_int32 d).2 list_type (read_int32 d).1 0) := by
  have h : read_tag ((9 : Byte) :: s) = .ok (9, s) := read_tag_cons_ok 9 s (by decide)
  rw [Parse_requested, h]
  simp [tag_end, tag_byte, tag_short, tag_int, tag_long, tag_float, tag_double,
    tag_byte_array, tag_string, tag_list, tag_compound, tag_int_array, h1]

theorem Parse_requested_nil (fuel : Nat) : Parse_requested (fuel + 1) [] = 1 := by
  have h : read_tag ([] : Stream) = .ok (0, []) := rfl
  rw [Parse_requested, h]
  simp [tag_end]

theorem extension_invariant (fuel : Nat) :
    (∀ (s t : Stream) (T : Tag) (r : Stream), Parse fuel s = .ok (T, r) →
      Parse_requested fuel s ≤ s.length →
      Parse fuel (s ++ t) = .ok (T, r ++ t) ∧ r.length + Parse_requested fuel s = s.length) ∧
    (∀ (s t : Stream) (values vs : List Tag) (r : Stream),
      read_compound_values fuel s values = .ok (vs, r) →
      read_compound_values_requested fuel s ≤ s.length →
      read_compound_values fuel (s ++ t) values = .ok (vs, r ++ t) ∧
        r.length + read_compound_values_requested fuel s = s.length) ∧
    (∀ (s t : Stream) (list_type size i : Int) (values vs : List Tag) (r : Stream),
      read_list_values fuel s list_type size i values = .ok (vs, r) →
      read_list_values_requested fuel s list_type size i ≤ s.length →
      read_list_values fuel (s ++ t) list_type size i values = .ok (vs, r ++ t) ∧
        r.length + read_list_values_requested fuel s list_type size i = s.length) := by
  induction fuel with
  | zero =>
    refine ⟨fun s t T r h => ?_, fun s t values vs r h => ?_,
      fun s t list_type size i values vs r h => ?_⟩
    · rw [Parse.eq_1] at h; cases h
    · rw [read_compound_values.eq_1] at h; cases h
    · rw [read_list_values.eq_1] at h; cases h
  | succ fuel ih =>
    obtain ⟨ihP, ihC, ihL⟩ := ih
    refine ⟨?_, ?_, ?_⟩
    · intro s0 t T r h hreq
      rcases stream_cases s0 with rfl | ⟨b, s, rfl, hb⟩ | ⟨s, rfl⟩ | ⟨s, rfl⟩ | ⟨s, rfl⟩ |
        ⟨s, rfl⟩ | ⟨s, rfl⟩ | ⟨s, rfl⟩ | ⟨s, rfl⟩ | ⟨s, rfl⟩ | ⟨s, rfl⟩ | ⟨s, rfl⟩ | ⟨s, rfl⟩ |
        ⟨s, rfl⟩
      · rw [Parse_requested_nil] at hreq
        simp at hreq
      · rw [Parse_bad_tag fuel b s hb] at h; cases h
      · rw [Parse_requested_end_node] at hreq ⊢
        rw [Parse_end_node] at h
        cases h
        rw [List.cons_append, Parse_end_node]
        exact ⟨rfl, rfl⟩
      · rw [Parse_requested_byte_node] at hreq ⊢
        rw [Parse_byte_node] at h
        cases h
        simp only [List.length_cons] at hreq ⊢
        obtain ⟨n1, n2⟩ := read_string_append_of_le s t (by omega)
        obtain ⟨v1, v2⟩ := read_int8_append_of_le (read_string s).2 t (by omega)
        rw [List.cons_append, Parse_byte_node, n1]
        simp only []
        rw [v1]
        exact ⟨rfl, by omega⟩
      · rw [Parse_requested_short_node] at hreq ⊢
        rw [Parse_short_node] at h
        cases h
        simp only [List.length_cons] at hreq ⊢
        obtain ⟨n1, n2⟩ := read_string_append_of_le s t (by omega)
        obtain ⟨v1, v2⟩ := read_int16_append_of_le (read_string s).2 t (by omega)
        rw [List.cons_append, Parse_short_node, n1]
        simp only []
        rw [v1]
        exact ⟨rfl, by omega⟩
      · rw [Parse_requested_int_node] at hreq ⊢
        rw [Parse_int_node] at h
        cases h
        simp only [List.length_cons] at hreq ⊢
        obtain ⟨n1, n2⟩ := read_string_append_of_le s t (by omega)
        obtain ⟨v1, v2⟩ := read_int32_append_of_le (read_string s).2 t (by omega)
        rw [List.cons_append, Parse_int_node, n1]
        simp only []
        rw [v1]
        exact ⟨rfl, by omega⟩
      · rw [Parse_requested_long_node] at hreq ⊢
        rw [Parse_long_node] at h
        cases h
        simp only [List.length_cons] at hreq ⊢
        obtain ⟨n1, n2⟩ := read_string_append_of_le s t (by omega)
        obtain ⟨v1, v2⟩ := read_int64_append_of_le (read_string s).2 t (by omega)
        rw [List.cons_append, Parse_long_node, n1]
        simp only []
        rw [v1]
        exact ⟨rfl, by omega⟩
      · rw [Parse_requested_float_node] at hreq ⊢
        rw [Parse_float_node] at h
        cases h
        simp only [List.length_cons] at hreq ⊢
        obtain ⟨n1, n2⟩ := read_string_append_of_le s t (by omega)
        obtain ⟨v1, v2⟩ := read_float32_append_of_le (read_string s).2 t (by omega)
        rw [List.cons_append, Parse_float_node, n1]
        simp only []
        rw [v1]
        exact ⟨rfl, by omega⟩
      · rw [Parse_requested_double_node] at hreq ⊢
        rw [Parse_double_node] at h
        cases h
        simp only [List.length_cons] at hreq ⊢
        obtain ⟨n1, n2⟩ := read_string_append_of_le s t (by omega)
        obtain ⟨v1, v2⟩ := read_float64_append_of_le (read_string s).2 t (by omega)
        rw [List.cons_append, Parse_double_node, n1]
        simp only []
        rw [v1]
        exact ⟨rfl, by omega⟩
      · rw [Parse_requested_byte_array_node] at hreq ⊢
        rw [Parse_byte_array_node] at h
        simp only [List.length_cons] at hreq ⊢
        obtain ⟨n1, n2⟩ := read_string_append_of_le s t (by omega)
        obtain ⟨v1, v2⟩ := read_int32_append_of_le (read_string s).2 t (by omega)
        cases h1 : read_bytes (read_int32 (read_string s).2).2 (read_int32 (read_string s).2).1 with
        | error e => rw [h1] at h; cases h
        | ok x =>
          obtain ⟨buf, d⟩ := x
          rw [h1] at h
          cases h
          obtain ⟨w1, w2⟩ := read_bytes_append_of_le _ t _ buf r (by omega) h1
          rw [List.cons_append, Parse_byte_array_node, n1]
          simp only []
          rw [v1]
          simp only []
          rw [w1]
          exact ⟨rfl, by omega⟩
      · rw [Parse_requested_string_node] at hreq ⊢
        rw [Parse_string_node] at h
        cases h
        simp only [List.length_cons] at hreq ⊢
        obtain ⟨n1, n2⟩ := read_string_append_of_le s t (by omega)
        obtain ⟨v1, v2⟩ := read_string_append_of_le (read_string s).2 t (by omega)
        rw [List.cons_append, Parse_string_node, n1]
        simp only []
        rw [v1]
        exact ⟨rfl, by omega⟩
      · rw [Parse_list_node] at h
        cases h1 : read_tag (read_string s).2 with
        | error e => rw [h1] at h; cases h
        | ok x =>
          obtain ⟨lt, d2⟩ := x
          rw [h1] at h
          simp only [] at h
          rw [Parse_requested_list_node fuel s lt d2 h1] at hreq ⊢
          simp only [List.length_cons] at hreq ⊢
          obtain ⟨n1, n2⟩ := read_string_append_of_le s t (by omega)
          obtain ⟨g1, g2⟩ := read_tag_append_of_le (read_string s).2 t lt d2 (by omega) h1
          obtain ⟨v1, v2⟩ := read_int32_append_of_le d2 t (by omega)
          cases h2 : read_list_values fuel (read_int32 d2).2 lt (read_int32 d2).1 0 [] with
          | error e => rw [h2] at h; cases h
          | ok y =>
            obtain ⟨vs, d3⟩ := y
            rw [h2] at h
            cases h
            obtain ⟨w1, w2⟩ := ihL _ t _ _ _ _ _ _ h2 (by omega)
            rw [List.cons_append, Parse_list_node, n1]
            simp only []
            rw [g1]
            simp only []
            rw [v1]
            simp only []
            rw [w1]
            exact ⟨rfl, by omega⟩
      · rw [Parse_requested_compound_node] at hreq ⊢
        rw [Parse_compound_node] at h
        simp only [List.length_cons] at hreq ⊢
        obtain ⟨n1, n2⟩ := read_string_append_of_le s t (by omega)
        cases h2 : read_compound_values fuel (read_string s).2 [] with
        | error e => rw [h2] at h; cases h
        | ok y =>
          obtain ⟨vs, d3⟩ := y
          rw [h2] at h
          cases h
          obtain ⟨w1, w2⟩ := ihC _ t _ _ _ h2 (by omega)
          rw [List.cons_append, Parse_compound_node, n1]
          simp only []
          rw [w1]
          exact ⟨rfl, by omega⟩
      · rw [Parse_requested_int_array_node] at hreq ⊢
        rw [Parse_int_array_node] at h
        cases h
        simp only [List.length_cons] at hreq ⊢
        obtain ⟨n1, n2⟩ := read_string_append_of_le s t (by omega)
        obtain ⟨v1, v2⟩ := read_int32_append_of_le (read_string s).2 t (by omega)
        obtain ⟨w1, w2⟩ := read_int_array_values_loop_append_of_le
          (read_int32 (read_string s).2).1.toNat (read_int32 (read_string s).2).2 t []
          (by omega)
        rw [List.cons_append, Parse_int_array_node, n1]
        simp only []
        rw [v1]
        simp only [read_int_array_values]
        rw [w1]
        exact ⟨rfl, by omega⟩
    · intro s t values vs r h hreq
      rw [read_compound_values.eq_2] at h
      rw [read_compound_values_requested.eq_2] at hreq ⊢
      cases h1 : Parse fuel s with
      | error e => rw [h1] at h; cases h
      | ok x =>
        obtain ⟨tag, d1⟩ := x
        rw [h1] at h hreq
        dsimp only at h hreq ⊢
        by_cases h3 : tag.isEndTag = true
        · rw [if_pos h3] at h hreq ⊢
          cases h
          obtain ⟨p1, p2⟩ := ihP s t tag r h1 (by omega)
          rw [read_compound_values.eq_2, p1]
          dsimp only
          rw [if_pos h3]
          exact ⟨rfl, by omega⟩
        · rw [if_neg h3] at h hreq ⊢
          obtain ⟨p1, p2⟩ := ihP s t tag d1 h1 (by omega)
          obtain ⟨w1, w2⟩ := ihC d1 t (values ++ [tag]) vs r h (by omega)
          rw [read_compound_values.eq_2, p1]
          dsimp only
          rw [if_neg h3]
          exact ⟨w1, by omega⟩
    · intro s t list_type size i values vs r h hreq
      rw [read_list_values.eq_2] at h
      rw [read_list_values_requested.eq_2] at hreq ⊢
      rw [read_list_values.eq_2]
      by_cases hi : i < size
      · rw [if_pos hi] at h hreq ⊢
        rw [if_pos hi]
        by_cases h5 : list_type = tag_float
        · rw [if_pos h5] at h hreq ⊢
          rw [if_pos h5]
          obtain ⟨v1, v2⟩ := read_float32_append_of_le s t (by omega)
          obtain ⟨w1, w2⟩ := ihL (read_float32 s).2 t list_type size (i + 1)
            (values ++ [Tag.FloatTag [] (read_float32 s).1]) vs r h (by omega)
          rw [v1]
          exact ⟨w1, by omega⟩
        · rw [if_neg h5] at h hreq ⊢
          rw [if_neg h5]
          by_cases h6 : list_type = tag_double
          · rw [if_pos h6] at h hreq ⊢
            rw [if_pos h6]
            obtain ⟨v1, v2⟩ := read_float64_append_of_le s t (by omega)
            obtain ⟨w1, w2⟩ := ihL (read_float64 s).2 t list_type size (i + 1)
              (values ++ [Tag.DoubleTag [] (read_float64 s).1]) vs r h (by omega)
            rw [v1]
            exact ⟨w1, by omega⟩
          · rw [if_neg h6] at h hreq ⊢
            rw [if_neg h6]
            by_cases h10 : list_type = tag_compound
            · rw [if_pos h10] at h hreq ⊢
              rw [if_pos h10]
              cases h2 : read_compound_values fuel s [] with
              | error e => rw [h2] at h; cases h
              | ok y =>
                obtain ⟨cs, d3⟩ := y
                rw [h2] at h hreq
                dsimp only at h hreq ⊢
                obtain ⟨c1, c2⟩ := ihC s t [] cs d3 h2 (by omega)
                obtain ⟨w1, w2⟩ := ihL d3 t list_type size (i + 1)
                  (values ++ [Tag.CompoundTag [] cs]) vs r h (by omega)
                rw [c1]
                exact ⟨w1, by omega⟩
            · rw [if_neg h10] at h; cases h
      · rw [if_neg hi] at h hreq ⊢
        rw [if_neg hi]
        cases h
        exact ⟨rfl, rfl⟩

/-- C18: `Parse` reads exactly one node and is independent of what follows it.  If
`Parse` on `s` succeeds with tag `T` having consumed every byte of `s` (nothing is left)
and with no read running past the end of `s` (the bytes requested from the reader, all
reads together, are at most the length of `s`), then for every `t`, `Parse` on `s ++ t`
succeeds with the same tag `T` and leaves exactly `t` unread. -/
theorem Parse_independent_of_suffix (fuel : Nat) (s t : Stream) (T : Tag)
    (h : Parse fuel s = .ok (T, [])) (hreq : Parse_requested fuel s ≤ s.length) :
    Parse fuel (s ++ t) = .ok (T, t) := by
  have h1 := ((extension_invariant fuel).1 s t T [] h hreq).1
  rw [List.nil_append] at h1
  exact h1

/-- C18 on the Compound holding the String "a" = "b" and a List of one Float, followed
by the bytes `01 02 03`: the same tree is returned and the three bytes are left. -/
theorem Parse_independent_of_suffix_witness :
    Parse 6 ([10, 0, 0, 8, 0, 1, 97, 0, 1, 98, 9, 0, 1, 108, 5, 0, 0, 0, 1, 0x3F, 0x80, 0, 0, 0]
        ++ [1, 2, 3])
      = .ok (.CompoundTag [] [.StringTag [97] [98], .ListTag [108] 5 [.FloatTag [] 0x3F800000]],
          [1, 2, 3]) :=
  Parse_independent_of_suffix 6
    [10, 0, 0, 8, 0, 1, 97, 0, 1, 98, 9, 0, 1, 108, 5, 0, 0, 0, 1, 0x3F, 0x80, 0, 0, 0]
    [1, 2, 3] _ rfl (by decide)

/-! ## Readers that deliver every requested byte -/

theorem Reader_Read_of_full (r : Reader) (n : Nat) (h : n ≤ r.caps.headD n) :
    r.Read n = ((Read r.bytes n).1, ⟨(Read r.bytes n).2, r.caps.tail⟩) := by
  have e : r.delivered n = min n r.bytes.length := by
    unfold Reader.delivered
    rw [Nat.min_eq_left h]
  unfold Reader.Read Read
  rw [e]
  by_cases hn : n ≤ r.bytes.length
  · rw [Nat.min_eq_left hn]
    have : n - r.bytes.length = 0 := by omega
    simp [this]
  · have hn2 : r.bytes.length ≤ n := by omega
    rw [Nat.min_eq_right hn2]
    simp [List.take_of_length_le hn2, List.drop_of_length_le hn2]

theorem Reader_read_int8_of_full (r : Reader) (h : 1 ≤ r.caps.headD 1) :
    r.read_int8 = ((read_int8 r.bytes).1, ⟨(read_int8 r.bytes).2, r.caps.tail⟩) := by
  unfold Reader.read_int8
  rw [Reader_Read_of_full r 1 h]
  rfl

theorem Reader_read_int16_of_full (r : Reader) (h : 2 ≤ r.caps.headD 2) :
    r.read_int16 = ((read_int16 r.bytes).1, ⟨(read_int16 r.bytes).2, r.caps.tail⟩) := by
  unfold Reader.read_int16
  rw [Reader_Read_of_full r 2 h]
  rfl

theorem Reader_read_int32_of_full (r : Reader) (h : 4 ≤ r.caps.headD 4) :
    r.read_int32 = ((read_int32 r.bytes).1, ⟨(read_int32 r.bytes).2, r.caps.tail⟩) := by
  unfold Reader.read_int32
  rw [Reader_Read_of_full r 4 h]
  rfl

theorem Reader_read_int64_of_full (r : Reader) (h : 8 ≤ r.caps.headD 8) :
    r.read_int64 = ((read_int64 r.bytes).1, ⟨(read_int64 r.bytes).2, r.caps.tail⟩) := by
  unfold Reader.read_int64
  rw [Reader_Read_of_full r 8 h]
  rfl

theorem Reader_read_float32_of_full (r : Reader) (h : 4 ≤ r.caps.headD 4) :
    r.read_float32 = ((read_float32 r.bytes).1, ⟨(read_float32 r.bytes).2, r.caps.tail⟩) := by
  unfold Reader.read_float32
  rw [Reader_Read_of_full r 4 h]
  rfl

theorem Reader_read_float64_of_full (r : Reader) (h : 8 ≤ r.caps.headD 8) :
    r.read_float64 = ((read_float64 r.bytes).1, ⟨(read_float64 r.bytes).2, r.caps.tail⟩) := by
  unfold Reader.read_float64
  rw [Reader_Read_of_full r 8 h]
  rfl

theorem Reader_read_tag_of_full (r : Reader) (h : 1 ≤ r.caps.headD 1) :
    r.read_tag =
      match read_tag r.bytes with
      | .error e => .error e
      | .ok (tag, data) => .ok (tag, ⟨data, r.caps.tail⟩) := by
  have e : r.read_tag =
      (if to_signed 8 (tag_byte_read r.bytes).val < 0 ∨
          to_signed 8 (tag_byte_read r.bytes).val > 11
        then .error (.read_tag_unknown_tag (to_signed 8 (tag_byte_read r.bytes).val))
        else .ok (to_signed 8 (tag_byte_read r.bytes).val,
          ⟨(Read r.bytes 1).2, r.caps.tail⟩)) := by
    unfold Reader.read_tag
    rw [Reader_read_int8_of_full r h]
    rfl
  rw [e, read_tag_unfold]
  split_ifs <;> rfl

theorem Reader_Read_never_short (data : Stream) (n : Nat) :
    Reader.Read (never_short data) n = ((Read data n).1, never_short (Read data n).2) :=
  Reader_Read_of_full (never_short data) n (Nat.le_refl n)

theorem Reader_read_int8_never_short (data : Stream) :
    Reader.read_int8 (never_short data) = ((read_int8 data).1, never_short (read_int8 data).2) :=
  Reader_read_int8_of_full (never_short data) (Nat.le_refl 1)

theorem Reader_read_int16_never_short (data : Stream) :
    Reader.read_int16 (never_short data) = ((read_int16 data).1, never_short (read_int16 data).2) :=
  Reader_read_int16_of_full (never_short data) (Nat.le_refl 2)

theorem Reader_read_int32_never_short (data : Stream) :
    Reader.read_int32 (never_short data) = ((read_int32 data).1, never_short (read_int32 data).2) :=
  Reader_read_int32_of_full (never_short data) (Nat.le_refl 4)

theorem Reader_read_int64_never_short (data : Stream) :
    Reader.read_int64 (never_short data) = ((read_int64 data).1, never_short (read_int64 data).2) :=
  Reader_read_int64_of_full (never_short data) (Nat.le_refl 8)

theorem Reader_read_float32_never_short (data : Stream) :
    Reader.read_float32 (never_short data) = ((read_float32 data).1, never_short (read_float32 data).2) :=
  Reader_read_float32_of_full (never_short data) (Nat.le_refl 4)

theorem Reader_read_float64_never_short (data : Stream) :
    Reader.read_float64 (never_short data) = ((read_float64 data).1, never_short (read_float64 data).2) :=
  Reader_read_float64_of_full (never_short data) (Nat.le_refl 8)

theorem Reader_read_string_never_short (data : Stream) :
    Reader.read_string (never_short data)
      = ((read_string data).1, never_short (read_string data).2) := by
  unfold Reader.read_string
  rw [Reader_read_int16_never_short, read_string_eq]
  simp only []
  split_ifs
  · exact Reader_Read_never_short _ _
  · rfl

theorem Reader_read_bytes_never_short (data : Stream) (size : Int) :
    Reader.read_bytes (never_short data) size = lift_result (read_bytes data size) := by
  unfold Reader.read_bytes read_bytes
  split_ifs
  · rfl
  · rw [Reader_Read_never_short]
    rfl

theorem Reader_read_tag_never_short (data : Stream) :
    Reader.read_tag (never_short data) = lift_result (read_tag data) := by
  rw [Reader_read_tag_of_full (never_short data) (Nat.le_refl 1)]
  cases h : read_tag data with
  | error e =>
    have : read_tag (never_short data).bytes = .error e := h
    rw [this]
    rfl
  | ok x =>
    have : read_tag (never_short data).bytes = .ok x := h
    rw [this]
    rfl

theorem Reader_read_int_array_values_loop_never_short (n : Nat) (data : Stream)
    (values : List Int) :
    Reader.read_int_array_values_loop n (never_short data) values
      = ((read_int_array_values_loop n data values).1,
          never_short (read_int_array_values_loop n data values).2) := by
  induction n generalizing data values with
  | zero => rfl
  | succ n ih =>
    have ea : Reader.read_int_array_values_loop (n + 1) (never_short data) values =
        Reader.read_int_array_values_loop n (Reader.read_int32 (never_short data)).2
          (values ++ [(Reader.read_int32 (never_short data)).1]) := rfl
    have eb : read_int_array_values_loop (n + 1) data values =
        read_int_array_values_loop n (read_int32 data).2 (values ++ [(read_int32 data).1]) := rfl
    rw [ea, eb, Reader_read_int32_never_short]
    exact ih _ _

/-! ## One step of `Reader.Parse` for each type tag -/

theorem Reader_Parse_read_tag_error (fuel : Nat) (r : Reader) (e : Panic)
    (h : r.read_tag = .error e) : Reader.Parse (fuel + 1) r = .error e := by
  rw [Reader.Parse, h]

theorem Reader_Parse_end_node (fuel : Nat) (r r1 : Reader) (h : r.read_tag = .ok (0, r1)) :
    Reader.Parse (fuel + 1) r = .ok (.EndTag, r1) := by
  rw [Reader.Parse, h]
  simp [tag_end]

theorem Reader_Parse_byte_node (fuel : Nat) (r r1 : Reader) (h : r.read_tag = .ok (1, r1)) :
    Reader.Parse (fuel + 1) r =
      .ok (.ByteTag r1.read_string.1 r1.read_string.2.read_int8.1,
        r1.read_string.2.read_int8.2) := by
  rw [Reader.Parse, h]
  simp [tag_end, tag_byte, tag_short, tag_int, tag_long, tag_float, tag_double,
    tag_byte_array, tag_string, tag_list, tag_compound, tag_int_array]

theorem Reader_Parse_short_node (fuel : Nat) (r r1 : Reader) (h : r.read_tag = .ok (2, r1)) :
    Reader.Parse (fuel + 1) r =
      .ok (.ShortTag r1.read_string.1 r1.read_string.2.read_int16.1,
        r1.read_string.2.read_int16.2) := by
  rw [Reader.Parse, h]
  simp [tag_end, tag_byte, tag_short, tag_int, tag_long, tag_float, tag_double,
    tag_byte_array, tag_string, tag_list, tag_compound, tag_int_array]

theorem Reader_Parse_int_node (fuel : Nat) (r r1 : Reader) (h : r.read_tag = .ok (3, r1)) :
    Reader.Parse (fuel + 1) r =
      .ok (.IntTag r1.read_string.1 r1.read_string.2.read_int32.1,
        r1.read_string.2.read_int32.2) := by
  rw [Reader.Parse, h]
  simp [tag_end, tag_byte, tag_short, tag_int, tag_long, tag_float, tag_double,
    tag_byte_array, tag_string, tag_list, tag_compound, tag_int_array]

theorem Reader_Parse_long_node (fuel : Nat) (r r1 : Reader) (h : r.read_tag = .ok (4, r1)) :
    Reader.Parse (fuel + 1) r =
      .ok (.LongTag r1.read_string.1 r1.read_string.2.read_int64.1,
        r1.read_string.2.read_int64.2) := by
  rw [Reader.Parse, h]
  simp [tag_end, tag_byte, tag_short, tag_int, tag_long, tag_float, tag_double,
    tag_byte_array, tag_string, tag_list, tag_compound, tag_int_array]

theorem Reader_Parse_float_node (fuel : Nat) (r r1 : Reader) (h : r.read_tag = .ok (5, r1)) :
    Reader.Parse (fuel + 1) r =
      .ok (.FloatTag r1.read_string.1 r1.read_string.2.read_float32.1,
        r1.read_string.2.read_float32.2) := by
  rw [Reader.Parse, h]
  simp [tag_end, tag_byte, tag_short, tag_int, tag_long, tag_float, tag_double,
    tag_byte_array, tag_string, tag_list, tag_compound, tag_int_array]

theorem Reader_Parse_double_node (fuel : Nat) (r r1 : Reader) (h : r.read_tag = .ok (6, r1)) :
    Reader.Parse (fuel + 1) r =
      .ok (.DoubleTag r1.read_string.1 r1.read_string.2.read_float64.1,
        r1.read_string.2.read_float64.2) := by
  rw [Reader.Parse, h]
  simp [tag_end, tag_byte, tag_short, tag_int, tag_long, tag_float, tag_double,
    tag_byte_array, tag_string, tag_list, tag_compound, tag_int_array]

theorem Reader_Parse_string_node (fuel : Nat) (r r1 : Reader) (h : r.read_tag = .ok (8, r1)) :
    Reader.Parse (fuel + 1) r =
      .ok (.StringTag r1.read_string.1 r1.read_string.2.read_string.1,
        r1.read_string.2.read_string.2) := by
  rw [Reader.Parse, h]
  simp [tag_end, tag_byte, tag_short, tag_int, tag_long, tag_float, tag_double,
    tag_byte_array, tag_string, tag_list, tag_compound, tag_int_array]

theorem Reader_Parse_byte_array_node (fuel : Nat) (r r1 r2 : Reader) (buf : List Byte)
    (h : r.read_tag = .ok (7, r1))
    (hb : r1.read_string.2.read_int32.2.read_bytes r1.read_string.2.read_int32.1
      = .ok (buf, r2)) :
    Reader.Parse (fuel + 1) r = .ok (.ByteArrayTag r1.read_string.1 buf, r2) := by
  rw [Reader.Parse, h]
  simp [tag_end, tag_byte, tag_short, tag_int, tag_long, tag_float, tag_double,
    tag_byte_array, tag_string, tag_list, tag_compound, tag_int_array, hb]

theorem Reader_Parse_byte_array_node_error (fuel : Nat) (r r1 : Reader) (e : Panic)
    (h : r.read_tag = .ok (7, r1))
    (hb : r1.read_string.2.read_int32.2.read_bytes r1.read_string.2.read_int32.1
      = .error e) :
    Reader.Parse (fuel + 1) r = .error e := by
  rw [Reader.Parse, h]
  simp [tag_end, tag_byte, tag_short, tag_int, tag_long, tag_float, tag_double,
    tag_byte_array, tag_string, tag_list, tag_compound, tag_int_array, hb]

theorem Reader_Parse_list_node (fuel : Nat) (r r1 r2 r3 : Reader) (list_type : Int)
    (vs : List Tag) (h : r.read_tag = .ok (9, r1))
    (h2 : r1.read_string.2.read_tag = .ok (list_type, r2))
    (hl : Reader.read_list_values fuel r2.read_int32.2 list_type r2.read_int32.1 0 []
      = .ok (vs, r3)) :
    Reader.Parse (fuel + 1) r = .ok (.ListTag r1.read_string.1 list_type vs, r3) := by
  rw [Reader.Parse, h]
  simp [tag_end, tag_byte, tag_short, tag_int, tag_long, tag_float, tag_double,
    tag_byte_array, tag_string, tag_list, tag_compound, tag_int_array, h2, hl]

theorem Reader_Parse_list_node_error (fuel : Nat) (r r1 r2 : Reader) (list_type : Int)
    (e : Panic) (h : r.read_tag = .ok (9, r1))
    (h2 : r1.read_string.2.read_tag = .ok (list_type, r2))
    (hl : Reader.read_list_values fuel r2.read_int32.2 list_type r2.read_int32.1 0 []
      = .error e) :
    Reader.Parse (fuel + 1) r = .error e := by
  rw [Reader.Parse, h]
  simp [tag_end, tag_byte, tag_short, tag_int, tag_long, tag_float, tag_double,
    tag_byte_array, tag_string, tag_list, tag_compound, tag_int_array, h2, hl]

theorem Reader_Parse_list_node_type_error (fuel : Nat) (r r1 : Reader) (e : Panic)
    (h : r.read_tag = .ok (9, r1)) (h2 : r1.read_string.2.read_tag = .error e) :
    Reader.Parse (fuel + 1) r = .error e := by
  rw [Reader.Parse, h]
  simp [tag_end, tag_byte, tag_short, tag_int, tag_long, tag_float, tag_double,
    tag_byte_array, tag_string, tag_list, tag_compound, tag_int_array, h2]

theorem Reader_Parse_compound_node (fuel : Nat) (r r1 r3 : Reader) (vs : List Tag)
    (h : r.read_tag = .ok (10, r1))
    (hc : Reader.read_compound_values fuel r1.read_string.2 [] = .ok (vs, r3)) :
    Reader.Parse (fuel + 1) r = .ok (.CompoundTag r1.read_string.1 vs, r3) := by
  rw [Reader.Parse, h]
  simp [tag_end, tag_byte, tag_short, tag_int, tag_long, tag_float, tag_double,
    tag_byte_array, tag_string, tag_list, tag_compound, tag_int_array, hc]

theorem Reader_Parse_compound_node_error (fuel : Nat) (r r1 : Reader) (e : Panic)
    (h : r.read_tag = .ok (10, r1))
    (hc : Reader.read_compound_values fuel r1.read_string.2 [] = .error e) :
    Reader.Parse (fuel + 1) r = .error e := by
  rw [Reader.Parse, h]
  simp [tag_end, tag_byte, tag_short, tag_int, tag_long, tag_float, tag_double,
    tag_byte_array, tag_string, tag_list, tag_compound, tag_int_array, hc]

theorem Reader_Parse_int_array_node (fuel : Nat) (r r1 : Reader)
    (h : r.read_tag = .ok (11, r1)) :
    Reader.Parse (fuel + 1) r =
      .ok (.IntArrayTag r1.read_string.1
          (r1.read_string.2.read_int32.2.read_int_array_values
            r1.read_string.2.read_int32.1).1,
        (r1.read_string.2.read_int32.2.read_int_array_values
            r1.read_string.2.read_int32.1).2) := by
  rw [Reader.Parse, h]
  simp [tag_end, tag_byte, tag_short, tag_int, tag_long, tag_float, tag_double,
    tag_byte_array, tag_string, tag_list, tag_compound, tag_int_array]

/-! ## The two embeddings agree on readers without short reads -/

theorem Reader_never_short_agree (fuel : Nat) :
    (∀ data, Reader.Parse fuel (never_short data) = lift_result (Parse fuel data)) ∧
    (∀ data values, Reader.read_compound_values fuel (never_short data) values
      = lift_result (read_compound_values fuel data values)) ∧
    (∀ data list_type size i values,
      Reader.read_list_values fuel (never_short data) list_type size i values
        = lift_result (read_list_values fuel data list_type size i values)) := by
  induction fuel with
  | zero =>
    refine ⟨fun data => ?_, fun data values => ?_, fun data list_type size i values => ?_⟩
    · rw [Reader.Parse.eq_1, Parse.eq_1]; rfl
    · rw [Reader.read_compound_values.eq_1, read_compound_values.eq_1]; rfl
    · rw [Reader.read_list_values.eq_1, read_list_values.eq_1]; rfl
  | succ fuel ih =>
    obtain ⟨ihP, ihC, ihL⟩ := ih
    have hR : ∀ (k : Byte) (_ : k.val ≤ 11) (s : Stream),
        Reader.read_tag (never_short (k :: s)) = .ok ((k.val : Int), never_short s) := by
      intro k hk s
      rw [Reader_read_tag_never_short, read_tag_cons_ok k s hk]
      rfl
    refine ⟨?_, ?_, ?_⟩
    · intro data
      rcases stream_cases data with rfl | ⟨b, s, rfl, hb⟩ | ⟨s, rfl⟩ | ⟨s, rfl⟩ | ⟨s, rfl⟩ |
        ⟨s, rfl⟩ | ⟨s, rfl⟩ | ⟨s, rfl⟩ | ⟨s, rfl⟩ | ⟨s, rfl⟩ | ⟨s, rfl⟩ | ⟨s, rfl⟩ | ⟨s, rfl⟩ |
        ⟨s, rfl⟩
      · rw [Parse_nil]
        exact Reader_Parse_end_node fuel _ (never_short []) rfl
      · rw [Parse_bad_tag fuel b s hb]
        refine Reader_Parse_read_tag_error fuel _ _ ?_
        rw [Reader_read_tag_never_short, read_tag_eq]
        have h1 : tag_byte_read (b :: s) = b := rfl
        rw [h1, if_neg (by omega)]
        rfl
      · rw [Parse_end_node]
        exact Reader_Parse_end_node fuel _ (never_short s) (hR 0 (by decide) s)
      · rw [Parse_byte_node,
          Reader_Parse_byte_node fuel _ (never_short s) (hR 1 (by decide) s)]
        simp only [Reader_read_string_never_short, Reader_read_int8_never_short]
        rfl
      · rw [Parse_short_node,
          Reader_Parse_short_node fuel _ (never_short s) (hR 2 (by decide) s)]
        simp only [Reader_read_string_never_short, Reader_read_int16_never_short]
        rfl
      · rw [Parse_int_node,
          Reader_Parse_int_node fuel _ (never_short s) (hR 3 (by decide) s)]
        simp only [Reader_read_string_never_short, Reader_read_int32_never_short]
        rfl
      · rw [Parse_long_node,
          Reader_Parse_long_node fuel _ (never_short s) (hR 4 (by decide) s)]
        simp only [Reader_read_string_never_short, Reader_read_int64_never_short]
        rfl
      · rw [Parse_float_node,
          Reader_Parse_float_node fuel _ (never_short s) (hR 5 (by decide) s)]
        simp only [Reader_read_string_never_short, Reader_read_float32_never_short]
        rfl
      · rw [Parse_double_node,
          Reader_Parse_double_node fuel _ (never_short s) (hR 6 (by decide) s)]
        simp only [Reader_read_string_never_short, Reader_read_float64_never_short]
        rfl
      · have hb : Reader.read_bytes (never_short s).read_string.2.read_int32.2
            (never_short s).read_string.2.read_int32.1
            = lift_result (read_bytes (read_int32 (read_string s).2).2
                (read_int32 (read_string s).2).1) := by
          simp only [Reader_read_string_never_short, Reader_read_int32_never_short]
          exact Reader_read_bytes_never_short _ _
        rw [Parse_byte_array_node]
        cases h1 : read_bytes (read_int32 (read_string s).2).2 (read_int32 (read_string s).2).1 with
        | error e =>
          rw [h1] at hb
          exact Reader_Parse_byte_array_node_error fuel _ (never_short s) e
            (hR 7 (by decide) s) hb
        | ok x =>
          obtain ⟨buf, d⟩ := x
          rw [h1] at hb
          rw [Reader_Parse_byte_array_node fuel _ (never_short s) (never_short d) buf
            (hR 7 (by decide) s) hb]
          simp only [Reader_read_string_never_short]
          rfl
      · rw [Parse_string_node,
          Reader_Parse_string_node fuel _ (never_short s) (hR 8 (by decide) s)]
        simp only [Reader_read_string_never_short, Reader_read_string_never_short]
        rfl
      · have ht : Reader.read_tag (never_short s).read_string.2
            = lift_result (read_tag (read_string s).2) := by
          simp only [Reader_read_string_never_short]
          exact Reader_read_tag_never_short _
        rw [Parse_list_node]
        cases h1 : read_tag (read_string s).2 with
        | error e =>
          rw [h1] at ht
          exact Reader_Parse_list_node_type_error fuel _ (never_short s) e
            (hR 9 (by decide) s) ht
        | ok x =>
          obtain ⟨lt, d2⟩ := x
          rw [h1] at ht
          dsimp only
          have hl : Reader.read_list_values fuel (never_short d2).read_int32.2 lt
              (never_short d2).read_int32.1 0 []
              = lift_result (read_list_values fuel (read_int32 d2).2 lt
                  (read_int32 d2).1 0 []) := by
            simp only [Reader_read_int32_never_short]
            exact ihL _ _ _ _ _
          cases h2 : read_list_values fuel (read_int32 d2).2 lt (read_int32 d2).1 0 [] with
          | error e =>
            rw [h2] at hl
            exact Reader_Parse_list_node_error fuel _ (never_short s) (never_short d2) lt e
              (hR 9 (by decide) s) ht hl
          | ok y =>
            obtain ⟨vs, d3⟩ := y
            rw [h2] at hl
            rw [Reader_Parse_list_node fuel _ (never_short s) (never_short d2)
              (never_short d3) lt vs (hR 9 (by decide) s) ht hl]
            simp only [Reader_read_string_never_short]
            rfl
      · have hc : Reader.read_compound_values fuel (never_short s).read_string.2 []
            = lift_result (read_compound_values fuel (read_string s).2 []) := by
          simp only [Reader_read_string_never_short]
          exact ihC _ _
        rw [Parse_compound_node]
        cases h2 : read_compound_values fuel (read_string s).2 [] with
        | error e =>
          rw [h2] at hc
          exact Reader_Parse_compound_node_error fuel _ (never_short s) e
            (hR 10 (by decide) s) hc
        | ok y =>
          obtain ⟨vs, d3⟩ := y
          rw [h2] at hc
          rw [Reader_Parse_compound_node fuel _ (never_short s) (never_short d3) vs
            (hR 10 (by decide) s) hc]
          simp only [Reader_read_string_never_short]
          rfl
      · rw [Parse_int_array_node,
          Reader_Parse_int_array_node fuel _ (never_short s) (hR 11 (by decide) s)]
        simp only [Reader_read_string_never_short, Reader_read_int32_never_short,
          Reader.read_int_array_values, read_int_array_values,
          Reader_read_int_array_values_loop_never_short]
        rfl
    · intro data values
      rw [Reader.read_compound_values.eq_2, read_compound_values.eq_2, ihP]
      cases h1 : Parse fuel data with
      | error e => rfl
      | ok x =>
        obtain ⟨tag, d1⟩ := x
        simp only [lift_result]
        by_cases h3 : tag.isEndTag = true
        · rw [if_pos h3, if_pos h3]
        · rw [if_neg h3, if_neg h3]
          exact ihC _ _
    · intro data list_type size i values
      rw [Reader.read_list_values.eq_2, read_list_values.eq_2]
      by_cases hi : i < size
      · rw [if_pos hi, if_pos hi]
        by_cases h5 : list_type = tag_float
        · rw [if_pos h5, if_pos h5, Reader_read_float32_never_short]
          exact ihL _ _ _ _ _
        · rw [if_neg h5, if_neg h5]
          by_cases h6 : list_type = tag_double
          · rw [if_pos h6, if_pos h6, Reader_read_float64_never_short]
            exact ihL _ _ _ _ _
          · rw [if_neg h6, if_neg h6]
            by_cases h10 : list_type = tag_compound
            · rw [if_pos h10, if_pos h10, ihC]
              cases h2 : read_compound_values fuel data [] with
              | error e => rfl
              | ok y =>
                obtain ⟨cs, d3⟩ := y
                simp only [lift_result]
                exact ihL _ _ _ _ _
            · rw [if_neg h10, if_neg h10]
              rfl
      · rw [if_neg hi, if_neg hi]
        rfl

/-- On a reader that never delivers a short read, the embedding of `Parse` over `Reader`
returns what the embedding over `Stream` returns. -/
theorem Reader_Parse_never_short (fuel : Nat) (data : Stream) :
    Reader.Parse fuel (never_short data) = lift_result (Parse fuel data) :=
  (Reader_never_short_agree fuel).1 data

/-! ## Reads of a reader whose bytes start with a known block -/

theorem Reader_Read_full (head rest : List Byte) (k c : Nat) (caps : List Nat)
    (hk : head.length = k) (hc : k ≤ c) :
    Reader.Read ⟨head ++ rest, c :: caps⟩ k = (head, ⟨rest, caps⟩) := by
  have hd : Reader.delivered ⟨head ++ rest, c :: caps⟩ k = k := by
    simp only [Reader.delivered, List.headD_cons, List.length_append, Nat.min_def]
    split_ifs <;> omega
  unfold Reader.Read
  rw [hd]
  subst hk
  simp

theorem Reader_Read_short (head rest : List Byte) (k n : Nat) (caps : List Nat)
    (hk : head.length = k) (hn : k ≤ n) :
    Reader.Read ⟨head ++ rest, k :: caps⟩ n
      = (head ++ List.replicate (n - k) 0, ⟨rest, caps⟩) := by
  have hd : Reader.delivered ⟨head ++ rest, k :: caps⟩ n = k := by
    simp only [Reader.delivered, List.headD_cons, List.length_append, Nat.min_def]
    split_ifs <;> omega
  unfold Reader.Read
  rw [hd]
  subst hk
  simp

theorem Reader_read_int16_full (b0 b1 : Byte) (rest : List Byte) (c : Nat) (caps : List Nat)
    (hc : 2 ≤ c) :
    Reader.read_int16 ⟨b0 :: b1 :: rest, c :: caps⟩
      = (to_signed 16 (BigEndian [b0, b1]), ⟨rest, caps⟩) := by
  have h := Reader_Read_full [b0, b1] rest 2 c caps rfl hc
  simp only [List.cons_append, List.nil_append] at h
  unfold Reader.read_int16
  rw [h]

theorem Reader_read_int32_full (b0 b1 b2 b3 : Byte) (rest : List Byte) (c : Nat)
    (caps : List Nat) (hc : 4 ≤ c) :
    Reader.read_int32 ⟨b0 :: b1 :: b2 :: b3 :: rest, c :: caps⟩
      = (to_signed 32 (BigEndian [b0, b1, b2, b3]), ⟨rest, caps⟩) := by
  have h := Reader_Read_full [b0, b1, b2, b3] rest 4 c caps rfl hc
  simp only [List.cons_append, List.nil_append] at h
  unfold Reader.read_int32
  rw [h]

/-- A name or string whose length field and bytes are both delivered in full. -/
theorem Reader_read_string_full (b0 b1 : Byte) (str rest : List Byte) (k c0 c1 : Nat)
    (caps : List Nat) (hk : str.length = k) (hpos : 0 < k)
    (hsz : to_signed 16 (BigEndian [b0, b1]) = (k : Int)) (h0 : 2 ≤ c0) (h1 : k ≤ c1) :
    Reader.read_string ⟨b0 :: b1 :: (str ++ rest), c0 :: c1 :: caps⟩
      = (str, ⟨rest, caps⟩) := by
  unfold Reader.read_string
  rw [Reader_read_int16_full b0 b1 _ c0 _ h0, hsz]
  have hp : ((k : Int) > 0) := by omega
  simp only [hp, if_true, Int.toNat_ofNat]
  exact Reader_Read_full str rest k c1 caps hk h1

/-- A name or string whose bytes are cut short by the reader after the block `head`. -/
theorem Reader_read_string_short (b0 b1 : Byte) (head rest : List Byte) (k n c0 : Nat)
    (caps : List Nat) (hk : head.length = k) (hn : k ≤ n) (hpos : 0 < n)
    (hsz : to_signed 16 (BigEndian [b0, b1]) = (n : Int)) (h0 : 2 ≤ c0) :
    Reader.read_string ⟨b0 :: b1 :: (head ++ rest), c0 :: k :: caps⟩
      = (head ++ List.replicate (n - k) 0, ⟨rest, caps⟩) := by
  unfold Reader.read_string
  rw [Reader_read_int16_full b0 b1 _ c0 _ h0, hsz]
  have hp : ((n : Int) > 0) := by omega
  simp only [hp, if_true, Int.toNat_ofNat]
  exact Reader_Read_short head rest k n caps hk hn

/-! ## Single iterations of the loops over a reader -/

theorem Reader_read_compound_values_step (fuel : Nat) (r r1 : Reader) (values : List Tag)
    (tag : Tag) (h : Reader.Parse fuel r = .ok (tag, r1)) (he : tag.isEndTag = false) :
    Reader.read_compound_values (fuel + 1) r values
      = Reader.read_compound_values fuel r1 (values ++ [tag]) := by
  rw [Reader.read_compound_values, h]
  simp [he]

theorem Reader_read_compound_values_end (fuel : Nat) (r r1 : Reader) (values : List Tag)
    (tag : Tag) (h : Reader.Parse fuel r = .ok (tag, r1)) (he : tag.isEndTag = true) :
    Reader.read_compound_values (fuel + 1) r values = .ok (values, r1) := by
  rw [Reader.read_compound_values, h]
  simp [he]

theorem Reader_read_compound_values_error (fuel : Nat) (r : Reader) (values : List Tag)
    (e : Panic) (h : Reader.Parse fuel r = .error e) :
    Reader.read_compound_values (fuel + 1) r values = .error e := by
  rw [Reader.read_compound_values, h]

theorem Reader_read_list_values_done (fuel : Nat) (r : Reader) (list_type size i : Int)
    (values : List Tag) (h : ¬ i < size) :
    Reader.read_list_values (fuel + 1) r list_type size i values = .ok (values, r) := by
  rw [Reader.read_list_values, if_neg h]

theorem Reader_read_list_values_double (fuel : Nat) (r : Reader) (size i : Int)
    (values : List Tag) (h : i < size) :
    Reader.read_list_values (fuel + 1) r 6 size i values
      = Reader.read_list_values fuel r.read_float64.2 6 size (i + 1)
          (values ++ [.DoubleTag [] r.read_float64.1]) := by
  rw [Reader.read_list_values, if_pos h]
  simp [tag_float, tag_double]

theorem Reader_read_int8_head (b : Byte) (rest : List Byte) (caps : List Nat)
    (hc : 1 ≤ caps.headD 1) :
    Reader.read_int8 ⟨b :: rest, caps⟩ = (to_signed 8 b.val, ⟨rest, caps.tail⟩) := by
  have hd : Reader.delivered ⟨b :: rest, caps⟩ 1 = 1 := by
    simp only [Reader.delivered, List.length_cons, Nat.min_def]
    split_ifs <;> omega
  unfold Reader.read_int8 Reader.Read
  rw [hd]
  simp

/-- A type byte in `0..11` that the reader delivers. -/
theorem Reader_read_tag_head (b : Byte) (rest : List Byte) (caps : List Nat) (k : Int)
    (hc : 1 ≤ caps.headD 1) (hk : to_signed 8 b.val = k) (h0 : 0 ≤ k) (h11 : k ≤ 11) :
    Reader.read_tag ⟨b :: rest, caps⟩ = .ok (k, ⟨rest, caps.tail⟩) := by
  unfold Reader.read_tag
  rw [Reader_read_int8_head b rest caps hc, hk]
  have h : ¬ (k < 0 ∨ k > tag_int_array) := by
    simp only [tag_int_array]
    omega
  simp only [h, if_false]

/-- A type byte outside `0..11` that the reader delivers. -/
theorem Reader_read_tag_head_error (b : Byte) (rest : List Byte) (caps : List Nat) (k : Int)
    (hc : 1 ≤ caps.headD 1) (hk : to_signed 8 b.val = k) (h : k < 0 ∨ 11 < k) :
    Reader.read_tag ⟨b :: rest, caps⟩ = .error (.read_tag_unknown_tag k) := by
  unfold Reader.read_tag
  rw [Reader_read_int8_head b rest caps hc, hk]
  have h2 : (k < 0 ∨ k > tag_int_array) := by
    simp only [tag_int_array]
    omega
  simp only [h2, if_true]

/-- An empty name or string: the length field `00 00`, delivered in full. -/
theorem Reader_read_string_empty (rest : List Byte) (c : Nat) (caps : List Nat)
    (hc : 2 ≤ c) :
    Reader.read_string ⟨0 :: 0 :: rest, c :: caps⟩ = ([], ⟨rest, caps⟩) := by
  unfold Reader.read_string
  rw [Reader_read_int16_full 0 0 _ c _ hc]
  rfl

/-! ## Runs of `Reader.Parse` on one node, read by read -/

theorem Reader_Parse_long_trace (fuel : Nat) (r r1 r2 r3 : Reader) (name : List Byte)
    (v : Int) (h1 : r.read_tag = .ok (4, r1)) (h2 : r1.read_string = (name, r2))
    (h3 : r2.read_int64 = (v, r3)) :
    Reader.Parse (fuel + 1) r = .ok (.LongTag name v, r3) := by
  rw [Reader_Parse_long_node fuel r r1 h1, h2, h3]

theorem Reader_Parse_byte_array_trace (fuel : Nat) (r r1 r2 r3 r4 : Reader)
    (name buf : List Byte) (size : Int) (h1 : r.read_tag = .ok (7, r1))
    (h2 : r1.read_string = (name, r2)) (h3 : r2.read_int32 = (size, r3))
    (h4 : r3.read_bytes size = .ok (buf, r4)) :
    Reader.Parse (fuel + 1) r = .ok (.ByteArrayTag name buf, r4) := by
  rw [Reader_Parse_byte_array_node fuel r r1 r4 buf h1 (by rw [h2, h3]; exact h4), h2]

theorem Reader_Parse_string_trace (fuel : Nat) (r r1 r2 r3 : Reader) (name v : List Byte)
    (h1 : r.read_tag = .ok (8, r1)) (h2 : r1.read_string = (name, r2))
    (h3 : r2.read_string = (v, r3)) :
    Reader.Parse (fuel + 1) r = .ok (.StringTag name v, r3) := by
  rw [Reader_Parse_string_node fuel r r1 h1, h2, h3]

theorem Reader_Parse_list_trace (fuel : Nat) (r r1 r2 r3 r4 r5 : Reader) (name : List Byte)
    (list_type size : Int) (values : List Tag) (h1 : r.read_tag = .ok (9, r1))
    (h2 : r1.read_string = (name, r2)) (h3 : r2.read_tag = .ok (list_type, r3))
    (h4 : r3.read_int32 = (size, r4))
    (h5 : Reader.read_list_values fuel r4 list_type size 0 [] = .ok (values, r5)) :
    Reader.Parse (fuel + 1) r = .ok (.ListTag name list_type values, r5) := by
  rw [Reader_Parse_list_node fuel r r1 r3 r5 list_type values h1 (by rw [h2]; exact h3)
    (by rw [h4]; exact h5), h2]

theorem Reader_Parse_list_trace_error (fuel : Nat) (r r1 r2 r3 r4 : Reader)
    (name : List Byte) (list_type size : Int) (e : Panic) (h1 : r.read_tag = .ok (9, r1))
    (h2 : r1.read_string = (name, r2)) (h3 : r2.read_tag = .ok (list_type, r3))
    (h4 : r3.read_int32 = (size, r4))
    (h5 : Reader.read_list_values fuel r4 list_type size 0 [] = .error e) :
    Reader.Parse (fuel + 1) r = .error e :=
  Reader_Parse_list_node_error fuel r r1 r3 list_type e h1 (by rw [h2]; exact h3)
    (by rw [h4]; exact h5)

theorem Reader_Parse_compound_trace_error (fuel : Nat) (r r1 r2 : Reader) (name : List Byte)
    (e : Panic) (h1 : r.read_tag = .ok (10, r1)) (h2 : r1.read_string = (name, r2))
    (h3 : Reader.read_compound_values fuel r2 [] = .error e) :
    Reader.Parse (fuel + 1) r = .error e :=
  Reader_Parse_compound_node_error fuel r r1 e h1 (by rw [h2]; exact h3)

theorem Reader_Parse_int_array_trace (fuel : Nat) (r r1 r2 r3 r4 : Reader)
    (name : List Byte) (size : Int) (values : List Int) (h1 : r.read_tag = .ok (11, r1))
    (h2 : r1.read_string = (name, r2)) (h3 : r2.read_int32 = (size, r3))
    (h4 : r3.read_int_array_values size = (values, r4)) :
    Reader.Parse (fuel + 1) r = .ok (.IntArrayTag name values, r4) := by
  rw [Reader_Parse_int_array_node fuel r r1 h1, h2, h3, h4]


/-! ## Runs through a buffered reader that delivers short reads

The inputs below are read through `bufio.NewReader`, whose buffer holds the first 4096
bytes of the stream: a call of `Read` at offset `o < 4096` for `n` bytes delivers
`min n (4096 - o)` bytes. -/

/-- C4 (the code departs from the specification when the reader delivers a short read): the Long
node `04`, name of 4089 bytes "a", payload `7F FF FF FF FF FF FF FF` is read through
`bufio.NewReader`.  The payload starts at offset 4092, so the call of `Read` for its 8
bytes delivers the 4 bytes left in the buffer; `read_int64` ignores the count and decodes
`7F FF FF FF 00 00 00 00`.  `Parse` returns the LongTag with Value 9223372032559808512
instead of 9223372036854775807 and leaves the last 4 payload bytes unread. -/
theorem Parse_long_short_read :
    Reader.Parse 1
        ⟨[4, 0x0F, 0xF9] ++ (List.replicate 4089 97 ++
            [0x7F, 0xFF, 0xFF, 0xFF, 0xFF, 0xFF, 0xFF, 0xFF]),
          [4096, 4095, 4093, 4]⟩
      = .ok (.LongTag (List.replicate 4089 97) 9223372032559808512,
          ⟨[0xFF, 0xFF, 0xFF, 0xFF], []⟩) :=
  Reader_Parse_long_trace 0 _ _ _ _ _ _
    (Reader_read_tag_head 4 _ [4096, 4095, 4093, 4] 4 (by decide) rfl (by decide) (by decide))
    (Reader_read_string_full 0x0F 0xF9 (List.replicate 4089 97)
      [0x7F, 0xFF, 0xFF, 0xFF, 0xFF, 0xFF, 0xFF, 0xFF] 4089 4095 4093 [4]
      (List.length_replicate _ _) (by decide) rfl (by decide) (by decide))
    rfl

/-- C6 (the code departs from the specification when the reader delivers a short read): the
ByteArray node `07`, empty name, length 5000, 5000 bytes `01`, followed by the byte `09`,
is read through `bufio.NewReader`.  The array starts at offset 7, so the call of `Read`
for its 5000 bytes delivers the 4089 buffered ones; `read_bytes` ignores the count.
`Parse` returns a ByteArrayTag whose Values are 4089 bytes `01` followed by 911 bytes
`00`, and leaves 911 bytes of the array (and the `09`) unread. -/
theorem Parse_byte_array_short_read :
    Reader.Parse 1
        ⟨[7, 0, 0, 0, 0, 0x13, 0x88] ++ (List.replicate 5000 1 ++ [9]),
          [4096, 4095, 4093, 4089]⟩
      = .ok (.ByteArrayTag [] (List.replicate 4089 1 ++ List.replicate 911 0),
          ⟨List.replicate 911 1 ++ [9], []⟩) := by
  have hsplit : (List.replicate 5000 1 ++ [9] : List Byte)
      = List.replicate 4089 1 ++ (List.replicate 911 1 ++ [9]) := by
    rw [← List.append_assoc, List.append_replicate_replicate]
  have hb : Reader.read_bytes
      ⟨List.replicate 4089 1 ++ (List.replicate 911 1 ++ [9]), [4089]⟩ 5000
      = .ok (List.replicate 4089 1 ++ List.replicate 911 0,
          ⟨List.replicate 911 1 ++ [9], []⟩) := by
    unfold Reader.read_bytes
    rw [if_neg (by decide)]
    exact congrArg Except.ok
      (Reader_Read_short (List.replicate 4089 1) _ 4089 5000 [] (List.length_replicate _ _)
        (by decide))
  rw [hsplit]
  exact Reader_Parse_byte_array_trace 0 _ _ _ _ _ _ _ _
    (Reader_read_tag_head 7 _ [4096, 4095, 4093, 4089] 7 (by decide) rfl (by decide)
      (by decide))
    (Reader_read_string_empty _ 4095 [4093, 4089] (by decide))
    (Reader_read_int32_full 0 0 0x13 0x88 _ 4093 [4089] (by decide))
    hb


/-- C1 (the code departs from the specification when the reader delivers a short read): the
stream `0A`, name "hello world", `08`, name "name", length 5000, 5000 bytes "B", `00`
has the specified form (n = "hello world", k = "name", v = 5000 times "B") and is
read through `bufio.NewReader`.  The value starts at offset 23, so the call of `Read`
for its 5000 bytes delivers the 4073 buffered ones; `read_string` ignores the count, the
next `read_tag` reads a value byte "B", and `Parse` aborts with
"read_tag: unknown tag 66" instead of returning the Compound. -/
theorem Parse_compound_of_one_string_short_read :
    Reader.Parse 4
        ⟨[0x0A, 0, 0x0B, 104, 101, 108, 108, 111, 32, 119, 111, 114, 108, 100,
            8, 0, 4, 110, 97, 109, 101, 0x13, 0x88] ++ (List.replicate 5000 66 ++ [0]),
          [4096, 4095, 4093, 4082, 4081, 4079, 4075, 4073]⟩
      = .error (.read_tag_unknown_tag 66) := by
  have hsplit : (List.replicate 5000 66 ++ [0] : List Byte)
      = List.replicate 4073 66 ++ (66 :: (List.replicate 926 66 ++ [0])) := by
    rw [show (66 : Byte) :: (List.replicate 926 66 ++ [0]) = List.replicate 927 66 ++ [0]
      from rfl, ← List.append_assoc, List.append_replicate_replicate]
  have hchild : Reader.Parse 2
      ⟨[8, 0, 4, 110, 97, 109, 101, 0x13, 0x88] ++
          (List.replicate 4073 66 ++ (66 :: (List.replicate 926 66 ++ [0]))),
        [4082, 4081, 4079, 4075, 4073]⟩
      = .ok (.StringTag [110, 97, 109, 101]
          (List.replicate 4073 66 ++ List.replicate 927 0),
          ⟨66 :: (List.replicate 926 66 ++ [0]), []⟩) :=
    Reader_Parse_string_trace 1 _ _ _ _ _ _
      (Reader_read_tag_head 8 _ [4082, 4081, 4079, 4075, 4073] 8 (by decide) rfl (by decide)
        (by decide))
      (Reader_read_string_full 0 4 [110, 97, 109, 101] _ 4 4081 4079 [4075, 4073] rfl
        (by decide) rfl (by decide) (by decide))
      (Reader_read_string_short 0x13 0x88 (List.replicate 4073 66)
        (66 :: (List.replicate 926 66 ++ [0])) 4073 5000 4075 []
        (List.length_replicate _ _) (by decide) (by decide) rfl (by decide))
  have hnext : Reader.Parse 1 ⟨66 :: (List.replicate 926 66 ++ [0]), []⟩
      = .error (.read_tag_unknown_tag 66) :=
    Reader_Parse_read_tag_error 0 _ _
      (Reader_read_tag_head_error 66 _ [] 66 (by decide) rfl (Or.inr (by decide)))
  rw [hsplit]
  exact Reader_Parse_compound_trace_error 3 _ _ _ _ _
    (Reader_read_tag_head 0x0A _ [4096, 4095, 4093, 4082, 4081, 4079, 4075, 4073] 10
      (by decide) rfl (by decide) (by decide))
    (Reader_read_string_full 0 0x0B [104, 101, 108, 108, 111, 32, 119, 111, 114, 108, 100]
      _ 11 4095 4093 [4082, 4081, 4079, 4075, 4073] rfl (by decide) rfl (by decide)
      (by decide))
    ((Reader_read_compound_values_step 2 _ _ [] _ hchild rfl).trans
      (Reader_read_compound_values_error 1 _ _ _ hnext))

/-- C10 (the code departs from the specification when the reader delivers a short read): the
String node `08`, name of 4092 bytes "a", value length `00 00`, followed by the byte
`09`, is read through `bufio.NewReader`.  The length field starts at offset 4095, so
the call of `Read` for its 2 bytes delivers 1 byte; `read_int16` ignores the count.
`Parse` returns the String with the empty Value but leaves the reader on the second byte
of the length field, not immediately after the length field. -/
theorem Parse_zero_length_short_read :
    Reader.Parse 1
        ⟨[8, 0x0F, 0xFC] ++ (List.replicate 4092 97 ++ [0, 0, 9]), [4096, 4095, 4093, 1]⟩
      = .ok (.StringTag (List.replicate 4092 97) [], ⟨[0, 9], []⟩) :=
  Reader_Parse_string_trace 0 _ _ _ _ _ _
    (Reader_read_tag_head 8 _ [4096, 4095, 4093, 1] 8 (by decide) rfl (by decide) (by decide))
    (Reader_read_string_full 0x0F 0xFC (List.replicate 4092 97) [0, 0, 9] 4092 4095 4093 [1]
      (List.length_replicate _ _) (by decide) rfl (by decide) (by decide))
    rfl

/-- C13 (the code departs from the specification when the reader delivers a short read): the
List node `09`, name of 4089 bytes "a", element type Compound (10), length
`00 00 00 01`, one empty compound `00`, is read through `bufio.NewReader`.  The length
field starts at offset 4093, so the call of `Read` for its 4 bytes delivers 3 bytes;
`read_int32` ignores the count and decodes `00 00 00 00`.  `Parse` returns a ListTag
with no children instead of one CompoundTag, and leaves `01 00` unread. -/
theorem Parse_list_of_compounds_short_read :
    Reader.Parse 2
        ⟨[9, 0x0F, 0xF9] ++ (List.replicate 4089 97 ++ [10, 0, 0, 0, 1, 0]),
          [4096, 4095, 4093, 4, 3]⟩
      = .ok (.ListTag (List.replicate 4089 97) 10 [], ⟨[1, 0], []⟩) :=
  Reader_Parse_list_trace 1 _ _ _ _ _ _ _ _ _ _
    (Reader_read_tag_head 9 _ [4096, 4095, 4093, 4, 3] 9 (by decide) rfl (by decide)
      (by decide))
    (Reader_read_string_full 0x0F 0xF9 (List.replicate 4089 97) [10, 0, 0, 0, 1, 0] 4089
      4095 4093 [4, 3] (List.length_replicate _ _) (by decide) rfl (by decide) (by decide))
    (Reader_read_tag_head 10 [0, 0, 0, 1, 0] [4, 3] 10 (by decide) rfl (by decide)
      (by decide))
    (show Reader.read_int32 ⟨[0, 0, 0, 1, 0], [3]⟩ = (0, ⟨[1, 0], []⟩) from rfl)
    rfl

/-- C14 (the code departs from the specification when the reader delivers a short read): the
List node `09`, name of 4087 bytes "a", element type Double (6), length 2, words
`3FF0000000000000` and `4000000000000000`, is read through `bufio.NewReader`.  The
first word starts at offset 4095, so the call of `Read` for its 8 bytes delivers 1 byte;
`read_float64` ignores the count, and the next call reads from the second byte of the
first word.  `Parse` returns children with bit patterns `3F00000000000000` and
`F000000000000040` instead of the two words, and leaves 7 bytes unread. -/
theorem Parse_list_of_double_short_read :
    Reader.Parse 4
        ⟨[9, 0x0F, 0xF7] ++ (List.replicate 4087 97 ++
            [6, 0, 0, 0, 2, 0x3F, 0xF0, 0, 0, 0, 0, 0, 0, 0x40, 0, 0, 0, 0, 0, 0, 0]),
          [4096, 4095, 4093, 6, 5, 1]⟩
      = .ok (.ListTag (List.replicate 4087 97) 6
            [.DoubleTag [] 0x3F00000000000000, .DoubleTag [] 0xF000000000000040],
          ⟨[0, 0, 0, 0, 0, 0, 0], []⟩) :=
  Reader_Parse_list_trace 3 _ _ _ _ _ _ _ _ _ _
    (Reader_read_tag_head 9 _ [4096, 4095, 4093, 6, 5, 1] 9 (by decide) rfl (by decide)
      (by decide))
    (Reader_read_string_full 0x0F 0xF7 (List.replicate 4087 97)
      [6, 0, 0, 0, 2, 0x3F, 0xF0, 0, 0, 0, 0, 0, 0, 0x40, 0, 0, 0, 0, 0, 0, 0] 4087
      4095 4093 [6, 5, 1] (List.length_replicate _ _) (by decide) rfl (by decide)
      (by decide))
    (Reader_read_tag_head 6 _ [6, 5, 1] 6 (by decide) rfl (by decide) (by decide))
    (show Reader.read_int32
        ⟨[0, 0, 0, 2, 0x3F, 0xF0, 0, 0, 0, 0, 0, 0, 0x40, 0, 0, 0, 0, 0, 0, 0], [5, 1]⟩
      = (2, ⟨[0x3F, 0xF0, 0, 0, 0, 0, 0, 0, 0x40, 0, 0, 0, 0, 0, 0, 0], [1]⟩) from rfl)
    rfl

/-- C15 (the code departs from the specification when the reader delivers a short read): the
IntArray node `0B`, name of 4088 bytes "a", length 1, element `01 02 03 04`, is read
through `bufio.NewReader`.  The element starts at offset 4095, so the call of `Read`
for its 4 bytes delivers 1 byte; `read_int32` ignores the count and decodes
`01 00 00 00`.  `Parse` returns Values = [16777216] instead of [16909060] and leaves
`02 03 04` unread. -/
theorem Parse_int_array_short_read :
    Reader.Parse 1
        ⟨[11, 0x0F, 0xF8] ++ (List.replicate 4088 97 ++ [0, 0, 0, 1, 1, 2, 3, 4]),
          [4096, 4095, 4093, 5, 1]⟩
      = .ok (.IntArrayTag (List.replicate 4088 97) [16777216], ⟨[2, 3, 4], []⟩) :=
  Reader_Parse_int_array_trace 0 _ _ _ _ _ _ _ _
    (Reader_read_tag_head 11 _ [4096, 4095, 4093, 5, 1] 11 (by decide) rfl (by decide)
      (by decide))
    (Reader_read_string_full 0x0F 0xF8 (List.replicate 4088 97) [0, 0, 0, 1, 1, 2, 3, 4]
      4088 4095 4093 [5, 1] (List.length_replicate _ _) (by decide) rfl (by decide)
      (by decide))
    (show Reader.read_int32 ⟨[0, 0, 0, 1, 1, 2, 3, 4], [5, 1]⟩
      = (1, ⟨[1, 2, 3, 4], [1]⟩) from rfl)
    rfl

/-- C20 (the code departs from the specification when the reader delivers a short read): the
String node `08`, name of 4092 bytes "a", value length `80 01` (high bit set), followed
by the byte `09`, is read through `bufio.NewReader`.  The length field starts at offset
4095, so the call of `Read` for its 2 bytes delivers 1 byte; `read_int16` ignores the
count and decodes `80 00`.  `read_string` returns the empty string having consumed one
byte of the length field, not two: the reader is left on the byte `01`. -/
theorem Parse_negative_length_short_read :
    Reader.Parse 1
        ⟨[8, 0x0F, 0xFC] ++ (List.replicate 4092 97 ++ [0x80, 0x01, 9]),
          [4096, 4095, 4093, 1]⟩
      = .ok (.StringTag (List.replicate 4092 97) [], ⟨[1, 9], []⟩) :=
  Reader_Parse_string_trace 0 _ _ _ _ _ _
    (Reader_read_tag_head 8 _ [4096, 4095, 4093, 1] 8 (by decide) rfl (by decide) (by decide))
    (Reader_read_string_full 0x0F 0xFC (List.replicate 4092 97) [0x80, 0x01, 9] 4092 4095
      4093 [1] (List.length_replicate _ _) (by decide) rfl (by decide) (by decide))
    rfl


/-! ## String lengths and unhandled list types over a reader -/

/-- C5 fails for a length with the high bit set even when no read is short: the stream
`80 00` followed by 32768 bytes of value 7 supplies `L = 32768` bytes after its length
prefix, and the reader delivers every byte asked for, yet `read_string` returns the
empty string and leaves all 32768 bytes unread. -/
theorem Reader_read_string_32768_returns_empty :
    Reader.read_string (never_short (be16 32768 ++ List.replicate 32768 7))
      = ([], never_short (List.replicate 32768 7)) ∧
    (Reader.read_string (never_short (be16 32768 ++ List.replicate 32768 7))).1
      ≠ List.replicate 32768 7 := by
  have h := read_string_of_negative 32768 (List.replicate 32768 7) (by decide) (by decide)
  rw [Reader_read_string_never_short, h]
  refine ⟨rfl, ?_⟩
  intro h2
  have h3 := congrArg List.length h2
  rw [List.length_nil, List.length_replicate] at h3
  omega

/-- C5 as amended: the length prefix is read as a signed 16-bit integer.  Let the call of
`Read` for the two length bytes be delivered in full.  For `L ≤ 32767`, a stream that
begins with `be16 L` followed by the `L` bytes `bytes`, and a call of `Read` for those
`L` bytes that is delivered in full, `read_string` returns exactly `bytes` and leaves
what follows them (it consumes `2 + L` bytes); for `32768 ≤ L ≤ 65535` it returns the
empty string and leaves everything after the two length bytes.  Nothing is stated for
a reader that delivers fewer bytes than asked for. -/
theorem Reader_read_string_signed_length (L : Nat) (bytes rest : List Byte)
    (caps : List Nat) (hcap : 2 ≤ caps.headD 2) :
    (L ≤ 32767 → bytes.length = L → L ≤ caps.tail.headD L →
      Reader.read_string ⟨be16 L ++ bytes ++ rest, caps⟩
        = (bytes, ⟨rest, if L = 0 then caps.tail else caps.tail.tail⟩) ∧
      (be16 L ++ bytes ++ rest).length = (2 + L) + rest.length) ∧
    (32768 ≤ L → L ≤ 65535 →
      Reader.read_string ⟨be16 L ++ rest, caps⟩ = ([], ⟨rest, caps.tail⟩)) := by
  refine ⟨fun h1 h2 h3 => ⟨?_, ?_⟩, fun h1 h2 => ?_⟩
  · have hv : to_signed 16 L = (L : Int) :=
      to_signed_of_lt 16 L (by decide) (by simp; omega)
    unfold Reader.read_string
    rw [Reader_read_int16_of_full _ hcap]
    dsimp only
    rw [List.append_assoc, read_int16_be16 L _ (by omega), hv]
    dsimp only
    by_cases h0 : L = 0
    · subst h0
      have hb : bytes = [] := List.length_eq_zero.mp h2
      subst hb
      simp
    · have hp : ((L : Int) > 0) := by omega
      rw [if_pos hp, if_neg h0, Int.toNat_ofNat,
        Reader_Read_of_full ⟨bytes ++ rest, caps.tail⟩ L h3]
      dsimp only
      rw [← h2, Read_append]
  · simp [be16]
    omega
  · have hv : to_signed 16 L = (L : Int) - ((2 ^ 16 : Nat) : Int) :=
      to_signed_of_ge 16 L (by simpa using h1) (by simp; omega)
    unfold Reader.read_string
    rw [Reader_read_int16_of_full _ hcap]
    dsimp only
    rw [read_int16_be16 L _ (by omega), hv]
    dsimp only
    rw [if_neg]
    push_cast
    omega

/-- C5 as amended, at `L = 3` with bytes "abc" followed by one more byte, read by a
reader that delivers at most 2 and then at most 3 bytes, and at `L = 65535` followed by
one byte. -/
theorem Reader_read_string_signed_length_witness :
    (Reader.read_string ⟨[0, 3, 97, 98, 99, 5], [2, 3]⟩ = ([97, 98, 99], ⟨[5], []⟩) ∧
      ([0, 3, 97, 98, 99, 5] : List Byte).length = (2 + 3) + 1) ∧
    Reader.read_string ⟨[255, 255, 5], [2, 1]⟩ = ([], ⟨[5], [1]⟩) :=
  ⟨(Reader_read_string_signed_length 3 [97, 98, 99] [5] [2, 3] (by decide)).1 (by decide) rfl
      (by decide),
   (Reader_read_string_signed_length 65535 [] [5] [2, 1] (by decide)).2 (by decide)
      (by decide)⟩

/-- C9 fails for a declared length of zero even when no read is short: the List node
with element type Byte (1) and length 0, delivered in full, does not abort; `Parse`
returns a ListTag with no children. -/
theorem Reader_Parse_empty_list_of_byte_succeeds :
    Reader.Parse 2 (never_short [9, 0, 0, 1, 0, 0, 0, 0])
      = .ok (.ListTag [] 1 [], never_short []) ∧
    Reader.Parse 2 (never_short [9, 0, 0, 1, 0, 0, 0, 0])
      ≠ .error (.unhandled_list_type 1) :=
  ⟨rfl, by
    rw [show Reader.Parse 2 (never_short [9, 0, 0, 1, 0, 0, 0, 0])
      = .ok (.ListTag [] 1 [], never_short []) from rfl]
    simp⟩

/-- C9 as amended: let the reader deliver the type byte `09` of a List node, let the name
field decode to `name` and leave the reader `r2` on an element-type byte `ty` in 0..11
other than Float (5), Double (6) and Compound (10), followed by a declared length `N`
with `1 ≤ N ≤ 2^31-1`, and let `r2` deliver the element-type byte and the four length
bytes in full.  Then `Parse` aborts with "read_list_values: unhandled list type" and
returns no tag.  Nothing is stated for a reader that delivers these fields short. -/
theorem Reader_Parse_list_unhandled_type (fuel : Nat) (s : List Byte) (caps : List Nat)
    (name rest : List Byte) (r2 : Reader) (ty : Byte) (N : Nat)
    (hty : ty.val ≤ 11) (h5 : ty.val ≠ 5) (h6 : ty.val ≠ 6) (h10 : ty.val ≠ 10)
    (hN1 : 1 ≤ N) (hN2 : N ≤ 2147483647)
    (hc0 : 1 ≤ caps.headD 1)
    (hs : Reader.read_string ⟨s, caps.tail⟩ = (name, r2))
    (hb : r2.bytes = ty :: (be32 N ++ rest))
    (hc1 : 1 ≤ r2.caps.headD 1) (hc2 : 4 ≤ r2.caps.tail.headD 4) :
    Reader.Parse (fuel + 2) ⟨9 :: s, caps⟩
      = .error (.unhandled_list_type (ty.val : Int)) := by
  obtain ⟨bytes2, caps2⟩ := r2
  dsimp only at hb hc1 hc2
  subst hb
  have hv8 : to_signed 8 ty.val = (ty.val : Int) :=
    to_signed_of_lt 8 ty.val (by decide) (by simp; omega)
  have hv32 : to_signed 32 N = (N : Int) :=
    to_signed_of_lt 32 N (by decide) (by simp; omega)
  have h4 : Reader.read_int32 ⟨be32 N ++ rest, caps2.tail⟩
      = ((N : Int), ⟨rest, caps2.tail.tail⟩) := by
    rw [Reader_read_int32_of_full _ hc2]
    dsimp only
    rw [read_int32_be32 N rest (by omega), hv32]
  have h5l : Reader.read_list_values (fuel + 1) ⟨rest, caps2.tail.tail⟩ (ty.val : Int)
      (N : Int) 0 [] = .error (.unhandled_list_type (ty.val : Int)) := by
    have hpos : (0 : Int) < (N : Int) := by omega
    have e5 : ¬ ((ty.val : Int) = tag_float) := by simp only [tag_float]; omega
    have e6 : ¬ ((ty.val : Int) = tag_double) := by simp only [tag_double]; omega
    have e10 : ¬ ((ty.val : Int) = tag_compound) := by simp only [tag_compound]; omega
    rw [Reader.read_list_values, if_pos hpos, if_neg e5, if_neg e6, if_neg e10]
  exact Reader_Parse_list_trace_error (fuel + 1) _ _ _ _ _ _ _ _ _
    (Reader_read_tag_head 9 s caps 9 hc0 rfl (by decide) (by decide))
    hs
    (Reader_read_tag_head ty (be32 N ++ rest) caps2 (ty.val : Int) hc1 hv8 (by omega)
      (by omega))
    h4 h5l

/-- C9 as amended, at the List of Long (4) with declared length 1 and name "a", read by a
reader that delivers each field of the header in exactly one call. -/
theorem Reader_Parse_list_unhandled_type_witness :
    Reader.Parse 2 ⟨[9, 0, 1, 97, 4, 0, 0, 0, 1, 0, 0, 0, 0, 0, 0, 0, 11], [1, 2, 1, 1, 4]⟩
      = .error (.unhandled_list_type 4) :=
  Reader_Parse_list_unhandled_type 0 [0, 1, 97, 4, 0, 0, 0, 1, 0, 0, 0, 0, 0, 0, 0, 11]
    [1, 2, 1, 1, 4] [97] [0, 0, 0, 0, 0, 0, 0, 11]
    ⟨[4, 0, 0, 0, 1, 0, 0, 0, 0, 0, 0, 0, 11], [1, 4]⟩ 4 1 (by decide) (by decide) (by decide)
    (by decide) (by decide) (by decide) (by decide) rfl rfl (by decide) (by decide)

end Nbt
